import Mathlib

/-!
ofxBlender: the `.blend` container loader (`src/File.cpp`).

A shallow embedding of `ofx::blender::File` and proofs about it.

Conventions of the embedding.

* A stream is a `List Nat` of bytes together with a position (`Nat`); strings
  are lists of character codes.
* A function returns `none` exactly where the C++ execution stops being
  determined by the file's bytes: a read past the end of the stream (the
  buffer of `readChar` is then uninitialised), a read through an index
  outside a vector, and the conversion to `unsigned int` of a `float` outside
  the range of `unsigned int`.  The link loop only forms the address of the
  vector element and returns for every index.  The source has no error path
  of its own.
* `unsigned int` arithmetic is arithmetic modulo `2 ^ 32`.
* `float` arithmetic is IEEE 754 single precision: a conversion, a sum and a
  product are each rounded to the nearest `float`, ties to even.
* `load` is modelled on a freshly constructed `File` (empty block list and
  catalog); the previous value of the member `pointerSize` is a parameter.
-/

namespace ofx.blender

/-! ## Stream helpers -/

/-- The helper `align(ifstream&)`, as a function of the stream position
(`streamoff`, a signed integer; `%` truncates towards zero). -/
def align (pos : Int) : Int :=
  let trim := Int.tmod pos 4
  if trim != 0 then pos + 4 - trim else pos

/-- The method `File::readChar(length)`: the next `length` bytes and the new
position; `none` when fewer than `length` bytes remain. -/
def readChar (data : List Nat) (pos length : Nat) : Option (List Nat × Nat) :=
  if pos + length ≤ data.length then some ((data.drop pos).take length, pos + length)
  else none

/-- Modelled from the spec: the "whitespace" that `trim` removes, taken as the
white space of the C locale (space, tab, line feed, vertical tab, form feed,
carriage return). -/
def isSpace (c : Nat) : Bool := c == 32 || (9 ≤ c && c ≤ 13)

/-- Modelled from the spec: `trim` is not defined under src/; the Byte Cursor
returns strings "with trailing and leading whitespace trimmed". -/
def trim (s : List Nat) : List Nat :=
  ((s.dropWhile isSpace).reverse.dropWhile isSpace).reverse

/-- The loop of `readString(0)`: the characters before the first NUL of the
remaining bytes, and the number of bytes consumed (the NUL included). -/
def readUntilNul : List Nat → Option (List Nat × Nat)
  | [] => none
  | cur :: rest =>
    if cur != 0 then (readUntilNul rest).map (fun r => (cur :: r.1, r.2 + 1))
    else some ([], 1)

/-- The method `File::readString(length)`. -/
def readString (data : List Nat) (pos length : Nat) : Option (List Nat × Nat) :=
  if length == 0 then
    (readUntilNul (data.drop pos)).map (fun r => (trim r.1, pos + r.2))
  else
    (readChar data pos length).map (fun r => (trim r.1, r.2))

/-- The value of a byte sequence read into an unsigned integer in host
(little-endian) order. -/
def decodeLE : List Nat → Nat
  | [] => 0
  | b :: bs => b % 256 + 256 * decodeLE bs

/-- Modelled from the spec: the template `File::read<T>()` is declared in
File.h, which is not under src/; the Byte Cursor "provides fixed-width reads".
A read of `width` bytes yields their value as an unsigned integer in host byte
order (the byte-order marker of the header is never consulted by `load`).
`width` is 2 for `unsigned short`, 4 for `unsigned int`, 8 for `unsigned long`. -/
def read (data : List Nat) (pos width : Nat) : Option (Nat × Nat) :=
  (readChar data pos width).map (fun r => (decodeLE r.1, r.2))

/-- The member `readPointer` as bound in `load`: `read<unsigned int>` when
`pointerSize == 4`, `read<unsigned long>` otherwise. -/
def readPointer (pointerSize : Nat) (data : List Nat) (pos : Nat) : Option (Nat × Nat) :=
  if pointerSize == 4 then read data pos 4 else read data pos 8

/-! ## The catalog's data model -/

/-- The class `DNAName` (File.h), reduced to the members `load` uses: the
declaration string and what the declaration parser derived from it. -/
structure DNAName where
  name : List Nat
  isPointer : Bool
  isArray : Bool
  arraySizes : List Int
deriving DecidableEq, Repr

/-- The class `DNAType`. -/
structure DNAType where
  name : List Nat
  id : Nat
  size : Nat
deriving DecidableEq, Repr

/-- The class `DNAField`; its `isPointer`, `isArray` and `arraySizes` are
those of its name. -/
structure DNAField where
  type : DNAType
  name : DNAName
  offset : Nat
deriving DecidableEq, Repr

/-- The class `DNAStructure`. -/
structure DNAStructure where
  type : DNAType
  fields : List DNAField
deriving DecidableEq, Repr

/-- The three tables of `File::catalog`. -/
structure Catalog where
  names : List DNAName
  types : List DNAType
  structures : List DNAStructure
deriving DecidableEq, Repr

/-- The class `File::Block`.  The member `structure` is a pointer: here the
structure it points to, and `none` when it is not set or points to no
structure of the catalog. -/
structure Block where
  code : List Nat
  size : Nat
  address : Nat
  SDNAIndex : Nat
  count : Nat
  offset : Nat
  «structure» : Option DNAStructure
deriving DecidableEq, Repr

/-- The members of `File` that `load` sets. -/
structure File where
  pointerSize : Nat
  version : List Nat
  blocks : List Block
  catalog : Catalog
deriving DecidableEq, Repr

/-! ## Character constants -/

/-- The string "BLENDER". -/
def BLENDER : List Nat := [66, 76, 69, 78, 68, 69, 82]
/-- The string "DNA1". -/
def DNA1 : List Nat := [68, 78, 65, 49]
/-- The string "SDNA". -/
def SDNA : List Nat := [83, 68, 78, 65]
/-- The string "ENDB". -/
def ENDB : List Nat := [69, 78, 68, 66]

/-! ## Block headers and the directory scan -/

/-- The method `File::readHeader(block)` at stream position `pos`; the
position after the header is the block's `offset`. -/
def readHeader (pointerSize : Nat) (data : List Nat) (pos : Nat) : Option Block := do
  let c ← readString data pos 4
  let cleanCode := c.1.filter (fun ch => ch != 0)
  if cleanCode != ENDB then
    let size ← read data c.2 4
    let address ← readPointer pointerSize data size.2
    let SDNAIndex ← read data address.2 4
    let count ← read data SDNAIndex.2 4
    some { code := cleanCode, size := size.1, address := address.1,
           SDNAIndex := SDNAIndex.1, count := count.1, offset := count.2,
           «structure» := none }
  else
    let size ← read data c.2 4
    some { code := cleanCode, size := size.1, address := 0, SDNAIndex := 0, count := 0,
           offset := size.2, «structure» := none }

/-- The loop condition of the scan, negated: the block is the catalog block. -/
def isCatalogCode (code : List Nat) : Bool := code == DNA1 || code == SDNA

/-- The `while` loop of `load` over the blocks, entered with `back`, the entry
whose header was read last: the entries from `back` on, in the order in which
they are pushed.  One unit of fuel per iteration. -/
def scanLoop (pointerSize : Nat) (data : List Nat) : Nat → Block → Option (List Block)
  | 0, _ => none
  | fuel + 1, back =>
    if isCatalogCode back.code then some [back]
    else do
      let next ← readHeader pointerSize data (back.offset + back.size)
      let rest ← scanLoop pointerSize data fuel next
      some (back :: rest)

/-- The directory scan of `load` from stream position `pos`: the first header,
then the loop.  Every header is at least 8 bytes long, so the loop runs fewer
than `data.length + 1` times (`scanLoop_fuel`). -/
def scanBlocks (pointerSize : Nat) (data : List Nat) (pos : Nat) : Option (List Block) := do
  let first ← readHeader pointerSize data pos
  scanLoop pointerSize data (data.length + 1) first

/-! ## Field layout -/

/-- A value of the C++ type `float` (IEEE 754 single precision) as it occurs
in the field loop of `load`.  The loop only converts integers to `float` and
adds and multiplies the results, and every such result is an integer, an
infinity or a NaN.  The sign of a zero is not kept: the two zeros compare
equal, convert to the same integer, and give the same results in the sums and
products of the loop. -/
inductive FloatValue where
  | finite (value : Int)
  | infinite (negative : Bool)
  | nan
deriving DecidableEq, Repr

/-- The number of low bits of `m` that do not fit into the 24-bit significand
of a `float`: the least `e` with `m / 2 ^ e < 2 ^ 24`, for `m < 2 ^ (24 + fuel)`. -/
def floatExponent : Nat → Nat → Nat
  | 0, _ => 0
  | fuel + 1, m => if m < 16777216 then 0 else floatExponent fuel (m / 2) + 1

/-- The `float` nearest to the integer `z`, ties to the even significand: the
conversion of an integer to `float`, and the rounding of the exact result of
a sum or a product of two integer-valued floats.  An integer below `2 ^ 24` in
magnitude is exact; a result of `2 ^ 128` or more in magnitude is an
infinity. -/
def roundFloat (z : Int) : FloatValue :=
  if z.natAbs < 16777216 then .finite z
  else if 2 ^ 128 ≤ z.natAbs then .infinite (decide (z < 0))
  else
    let e := floatExponent 104 z.natAbs
    let q := z.natAbs / 2 ^ e
    let r := z.natAbs % 2 ^ e
    let q1 := if 2 ^ e < 2 * r ∨ (2 * r = 2 ^ e ∧ q % 2 = 1) then q + 1 else q
    if 2 ^ 128 ≤ q1 * 2 ^ e then .infinite (decide (z < 0))
    else .finite (if z < 0 then -((q1 * 2 ^ e : Nat) : Int) else ((q1 * 2 ^ e : Nat) : Int))

/-- The sum of two floats. -/
def FloatValue.add : FloatValue → FloatValue → FloatValue
  | .finite a, .finite b => roundFloat (a + b)
  | .finite _, .infinite n => .infinite n
  | .infinite n, .finite _ => .infinite n
  | .infinite n, .infinite m => if n = m then .infinite n else .nan
  | .nan, _ => .nan
  | _, .nan => .nan

/-- The product of two floats. -/
def FloatValue.mul : FloatValue → FloatValue → FloatValue
  | .finite a, .finite b => roundFloat (a * b)
  | .finite a, .infinite n => if a = 0 then .nan else .infinite (decide (a < 0) != n)
  | .infinite n, .finite b => if b = 0 then .nan else .infinite (n != decide (b < 0))
  | .infinite n, .infinite m => .infinite (n != m)
  | .nan, _ => .nan
  | _, .nan => .nan

/-- The comparison `x == 0` of a float; `x != 0` is its negation, also for a
NaN. -/
def FloatValue.isZero : FloatValue → Bool
  | .finite z => z == 0
  | _ => false

/-- The conversion of a float to `unsigned int`.  It is defined when the value
lies in the range of `unsigned int`; for a negative value, a value of `2 ^ 32`
or more, an infinity or a NaN the behaviour is undefined in C++, and the
embedding stops. -/
def FloatValue.toUnsigned : FloatValue → Option Nat
  | .finite z => if 0 ≤ z ∧ z < 4294967296 then some z.toNat else none
  | _ => none

/-- The loop over `arraySizes` that accumulates `float multi`: `multi += s`
and `multi *= s` convert the `int s` to `float` and round the result. -/
def arrayMulti : List Int → FloatValue → FloatValue
  | [], multi => multi
  | s :: rest, multi =>
    if s != -1 then
      if multi.isZero then arrayMulti rest (multi.add (roundFloat s))
      else arrayMulti rest (multi.mul (roundFloat s))
    else arrayMulti rest multi

/-- The body of the field loop of `load` after the `push_back`: the value of
`curOffset` after the field, from its value before.  In the array branch
`curOffset += type->size * multi` is evaluated in `float`: the size and
`curOffset` are converted, the product and the sum are rounded, and the sum is
converted back to `unsigned int`. -/
def nextOffset (pointerSize : Nat) (field : DNAField) (curOffset : Nat) : Option Nat :=
  if field.name.isPointer then do
    let amount0 : Int ← (if field.name.isArray then field.name.arraySizes.head? else some 0)
    let amount : Int := if amount0 == 0 then 1 else amount0
    some (((curOffset : Int) + (pointerSize : Int) * amount) % 4294967296).toNat
  else if field.name.isArray then do
    let multi := arrayMulti field.name.arraySizes (.finite 0)
    let cur ← ((roundFloat curOffset).add
      ((roundFloat field.type.size).mul multi)).toUnsigned
    if multi.isZero then some ((cur + field.type.size) % 4294967296)
    else some cur
  else
    some ((curOffset + field.type.size) % 4294967296)

/-- The amount the loop body adds to `curOffset` for one field: the
right-hand sides of the `+=` statements that run for it, as an integer; in the
array branch the value of the float `type->size * multi`, and `none` when that
is not finite. -/
def offsetAdvance (pointerSize : Nat) (field : DNAField) : Option Int :=
  if field.name.isPointer then do
    let amount0 : Int ← (if field.name.isArray then field.name.arraySizes.head? else some 0)
    let amount : Int := if amount0 == 0 then 1 else amount0
    some ((pointerSize : Int) * amount)
  else if field.name.isArray then
    match (roundFloat field.type.size).mul (arrayMulti field.name.arraySizes (.finite 0)) with
    | .finite prod =>
      if (arrayMulti field.name.arraySizes (.finite 0)).isZero then
        some (prod + field.type.size)
      else some prod
    | _ => none
  else
    some field.type.size

/-- The spec's `multi`, for comparison with `arrayMulti`: "the product of all
dimensions that are not -1". -/
def sizedProduct (dims : List Int) : Int :=
  (dims.filter (fun s => s != -1)).prod

/-- The field loop of `load`: `numFields` pairs `(typeIndex, nameIndex)` from
position `pos`, with the running offset `curOffset`.  Returns the fields, the
position and the running offset after the last field. -/
def readFields (pointerSize : Nat) (data : List Nat) (types : List DNAType)
    (names : List DNAName) : Nat → Nat → Nat → Option (List DNAField × Nat × Nat)
  | 0, pos, curOffset => some ([], pos, curOffset)
  | numFields + 1, pos, curOffset => do
    let typeIndex ← read data pos 2
    let nameIndex ← read data typeIndex.2 2
    let type ← types[typeIndex.1]?
    let name ← names[nameIndex.1]?
    let field : DNAField := { type := type, name := name, offset := curOffset }
    let cur ← nextOffset pointerSize field curOffset
    let rest ← readFields pointerSize data types names numFields nameIndex.2 cur
    some (field :: rest.1, rest.2)

/-- One iteration of the structure loop of `load`: a structure record at
`pos`.  Returns the structure, the position after the record and the running
offset after its last field. -/
def readStructure (pointerSize : Nat) (data : List Nat) (types : List DNAType)
    (names : List DNAName) (pos : Nat) : Option (DNAStructure × Nat × Nat) := do
  let index ← read data pos 2
  let type ← types[index.1]?
  let numFields ← read data index.2 2
  let fields ← readFields pointerSize data types names numFields.1 numFields.2 0
  some ({ type := type, fields := fields.1 }, fields.2)

/-- The structure loop of `load`: `numStructs` records from `pos`. -/
def readStructures (pointerSize : Nat) (data : List Nat) (types : List DNAType)
    (names : List DNAName) : Nat → Nat → Option (List DNAStructure × Nat)
  | 0, pos => some ([], pos)
  | numStructs + 1, pos => do
    let s ← readStructure pointerSize data types names pos
    let rest ← readStructures pointerSize data types names numStructs s.2.1
    some (s.1 :: rest.1, rest.2)

/-! ## Names, types and type lengths -/

/-- The name loop of `load`; `parseName` is the constructor `DNAName(string)`
(File.h), the declaration parser. -/
def readNames (parseName : List Nat → DNAName) (data : List Nat) :
    Nat → Nat → Option (List DNAName × Nat)
  | 0, pos => some ([], pos)
  | numNames + 1, pos => do
    let s ← readString data pos 0
    let rest ← readNames parseName data numNames s.2
    some (parseName s.1 :: rest.1, rest.2)

/-- The type loop of `load` from index `i`: `DNAType(readString(0), i)`, the
size pending. -/
def readTypes (data : List Nat) : Nat → Nat → Nat → Option (List DNAType × Nat)
  | 0, pos, _ => some ([], pos)
  | numTypes + 1, pos, i => do
    let s ← readString data pos 0
    let rest ← readTypes data numTypes s.2 (i + 1)
    some ({ name := s.1, id := i, size := 0 } :: rest.1, rest.2)

/-- The type-length loop of `load` over the types just read: one
`unsigned short` per type, a zero replaced by `pointerSize`. -/
def readTypeLengths (pointerSize : Nat) (data : List Nat) :
    List DNAType → Nat → Option (List DNAType × Nat)
  | [], pos => some ([], pos)
  | t :: ts, pos => do
    let size ← read data pos 2
    let rest ← readTypeLengths pointerSize data ts size.2
    some ({ t with size := if size.1 == 0 then pointerSize else size.1 } :: rest.1, rest.2)

/-- The link loop of `load`: every block gets `&catalog.structures[SDNAIndex]`.
The index is not tested and the pointer is not followed: for an index outside
the table the loop goes on, and the block's pointer points to no structure of
the catalog (`none`). -/
def linkBlocks (structures : List DNAStructure) : List Block → List Block
  | [] => []
  | b :: bs => { b with «structure» := structures[b.SDNAIndex]? } :: linkBlocks structures bs

/-! ## `File::load` -/

/-- The stream `load` reads after its magic check: the file itself when it
begins with "BLENDER", otherwise what the decompression collaborator
(`inflate`, Poco's gzip stream copied to a temporary file) produces from it. -/
def openStream (inflate : List Nat → List Nat) (raw : List Nat) : Option (List Nat) := do
  let info ← readString raw 0 7
  if info.1 != BLENDER then
    let data := inflate raw
    let _ ← readString data 0 7
    some data
  else some raw

/-- The pointer size chosen from the marker string; any other marker leaves
the member as it was. -/
def choosePointerSize (pointerSize0 : Nat) (tempString : List Nat) : Nat :=
  if tempString == [45] then 8
  else if tempString == [95] then 4
  else pointerSize0

/-- The NAMES section of the catalog: the two tags skipped after the block
header, the count, the names, then `align`. -/
def readNameSection (parseName : List Nat → DNAName) (data : List Nat) (pos : Nat) :
    Option (List DNAName × Nat) := do
  let a1 ← readString data pos 4
  let a2 ← readString data a1.2 4
  let numNames ← read data a2.2 4
  let names ← readNames parseName data numNames.1 numNames.2
  some (names.1, (align names.2).toNat)

/-- The TYPES section: the tag, the count, the type names, then `align`. -/
def readTypeSection (data : List Nat) (pos : Nat) : Option (List DNAType × Nat) := do
  let t1 ← readString data pos 4
  let numTypes ← read data t1.2 4
  let types ← readTypes data numTypes.1 numTypes.2 0
  some (types.1, (align types.2).toNat)

/-- The TYPE LENGTHS section: the tag, one size per type, then `align`. -/
def readLengthSection (pointerSize : Nat) (data : List Nat) (types : List DNAType)
    (pos : Nat) : Option (List DNAType × Nat) := do
  let l1 ← readString data pos 4
  let sized ← readTypeLengths pointerSize data types l1.2
  some (sized.1, (align sized.2).toNat)

/-- The STRUCTURES section: the tag, the count, the records, then `align`. -/
def readStructureSection (pointerSize : Nat) (data : List Nat) (types : List DNAType)
    (names : List DNAName) (pos : Nat) : Option (List DNAStructure × Nat) := do
  let s1 ← readString data pos 4
  let numStructs ← read data s1.2 4
  let structures ← readStructures pointerSize data types names numStructs.1 numStructs.2
  some (structures.1, (align structures.2).toNat)

/-- The catalog part of `load`, from the position after the catalog block's
header to the position after the last `align`. -/
def readCatalog (parseName : List Nat → DNAName) (pointerSize : Nat) (data : List Nat)
    (pos : Nat) : Option (Catalog × Nat) := do
  let names ← readNameSection parseName data pos
  let types0 ← readTypeSection data names.2
  let types ← readLengthSection pointerSize data types0.1 types0.2
  let structures ← readStructureSection pointerSize data types.1 names.1 types.2
  some ({ names := names.1, types := types.1, structures := structures.1 }, structures.2)

/-- The part of `load` after the magic check, on the stream `data` whose
first 7 bytes have been read: the two markers, the version, the directory
scan, the catalog and the linking. -/
def loadStream (parseName : List Nat → DNAName) (pointerSize0 : Nat) (data : List Nat) :
    Option (Bool × File) := do
  let m1 ← readString data 7 1
  let pointerSize := choosePointerSize pointerSize0 m1.1
  let m2 ← readString data m1.2 1
  let version ← readString data m2.2 3
  let blocks ← scanBlocks pointerSize data version.2
  let back ← blocks.getLast?
  let catalog ← readCatalog parseName pointerSize data back.offset
  some (true, { pointerSize := pointerSize, version := version.1,
                blocks := linkBlocks catalog.1.structures blocks, catalog := catalog.1 })

/-- The method `File::load`: `raw` is the content of the file at `path`,
`inflate` the decompression collaborator, `parseName` the declaration parser
and `pointerSize0` the value of the member `pointerSize` before the call.
The result is the returned `bool` and the loaded members. -/
def load (inflate : List Nat → List Nat) (parseName : List Nat → DNAName)
    (pointerSize0 : Nat) (raw : List Nat) : Option (Bool × File) := do
  let data ← openStream inflate raw
  loadStream parseName pointerSize0 data

/-- Two streams of the same length that hold the same bytes from position `k`
on. -/
def AgreeFrom (k : Nat) (data data1 : List Nat) : Prop :=
  data.length = data1.length ∧ data.drop k = data1.drop k

/-! ## A worked example -/

/-- A small container with 4-byte pointers: the 12-byte file header, a block
"OB" with a 4-byte payload, the catalog block "DNA1" (4 names, 4 types, 2
structures) and the terminator "ENDB". -/
def demoFile : List Nat :=
  [66, 76, 69, 78, 68, 69, 82, 95, 118, 50, 55, 57, 79, 66, 0, 0,
   4, 0, 0, 0, 0, 16, 0, 0, 1, 0, 0, 0, 1, 0, 0, 0,
   1, 2, 3, 4, 68, 78, 65, 49, 112, 0, 0, 0, 0, 32, 0, 0,
   0, 0, 0, 0, 1, 0, 0, 0, 83, 68, 78, 65, 78, 65, 77, 69,
   4, 0, 0, 0, 102, 111, 111, 91, 51, 93, 0, 42, 102, 111, 111, 91,
   51, 93, 0, 42, 102, 111, 111, 0, 120, 0, 0, 0, 84, 89, 80, 69,
   4, 0, 0, 0, 105, 110, 116, 0, 84, 104, 105, 110, 103, 0, 80, 97,
   105, 114, 0, 102, 110, 0, 0, 0, 84, 76, 69, 78, 4, 0, 28, 0,
   8, 0, 0, 0, 83, 84, 82, 67, 2, 0, 0, 0, 1, 0, 3, 0,
   0, 0, 0, 0, 0, 0, 1, 0, 0, 0, 2, 0, 2, 0, 2, 0,
   0, 0, 3, 0, 0, 0, 3, 0, 69, 78, 68, 66, 0, 0, 0, 0]

/-- The declaration parser on the four names of the example: `foo[3]`,
`*foo[3]`, `*foo` and `x`. -/
def demoParseName (s : List Nat) : DNAName :=
  if s == [102, 111, 111, 91, 51, 93] then
    { name := s, isPointer := false, isArray := true, arraySizes := [3] }
  else if s == [42, 102, 111, 111, 91, 51, 93] then
    { name := s, isPointer := true, isArray := true, arraySizes := [3] }
  else if s == [42, 102, 111, 111] then
    { name := s, isPointer := true, isArray := false, arraySizes := [] }
  else { name := s, isPointer := false, isArray := false, arraySizes := [] }

/-- The names of the example's catalog. -/
def demoNames : List DNAName :=
  [{ name := [102, 111, 111, 91, 51, 93], isPointer := false, isArray := true,
     arraySizes := [3] },
   { name := [42, 102, 111, 111, 91, 51, 93], isPointer := true, isArray := true,
     arraySizes := [3] },
   { name := [42, 102, 111, 111], isPointer := true, isArray := false, arraySizes := [] },
   { name := [120], isPointer := false, isArray := false, arraySizes := [] }]

/-- The type `int` of the example. -/
def demoInt : DNAType := { name := [105, 110, 116], id := 0, size := 4 }

/-- The types of the example's catalog: `int`, `Thing`, `Pair` and `fn`, the
last with an encoded size of 0. -/
def demoTypes : List DNAType :=
  [demoInt, { name := [84, 104, 105, 110, 103], id := 1, size := 28 },
   { name := [80, 97, 105, 114], id := 2, size := 8 },
   { name := [102, 110], id := 3, size := 4 }]

/-- The field `int foo[3]` of `Thing`. -/
def demoFoo3 : DNAField :=
  { type := demoInt,
    name := { name := [102, 111, 111, 91, 51, 93], isPointer := false, isArray := true,
              arraySizes := [3] },
    offset := 0 }

/-- The field `int *foo[3]` of `Thing`. -/
def demoPtrFoo3 : DNAField :=
  { type := demoInt,
    name := { name := [42, 102, 111, 111, 91, 51, 93], isPointer := true, isArray := true,
              arraySizes := [3] },
    offset := 12 }

/-- The field `int *foo` of `Thing`. -/
def demoPtrFoo : DNAField :=
  { type := demoInt,
    name := { name := [42, 102, 111, 111], isPointer := true, isArray := false,
              arraySizes := [] },
    offset := 24 }

/-- The structure `Thing { int foo[3]; int *foo[3]; int *foo; }`. -/
def demoThing : DNAStructure :=
  { type := { name := [84, 104, 105, 110, 103], id := 1, size := 28 },
    fields := [demoFoo3, demoPtrFoo3, demoPtrFoo] }

/-- The first field `int x` of `Pair`. -/
def demoX0 : DNAField :=
  { type := demoInt,
    name := { name := [120], isPointer := false, isArray := false, arraySizes := [] },
    offset := 0 }

/-- The second field `int x` of `Pair`. -/
def demoX4 : DNAField :=
  { type := demoInt,
    name := { name := [120], isPointer := false, isArray := false, arraySizes := [] },
    offset := 4 }

/-- The structure `Pair { int x; int x; }`, of base type `Pair` (8 bytes). -/
def demoPair : DNAStructure :=
  { type := { name := [80, 97, 105, 114], id := 2, size := 8 },
    fields := [demoX0, demoX4] }

/-- The members of the `File` after loading the example. -/
def demoLoaded : File :=
  { pointerSize := 4,
    version := [50, 55, 57],
    blocks :=
      [{ code := [79, 66], size := 4, address := 4096, SDNAIndex := 1, count := 1,
         offset := 32, «structure» := some demoPair },
       { code := [68, 78, 65, 49], size := 112, address := 8192, SDNAIndex := 0, count := 1,
         offset := 56, «structure» := some demoThing }],
    catalog := { names := demoNames, types := demoTypes, structures := [demoThing, demoPair] } }

/-- The scan of the example: the block "OB", then the catalog block "DNA1". -/
def demoScanned : List Block :=
  [{ code := [79, 66], size := 4, address := 4096, SDNAIndex := 1, count := 1,
     offset := 32, «structure» := none },
   { code := [68, 78, 65, 49], size := 112, address := 8192, SDNAIndex := 0, count := 1,
     offset := 56, «structure» := none }]

/-- A second container with 4-byte pointers: the file header, the catalog block
"DNA1" (names `a[0][3]`, `b`, `*p[]`, `c`; types `int` and `Q`; the structure
`Q { int a[0][3]; int b; int *p[]; int c; }`) and the terminator. -/
def quirkFile : List Nat :=
  [66, 76, 69, 78, 68, 69, 82, 95, 118, 50, 55, 57, 68, 78, 65, 49,
   84, 0, 0, 0, 0, 32, 0, 0, 0, 0, 0, 0, 1, 0, 0, 0,
   83, 68, 78, 65, 78, 65, 77, 69, 4, 0, 0, 0, 97, 91, 48, 93,
   91, 51, 93, 0, 98, 0, 42, 112, 91, 93, 0, 99, 0, 0, 0, 0,
   84, 89, 80, 69, 2, 0, 0, 0, 105, 110, 116, 0, 81, 0, 0, 0,
   84, 76, 69, 78, 4, 0, 20, 0, 83, 84, 82, 67, 1, 0, 0, 0,
   1, 0, 4, 0, 0, 0, 0, 0, 0, 0, 1, 0, 0, 0, 2, 0,
   0, 0, 3, 0, 69, 78, 68, 66, 0, 0, 0, 0]

/-- The declaration parser on the names of the second example: `a[0][3]` has
the dimensions 0 and 3, `*p[]` is a pointer array with the unsized dimension
-1, `b` and `c` are scalars. -/
def quirkParseName (s : List Nat) : DNAName :=
  if s == [97, 91, 48, 93, 91, 51, 93] then
    { name := s, isPointer := false, isArray := true, arraySizes := [0, 3] }
  else if s == [42, 112, 91, 93] then
    { name := s, isPointer := true, isArray := true, arraySizes := [-1] }
  else { name := s, isPointer := false, isArray := false, arraySizes := [] }

/-- The field `int a[0][3]` of `Q`. -/
def quirkA : DNAField :=
  { type := demoInt,
    name := { name := [97, 91, 48, 93, 91, 51, 93], isPointer := false, isArray := true,
              arraySizes := [0, 3] },
    offset := 0 }

/-- The field `int b` of `Q`. -/
def quirkB : DNAField :=
  { type := demoInt,
    name := { name := [98], isPointer := false, isArray := false, arraySizes := [] },
    offset := 12 }

/-- The field `int *p[]` of `Q`. -/
def quirkP : DNAField :=
  { type := demoInt,
    name := { name := [42, 112, 91, 93], isPointer := true, isArray := true,
              arraySizes := [-1] },
    offset := 16 }

/-- The field `int c` of `Q`. -/
def quirkC : DNAField :=
  { type := demoInt,
    name := { name := [99], isPointer := false, isArray := false, arraySizes := [] },
    offset := 12 }

/-- The structure `Q` as `load` builds it. -/
def quirkQ : DNAStructure :=
  { type := { name := [81], id := 1, size := 20 },
    fields := [quirkA, quirkB, quirkP, quirkC] }

/-- The members of the `File` after loading the second example. -/
def quirkLoaded : File :=
  { pointerSize := 4,
    version := [50, 55, 57],
    blocks :=
      [{ code := [68, 78, 65, 49], size := 84, address := 8192, SDNAIndex := 0, count := 1,
         offset := 32, «structure» := some quirkQ }],
    catalog :=
      { names := [quirkA.name, quirkB.name, quirkP.name, quirkC.name],
        types := [demoInt, { name := [81], id := 1, size := 20 }],
        structures := [quirkQ] } }

/-- A third container with 4-byte pointers: the file header, the catalog block
"DNA1" (names `c`, `a[4194305]`, `d`; types `char`, `int` and `F`; the
structure `F { char c; int a[4194305]; int d; }`) and the terminator. -/
def roundFile : List Nat :=
  [66, 76, 69, 78, 68, 69, 82, 95, 118, 50, 55, 57, 68, 78, 65, 49,
   84, 0, 0, 0, 0, 32, 0, 0, 0, 0, 0, 0, 1, 0, 0, 0,
   83, 68, 78, 65, 78, 65, 77, 69, 3, 0, 0, 0, 99, 0, 97, 91,
   52, 49, 57, 52, 51, 48, 53, 93, 0, 100, 0, 0, 84, 89, 80, 69,
   3, 0, 0, 0, 99, 104, 97, 114, 0, 105, 110, 116, 0, 70, 0, 0,
   84, 76, 69, 78, 1, 0, 4, 0, 8, 0, 0, 0, 83, 84, 82, 67,
   1, 0, 0, 0, 2, 0, 3, 0, 0, 0, 0, 0, 1, 0, 1, 0,
   1, 0, 2, 0, 69, 78, 68, 66, 0, 0, 0, 0]

/-- The declaration parser on the names of the third example: `a[4194305]` is
an array of 4194305 elements, `c` and `d` are scalars. -/
def roundParseName (s : List Nat) : DNAName :=
  if s == [97, 91, 52, 49, 57, 52, 51, 48, 53, 93] then
    { name := s, isPointer := false, isArray := true, arraySizes := [4194305] }
  else { name := s, isPointer := false, isArray := false, arraySizes := [] }

/-- The field `char c` of `F`. -/
def roundC : DNAField :=
  { type := { name := [99, 104, 97, 114], id := 0, size := 1 },
    name := { name := [99], isPointer := false, isArray := false, arraySizes := [] },
    offset := 0 }

/-- The field `int a[4194305]` of `F`. -/
def roundA : DNAField :=
  { type := { name := [105, 110, 116], id := 1, size := 4 },
    name := { name := [97, 91, 52, 49, 57, 52, 51, 48, 53, 93], isPointer := false,
              isArray := true, arraySizes := [4194305] },
    offset := 1 }

/-- The field `int d` of `F`, at the offset `load` stores for it. -/
def roundD : DNAField :=
  { type := { name := [105, 110, 116], id := 1, size := 4 },
    name := { name := [100], isPointer := false, isArray := false, arraySizes := [] },
    offset := 16777220 }

/-- The structure `F` as `load` builds it. -/
def roundF : DNAStructure :=
  { type := { name := [70], id := 2, size := 8 },
    fields := [roundC, roundA, roundD] }

/-- The members of the `File` after loading the third example. -/
def roundLoaded : File :=
  { pointerSize := 4,
    version := [50, 55, 57],
    blocks :=
      [{ code := [68, 78, 65, 49], size := 84, address := 8192, SDNAIndex := 0, count := 1,
         offset := 32, «structure» := some roundF }],
    catalog :=
      { names := [roundC.name, roundA.name, roundD.name],
        types := [roundC.type, roundA.type, { name := [70], id := 2, size := 8 }],
        structures := [roundF] } }

/-! ## Queries on the directory -/

/-- The test `block.structure->type->name == typeName` of the two type
queries; `none` for a block whose `structure` pointer has not been set. -/
def hasTypeName (typeName : List Nat) (block : Block) : Option Bool :=
  block.«structure».map (fun s => s.type.name == typeName)

/-- The loop of `File::getNumberOfTypes(typeName)` with the counter `count`,
an `unsigned int`. -/
def getNumberOfTypesLoop (typeName : List Nat) : List Block → Nat → Option Nat
  | [], count => some count
  | block :: rest, count => do
    let m ← hasTypeName typeName block
    getNumberOfTypesLoop typeName rest (if m then (count + 1) % 4294967296 else count)

/-- The method `File::getNumberOfTypes(typeName)` over the directory `blocks`. -/
def getNumberOfTypes (blocks : List Block) (typeName : List Nat) : Option Nat :=
  getNumberOfTypesLoop typeName blocks 0

/-- The method `File::getBlocksByType(typeName)`: the blocks pushed to `ret`,
in the order of the pushes.  A pointer `&block` is modelled by the block it
points to. -/
def getBlocksByType (typeName : List Nat) : List Block → Option (List Block)
  | [] => some []
  | block :: rest => do
    let m ← hasTypeName typeName block
    let ret ← getBlocksByType typeName rest
    some (if m then block :: ret else ret)

/-- The method `File::getBlocksByType(typeName, pos)`: the inner `none` is the
returned `NULL`, the outer `none` an access outside the vector (or an unset
`structure` pointer). -/
def getBlocksByTypeAt (blocks : List Block) (typeName : List Nat) (pos : Nat) :
    Option (Option Block) := do
  let maxNum ← getNumberOfTypes blocks typeName
  if maxNum ≤ pos then some none
  else
    let ret ← getBlocksByType typeName blocks
    let block ← ret[pos]?
    some (some block)

/-- The method `File::doesAddressExist(address)`. -/
def doesAddressExist : List Block → Nat → Bool
  | [], _ => false
  | block :: rest, address =>
    if block.address == address then true else doesAddressExist rest address

/-- The method `File::getBlockByAddress(address)`; `none` is the returned
`NULL`. -/
def getBlockByAddress : List Block → Nat → Option Block
  | [], _ => none
  | block :: rest, address =>
    if block.address == address then some block else getBlockByAddress rest address

/-- Modelled from the spec: the property the type queries select by, "the
blocks whose bound structure's type name equals T"; a block without a bound
structure is not selected. -/
def boundTypeNameIs (typeName : List Nat) (block : Block) : Bool :=
  match block.«structure» with
  | some s => s.type.name == typeName
  | none => false

/-! ## The cache of decoded blocks -/

/-- The state `parseFileBlock` works on: the member `parsedBlocks`, a
`std::map` from addresses to record pointers (here the list of its entries, a
pointer being a number and `NULL` being 0), and, for the proofs only, the
blocks handed to `Parser::parseFileBlock` so far, oldest first. -/
structure ParseState where
  parsedBlocks : List (Nat × Nat)
  decoded : List Block
deriving DecidableEq, Repr

/-- The method `File::parseFileBlock(Block*)`.  `decode` is the external
`Parser::parseFileBlock` (Parser.h is not under src/): it gets the blocks
decoded before, so that it may return a new pointer at every call, and it does
not call back into the cache.  Returns the pointer and the new state. -/
def parseFileBlock (decode : List Block → Block → Nat) (st : ParseState) :
    Option Block → Nat × ParseState
  | none => (0, st)
  | some block =>
    let st1 : ParseState :=
      if (st.parsedBlocks.lookup block.address).isNone then
        { parsedBlocks := (block.address, decode st.decoded block) :: st.parsedBlocks,
          decoded := st.decoded ++ [block] }
      else st
    ((st1.parsedBlocks.lookup block.address).getD 0, st1)

/-- The method `File::parseFileBlock(unsigned long)`. -/
def parseFileBlockAt (decode : List Block → Block → Nat) (blocks : List Block)
    (st : ParseState) (address : Nat) : Nat × ParseState :=
  parseFileBlock decode st (getBlockByAddress blocks address)

/-- A sequence of `parseFileBlock` calls, one after the other: the returned
pointers and the final state. -/
def parseFileBlocks (decode : List Block → Block → Nat) :
    ParseState → List (Option Block) → List Nat × ParseState
  | st, [] => ([], st)
  | st, block :: rest =>
    let r := parseFileBlock decode st block
    let rs := parseFileBlocks decode r.2 rest
    (r.1 :: rs.1, rs.2)

/-! ## Reads on the stream itself -/

/-- The `ifstream file`: its bytes, its position, and its `failbit`. -/
structure Stream where
  data : List Nat
  pos : Nat
  failed : Bool
deriving DecidableEq, Repr

/-- The method `File::readChar(length)` with the buffer it returns in every
case: `buffer` is what the `new char[length]` array holds before `file.read`
(uninitialised memory).  A stream that has failed stores nothing; otherwise
the bytes that remain, at most `length`, are stored at the front of the
buffer, and the stream fails when they are fewer than `length`. -/
def readCharRaw (buffer : List Nat) (s : Stream) (length : Nat) : List Nat × Stream :=
  if s.failed then (buffer, s)
  else
    let stored := (s.data.drop s.pos).take length
    if stored.length = length then (stored, { s with pos := s.pos + length })
    else (stored ++ buffer.drop stored.length,
          { s with pos := s.pos + stored.length, failed := true })

/-- A decoder for the examples: the record of the `n`-th decoded block lies at
`1000 * n`. -/
def demoDecode (decoded : List Block) (_block : Block) : Nat :=
  1000 * (decoded.length + 1)

/-- The block "OB" of the example, linked. -/
def demoBlockOB : Block :=
  { code := [79, 66], size := 4, address := 4096, SDNAIndex := 1, count := 1,
    offset := 32, «structure» := some demoPair }

/-- The catalog block of the example, linked. -/
def demoBlockDNA : Block :=
  { code := [68, 78, 65, 49], size := 112, address := 8192, SDNAIndex := 0, count := 1,
    offset := 56, «structure» := some demoThing }

/-- A container in which a terminator block "ENDB" (8 bytes, declared size 0)
comes before the catalog block "DNA1": the file header, the terminator, the
catalog block with the catalog of the first example, and a final terminator. -/
def endbFile : List Nat :=
  [66, 76, 69, 78, 68, 69, 82, 95, 118, 50, 55, 57, 69, 78, 68, 66,
   0, 0, 0, 0, 68, 78, 65, 49, 112, 0, 0, 0, 0, 32, 0, 0,
   0, 0, 0, 0, 1, 0, 0, 0, 83, 68, 78, 65, 78, 65, 77, 69,
   4, 0, 0, 0, 102, 111, 111, 91, 51, 93, 0, 42, 102, 111, 111, 91,
   51, 93, 0, 42, 102, 111, 111, 0, 120, 0, 0, 0, 84, 89, 80, 69,
   4, 0, 0, 0, 105, 110, 116, 0, 84, 104, 105, 110, 103, 0, 80, 97,
   105, 114, 0, 102, 110, 0, 0, 0, 84, 76, 69, 78, 4, 0, 28, 0,
   8, 0, 0, 0, 83, 84, 82, 67, 2, 0, 0, 0, 1, 0, 3, 0,
   0, 0, 0, 0, 0, 0, 1, 0, 0, 0, 2, 0, 2, 0, 2, 0,
   0, 0, 3, 0, 0, 0, 3, 0, 69, 78, 68, 66, 0, 0, 0, 0]

/-- The terminator block of `endbFile` as `load` leaves it in the directory. -/
def endbBlock : Block :=
  { code := [69, 78, 68, 66], size := 0, address := 0, SDNAIndex := 0, count := 0,
    offset := 20, «structure» := some demoThing }

/-- The members of the `File` after loading `endbFile`. -/
def endbLoaded : File :=
  { pointerSize := 4,
    version := [50, 55, 57],
    blocks :=
      [endbBlock,
       { code := [68, 78, 65, 49], size := 112, address := 8192, SDNAIndex := 0, count := 1,
         offset := 40, «structure» := some demoThing }],
    catalog := demoLoaded.catalog }

/-- The first example without the block "OB" and with the structure index 7 in
the header of the catalog block, while the catalog has two structures. -/
def badIndexFile : List Nat :=
  [66, 76, 69, 78, 68, 69, 82, 95, 118, 50, 55, 57, 68, 78, 65, 49,
   112, 0, 0, 0, 0, 32, 0, 0, 7, 0, 0, 0, 1, 0, 0, 0,
   83, 68, 78, 65, 78, 65, 77, 69, 4, 0, 0, 0, 102, 111, 111, 91,
   51, 93, 0, 42, 102, 111, 111, 91, 51, 93, 0, 42, 102, 111, 111, 0,
   120, 0, 0, 0, 84, 89, 80, 69, 4, 0, 0, 0, 105, 110, 116, 0,
   84, 104, 105, 110, 103, 0, 80, 97, 105, 114, 0, 102, 110, 0, 0, 0,
   84, 76, 69, 78, 4, 0, 28, 0, 8, 0, 0, 0, 83, 84, 82, 67,
   2, 0, 0, 0, 1, 0, 3, 0, 0, 0, 0, 0, 0, 0, 1, 0,
   0, 0, 2, 0, 2, 0, 2, 0, 0, 0, 3, 0, 0, 0, 3, 0,
   69, 78, 68, 66, 0, 0, 0, 0]

/-- The catalog block of `badIndexFile` as the scan reads it. -/
def badIndexBlock : Block :=
  { code := [68, 78, 65, 49], size := 112, address := 8192, SDNAIndex := 7, count := 1,
    offset := 32, «structure» := none }

/-- The members of the `File` after loading `badIndexFile`: the structure
pointer of its block points behind the two structures of the catalog. -/
def badIndexLoaded : File :=
  { pointerSize := 4,
    version := [50, 55, 57],
    blocks := [badIndexBlock],
    catalog := demoLoaded.catalog }

/-! ## Widening the pointers of a container -/

/-- The header that `readHeader` reads at `pos`, as a function of the bytes
`rest` of the stream from `pos` on (`readHeader_eq_headerAt`). -/
def headerAt (pointerSize : Nat) (rest : List Nat) (pos : Nat) : Option Block :=
  if (trim (rest.take 4)).filter (fun ch => ch != 0) != ENDB then
    if 16 + (if pointerSize = 4 then 4 else 8) ≤ rest.length then
      some { code := (trim (rest.take 4)).filter (fun ch => ch != 0),
             size := decodeLE ((rest.drop 4).take 4),
             address := decodeLE ((rest.drop 8).take (if pointerSize = 4 then 4 else 8)),
             SDNAIndex :=
               decodeLE ((rest.drop (8 + (if pointerSize = 4 then 4 else 8))).take 4),
             count :=
               decodeLE ((rest.drop (12 + (if pointerSize = 4 then 4 else 8))).take 4),
             offset := pos + 16 + (if pointerSize = 4 then 4 else 8),
             «structure» := none }
    else none
  else if 8 ≤ rest.length then
    some { code := (trim (rest.take 4)).filter (fun ch => ch != 0),
           size := decodeLE ((rest.drop 4).take 4), address := 0, SDNAIndex := 0, count := 0,
           offset := pos + 8, «structure» := none }
  else none

/-- Modelled from the spec: the widening of claim C19 on the blocks.  `rest`
are the bytes of a container with 4-byte pointers from a block header on.  The
address field of every header that has one is extended from 4 to 8 bytes by
four zero bytes; payloads are copied; the bytes behind the header of the
catalog block are left as they are.  One unit of fuel per block. -/
def widenBlocks : Nat → List Nat → List Nat
  | 0, rest => rest
  | fuel + 1, rest =>
    if isCatalogCode ((trim (rest.take 4)).filter (fun ch => ch != 0)) then
      rest.take 12 ++ [0, 0, 0, 0] ++ (rest.drop 12).take 8 ++ rest.drop 20
    else if (trim (rest.take 4)).filter (fun ch => ch != 0) != ENDB then
      rest.take 12 ++ [0, 0, 0, 0] ++ (rest.drop 12).take 8
        ++ (rest.drop 20).take (decodeLE ((rest.drop 4).take 4))
        ++ widenBlocks fuel (rest.drop (20 + decodeLE ((rest.drop 4).take 4)))
    else
      rest.take 8 ++ (rest.drop 8).take (decodeLE ((rest.drop 4).take 4))
        ++ widenBlocks fuel (rest.drop (8 + decodeLE ((rest.drop 4).take 4)))

/-- Modelled from the spec: the container F' of claim C19.  The pointer-width
marker of `data` is set to `-` and the address fields of the block headers are
widened. -/
def widenPointers (data : List Nat) : List Nat :=
  data.take 7 ++ [45] ++ (data.drop 8).take 4
    ++ widenBlocks (data.length + 1) (data.drop 12)

/-- Modelled from the spec: the directory claim C19 expects of the widened
container.  The blocks of the original with their payload offsets moved by
`shift` and by 4 more bytes for every header with an address field, the
block's own included. -/
def widenedBlocks : Nat → List Block → List Block
  | _, [] => []
  | shift, block :: rest =>
    if block.code != ENDB then
      { block with offset := block.offset + shift + 4 } :: widenedBlocks (shift + 4) rest
    else
      { block with offset := block.offset + shift } :: widenedBlocks shift rest

/-! ## The scene -/

/-- The enumeration of object types (Object.h, not under src/), reduced to the
cases `addObject` distinguishes: `OTHER` stands for every enumerator that takes
the `default` branch of its `switch`. -/
inductive ObjectType where
  | MESH
  | CAMERA
  | LIGHT
  | OTHER
deriving DecidableEq, Repr

/-- An `Object` as `addObject` uses it: its `type`, its back pointer `scene`
and, for a mesh, the vector `materials` of `Material*` that the loop of
`addObject` reads.  A pointer is a number, `NULL` is 0. -/
structure Object where
  type : ObjectType
  scene : Nat
  materials : List Nat
deriving DecidableEq, Repr

/-- An access `p->member` in the memory `heap`, the objects by address, newest
entry first: the object at `p`; `none` when `p` is `NULL` or no object lives at
`p`. -/
def deref (heap : List (Nat × Object)) (p : Nat) : Option Object :=
  if p = 0 then none else heap.lookup p

/-- The class `Scene`, reduced to the members `addObject` and `setActiveCamera`
work on.  `materials` is used by Scene.cpp as a vector of `Material*`;
`timeline` lists the objects whose timelines were handed to `timeline.add`
(Animation.h is not under src/), in the order of the calls. -/
structure Scene where
  activeCamera : Nat
  objects : List Nat
  meshes : List Nat
  cameras : List Nat
  lights : List Nat
  materials : List Nat
  timeline : List Nat
deriving DecidableEq, Repr

/-- An access through a pointer that is `NULL` or points to no object: the
pointer, and the members of the scene at the moment of the access. -/
structure Fault where
  pointer : Nat
  scene : Scene
deriving DecidableEq, Repr

/-- The constructor `Scene::Scene()`: no active camera, empty vectors. -/
def Scene.new : Scene :=
  { activeCamera := 0, objects := [], meshes := [], cameras := [], lights := [],
    materials := [], timeline := [] }

/-- The loop of `addObject` over `meshes.back()->materials`: a material that is
not `NULL` and not yet in the vector `materials` of the scene is pushed. -/
def addMaterials : List Nat → List Nat → List Nat
  | materials, [] => materials
  | materials, material :: rest =>
    addMaterials
      (if material != 0 && !materials.contains material then materials ++ [material]
       else materials)
      rest

/-- The method `Scene::addObject(obj)` of the scene at address `self`.  The
first access through `obj` that Scene.cpp itself makes is `obj->type`, after
the two pushes. -/
def Scene.addObject (s : Scene) (self : Nat) (heap : List (Nat × Object)) (obj : Nat) :
    Except Fault (List (Nat × Object) × Scene) :=
  if s.objects.contains obj then .ok (heap, s)
  else
    let s1 : Scene :=
      { s with objects := s.objects ++ [obj], timeline := s.timeline ++ [obj] }
    match deref heap obj with
    | none => .error { pointer := obj, scene := s1 }
    | some o =>
      let s2 : Scene :=
        match o.type with
        | .MESH =>
          { s1 with meshes := s1.meshes ++ [obj],
                    materials := addMaterials s1.materials o.materials }
        | .CAMERA => { s1 with cameras := s1.cameras ++ [obj] }
        | .LIGHT => { s1 with lights := s1.lights ++ [obj] }
        | .OTHER => s1
      .ok ((obj, { o with scene := self }) :: heap, s2)

/-- The method `Scene::setActiveCamera(cam)`. -/
def Scene.setActiveCamera (s : Scene) (self : Nat) (heap : List (Nat × Object))
    (cam : Nat) : Except Fault (List (Nat × Object) × Scene) :=
  match s.addObject self heap cam with
  | .error f => .error f
  | .ok r => .ok (r.1, { r.2 with activeCamera := cam })

/-- The method `Scene::disableCamera()`: `setActiveCamera(NULL)`. -/
def Scene.disableCamera (s : Scene) (self : Nat) (heap : List (Nat × Object)) :
    Except Fault (List (Nat × Object) × Scene) :=
  s.setActiveCamera self heap 0

/-- The method `Scene::getActiveCamera()`. -/
def Scene.getActiveCamera (s : Scene) : Nat := s.activeCamera

/-- A sequence of `addObject` calls, one after the other. -/
def Scene.addObjects (s : Scene) (self : Nat) (heap : List (Nat × Object)) :
    List Nat → Except Fault (List (Nat × Object) × Scene)
  | [] => .ok (heap, s)
  | obj :: rest =>
    match s.addObject self heap obj with
    | .error f => .error f
    | .ok r => Scene.addObjects r.2 self r.1 rest

/-- The type of the object at `p`, if there is one. -/
def typeOf (heap : List (Nat × Object)) (p : Nat) : Option ObjectType :=
  (deref heap p).map Object.type

/-- A memory for the examples: a mesh at 10 with the materials 100, `NULL`,
100 and 101, a camera at 20, a light at 30, a mesh at 40 with the material
101, and an object of another type at 50. -/
def demoHeap : List (Nat × Object) :=
  [(10, { type := .MESH, scene := 0, materials := [100, 0, 100, 101] }),
   (20, { type := .CAMERA, scene := 0, materials := [] }),
   (30, { type := .LIGHT, scene := 0, materials := [] }),
   (40, { type := .MESH, scene := 0, materials := [101] }),
   (50, { type := .OTHER, scene := 0, materials := [] })]

/-- Modelled from the spec: the invariant of claim C22 on the vectors of a
scene.  No vector holds a pointer twice, each typed vector holds exactly the
objects of the scene that have its type, and `materials` holds no `NULL`. -/
def Scene.Consistent (s : Scene) (heap : List (Nat × Object)) : Prop :=
  s.objects.Nodup ∧ s.meshes.Nodup ∧ s.cameras.Nodup ∧ s.lights.Nodup ∧
  (∀ p, p ∈ s.meshes ↔ p ∈ s.objects ∧ typeOf heap p = some ObjectType.MESH) ∧
  (∀ p, p ∈ s.cameras ↔ p ∈ s.objects ∧ typeOf heap p = some ObjectType.CAMERA) ∧
  (∀ p, p ∈ s.lights ↔ p ∈ s.objects ∧ typeOf heap p = some ObjectType.LIGHT) ∧
  s.materials.Nodup ∧ 0 ∉ s.materials

set_option maxRecDepth 100000

/-! ## Basic facts about the stream helpers -/

theorem readChar_eq_some {data : List Nat} {pos length : Nat} {r : List Nat × Nat} :
    readChar data pos length = some r ↔
      pos + length ≤ data.length ∧ r = ((data.drop pos).take length, pos + length) := by
  unfold readChar
  split <;> simp_all [eq_comm]

theorem read_eq_some {data : List Nat} {pos width : Nat} {r : Nat × Nat} :
    read data pos width = some r ↔
      pos + width ≤ data.length ∧
        r = (decodeLE ((data.drop pos).take width), pos + width) := by
  unfold read
  simp only [Option.map_eq_some', readChar_eq_some]
  constructor
  · rintro ⟨a, ⟨h, rfl⟩, rfl⟩
    exact ⟨h, rfl⟩
  · rintro ⟨h, rfl⟩
    exact ⟨_, ⟨h, rfl⟩, rfl⟩

/-- A fixed-length `readString` succeeds exactly when the bytes are there, and
moves the position by `length`. -/
theorem readString_eq_some {data : List Nat} {pos length : Nat} {r : List Nat × Nat}
    (hl : length ≠ 0) :
    readString data pos length = some r ↔
      pos + length ≤ data.length ∧
        r = (trim ((data.drop pos).take length), pos + length) := by
  unfold readString
  simp only [beq_iff_eq, hl, if_false, Option.map_eq_some', readChar_eq_some]
  constructor
  · rintro ⟨a, ⟨h, rfl⟩, rfl⟩
    exact ⟨h, rfl⟩
  · rintro ⟨h, rfl⟩
    exact ⟨_, ⟨h, rfl⟩, rfl⟩

/-! ## Field layout: the running offset -/

/-- An integer of magnitude up to `2 ^ 24` is a `float`. -/
theorem roundFloat_exact {z : Int} (h : z.natAbs ≤ 16777216) : roundFloat z = .finite z := by
  by_cases hlt : z.natAbs < 16777216
  · unfold roundFloat
    rw [if_pos hlt]
  · have he : z.natAbs = 16777216 := by omega
    rcases Int.natAbs_eq z with hz | hz <;> rw [he] at hz <;> subst hz <;> decide

theorem floatExponent_spec : ∀ (fuel m : Nat), 0 < floatExponent fuel m →
    16777216 ≤ m / 2 ^ (floatExponent fuel m - 1) := by
  intro fuel
  induction fuel with
  | zero => intro m h; simp [floatExponent] at h
  | succ fuel ih =>
    intro m h
    rw [floatExponent] at h ⊢
    by_cases hm : m < 16777216
    · simp [hm] at h
    · simp only [hm, if_false, Nat.add_sub_cancel]
      by_cases h0 : floatExponent fuel (m / 2) = 0
      · rw [h0]
        simp only [pow_zero, Nat.div_one]
        omega
      · have := ih (m / 2) (by omega)
        rw [Nat.div_div_eq_div_mul] at this
        have e : 2 * 2 ^ (floatExponent fuel (m / 2) - 1) = 2 ^ floatExponent fuel (m / 2) := by
          rw [← pow_succ']
          congr 1
          omega
        rw [e] at this
        exact this

/-- Rounding does not take an integer of magnitude `2 ^ 24` or more below
`2 ^ 24`. -/
theorem roundFloat_finite_ge {z w : Int} (hz : 16777216 ≤ z.natAbs)
    (h : roundFloat z = .finite w) : 16777216 ≤ w.natAbs := by
  unfold roundFloat at h
  rw [if_neg (by omega)] at h
  by_cases h128 : 2 ^ 128 ≤ z.natAbs
  · rw [if_pos h128] at h
    exact absurd h (by simp)
  · rw [if_neg h128] at h
    simp only at h
    have hpos : 0 < floatExponent 104 z.natAbs := by
      rw [floatExponent]
      simp only [show ¬ z.natAbs < 16777216 by omega, if_false]
      omega
    have hq := floatExponent_spec 104 z.natAbs hpos
    generalize floatExponent 104 z.natAbs = e at hpos hq h
    obtain ⟨e1, rfl⟩ : ∃ e1, e = e1 + 1 := ⟨e - 1, by omega⟩
    simp only [Nat.add_sub_cancel] at hq
    have hq2 : 8388608 ≤ z.natAbs / 2 ^ (e1 + 1) := by
      rw [pow_succ, ← Nat.div_div_eq_div_mul]
      omega
    have h2e : 2 ≤ 2 ^ (e1 + 1) := by
      have : 1 ≤ 2 ^ e1 := Nat.one_le_two_pow
      rw [pow_succ]
      omega
    have hge : ∀ q1 : Nat, z.natAbs / 2 ^ (e1 + 1) ≤ q1 → 16777216 ≤ q1 * 2 ^ (e1 + 1) := by
      intro q1 hq1
      calc 16777216 = 8388608 * 2 := by norm_num
        _ ≤ q1 * 2 ^ (e1 + 1) := Nat.mul_le_mul (by omega) h2e
    split_ifs at h <;>
      (have h1 := FloatValue.finite.inj h
       rw [← h1]
       first
       | (rw [Int.natAbs_neg, Int.natAbs_ofNat]
          first
          | exact hge _ (Nat.le_succ _)
          | exact hge _ (Nat.le_refl _))
       | (rw [Int.natAbs_ofNat]
          first
          | exact hge _ (Nat.le_succ _)
          | exact hge _ (Nat.le_refl _)))

/-- A rounded value that is non-negative and below `2 ^ 24` is the exact
value. -/
theorem roundFloat_small {z w : Int} (h : roundFloat z = .finite w) (h0 : 0 ≤ w)
    (hw : w < 16777216) : z = w := by
  by_cases hz : z.natAbs < 16777216
  · unfold roundFloat at h
    rw [if_pos hz] at h
    exact FloatValue.finite.inj h
  · have := roundFloat_finite_ge (by omega) h
    omega

theorem toUnsigned_eq_some {x : FloatValue} {n : Nat} (h : x.toUnsigned = some n) :
    ∃ w : Int, x = .finite w ∧ 0 ≤ w ∧ w < 4294967296 ∧ n = w.toNat := by
  cases x with
  | finite w =>
    simp only [FloatValue.toUnsigned] at h
    split at h
    · rename_i hw
      exact ⟨w, rfl, hw.1, hw.2, (Option.some.inj h).symm⟩
    · exact absurd h (by simp)
  | infinite n => simp [FloatValue.toUnsigned] at h
  | nan => simp [FloatValue.toUnsigned] at h

theorem add_eq_finite {x y : FloatValue} {w : Int} (h : x.add y = .finite w) :
    ∃ a b, x = .finite a ∧ y = .finite b ∧ roundFloat (a + b) = .finite w := by
  cases x <;> cases y <;> simp only [FloatValue.add] at h
  · exact ⟨_, _, rfl, rfl, h⟩
  all_goals first
    | (simp at h)
    | (split at h <;> simp at h)

theorem mul_eq_finite {x y : FloatValue} {w : Int} (h : x.mul y = .finite w) :
    ∃ a b, x = .finite a ∧ y = .finite b ∧ roundFloat (a * b) = .finite w := by
  cases x <;> cases y <;> simp only [FloatValue.mul] at h
  · exact ⟨_, _, rfl, rfl, h⟩
  all_goals first
    | (simp at h)
    | (split at h <;> simp at h)

theorem isZero_eq_true {x : FloatValue} (h : x.isZero = true) : x = .finite 0 := by
  cases x with
  | finite z =>
    simp only [FloatValue.isZero, beq_iff_eq] at h
    rw [h]
  | infinite n => simp [FloatValue.isZero] at h
  | nan => simp [FloatValue.isZero] at h

/-- The running offset is an `unsigned int`. -/
theorem nextOffset_lt {pointerSize : Nat} {field : DNAField} {curOffset c : Nat}
    (h : nextOffset pointerSize field curOffset = some c) : c < 4294967296 := by
  unfold nextOffset at h
  split at h
  · simp only [Option.bind_eq_bind, Option.bind_eq_some, Option.some.injEq] at h
    obtain ⟨a0, -, rfl⟩ := h
    omega
  · split at h
    · simp only [Option.bind_eq_bind, Option.bind_eq_some] at h
      obtain ⟨cur, hcur, h⟩ := h
      obtain ⟨w, -, h0, hw, rfl⟩ := toUnsigned_eq_some hcur
      split at h
      · simp only [Option.some.injEq] at h
        omega
      · simp only [Option.some.injEq] at h
        omega
    · simp only [Option.some.injEq] at h
      omega

/-- While the running offset stays below `2 ^ 24`, the loop body moves it by
the field's advance, in 32-bit unsigned arithmetic. -/
theorem nextOffset_eq_advance {pointerSize : Nat} {field : DNAField} {curOffset c : Nat}
    (h : nextOffset pointerSize field curOffset = some c)
    (hcur : curOffset < 16777216) (hc : c < 16777216) :
    ∃ a : Int, offsetAdvance pointerSize field = some a ∧
      (c : Int) = ((curOffset : Int) + a) % 4294967296 := by
  unfold nextOffset at h
  unfold offsetAdvance
  split at h
  · rename_i hp
    simp only [hp, if_true]
    simp only [Option.bind_eq_bind, Option.bind_eq_some, Option.some.injEq] at h ⊢
    obtain ⟨a0, ha0, rfl⟩ := h
    refine ⟨_, ⟨a0, ha0, rfl⟩, ?_⟩
    generalize (pointerSize : Int) * (if (a0 == 0) = true then 1 else a0) = x
    omega
  · rename_i hp
    simp only [hp, Bool.false_eq_true, if_false]
    split at h
    · rename_i ha
      simp only [ha, if_true]
      simp only [Option.bind_eq_bind, Option.bind_eq_some] at h
      obtain ⟨cur, hcur1, h⟩ := h
      obtain ⟨w, hw, hw0, hw1, rfl⟩ := toUnsigned_eq_some hcur1
      obtain ⟨a, p, ha1, hp1, hsum⟩ := add_eq_finite hw
      rw [roundFloat_exact (by omega)] at ha1
      obtain rfl := FloatValue.finite.inj ha1
      rw [hp1]
      by_cases hz : (arrayMulti field.name.arraySizes (.finite 0)).isZero = true
      · simp only [hz, if_true, Option.some.injEq] at h ⊢
        rw [isZero_eq_true hz] at hp1
        obtain ⟨s1, z1, hs1, hz1, hprod⟩ := mul_eq_finite hp1
        obtain rfl := FloatValue.finite.inj hz1
        rw [mul_zero, roundFloat_exact (by norm_num)] at hprod
        obtain rfl := FloatValue.finite.inj hprod
        rw [add_zero, roundFloat_exact (by omega)] at hsum
        obtain rfl := FloatValue.finite.inj hsum
        refine ⟨_, rfl, ?_⟩
        subst h
        simp only [Int.toNat_ofNat]
        omega
      · simp only [hz, Bool.false_eq_true, if_false, Option.some.injEq] at h ⊢
        subst h
        have hwc : w < 16777216 := by omega
        have := roundFloat_small hsum hw0 hwc
        refine ⟨_, rfl, ?_⟩
        omega
    · rename_i ha
      simp only [ha, Bool.false_eq_true, if_false, Option.some.injEq] at h ⊢
      refine ⟨_, rfl, ?_⟩
      subst h
      omega

/-- One iteration of the field loop: the two indices are read at `pos` and
`pos + 2`, the field is pushed with the running offset, the body moves the
running offset, and the loop goes on at `pos + 4`. -/
theorem readFields_succ {pointerSize : Nat} {data : List Nat} {types : List DNAType}
    {names : List DNAName} {n pos cur : Nat} {r : List DNAField × Nat × Nat}
    (h : readFields pointerSize data types names (n + 1) pos cur = some r) :
    ∃ field rest cur1, r.1 = field :: rest ∧ field.offset = cur ∧
      pos + 4 ≤ data.length ∧
      types[decodeLE ((data.drop pos).take 2)]? = some field.type ∧
      names[decodeLE ((data.drop (pos + 2)).take 2)]? = some field.name ∧
      nextOffset pointerSize field cur = some cur1 ∧
      readFields pointerSize data types names n (pos + 4) cur1 = some (rest, r.2) := by
  rw [readFields] at h
  simp only [Option.bind_eq_bind, Option.bind_eq_some, read_eq_some, Option.some.injEq] at h
  obtain ⟨ti, ⟨h1, rfl⟩, ni, ⟨h2, rfl⟩, t, ht, nm, hn, cur1, hc, rest, hr, rfl⟩ := h
  refine ⟨_, rest.1, cur1, rfl, rfl, by omega, ht, hn, hc, ?_⟩
  simpa [Nat.add_assoc] using hr

/-- The fields built by the field loop: their number and the position after
them. -/
theorem readFields_length {pointerSize : Nat} {data : List Nat} {types : List DNAType}
    {names : List DNAName} :
    ∀ (n pos cur : Nat) (fields : List DNAField) (p c : Nat),
      readFields pointerSize data types names n pos cur = some (fields, p, c) →
      fields.length = n ∧ p = pos + 4 * n := by
  intro n
  induction n with
  | zero =>
    intro pos cur fields p c h
    simp only [readFields, Option.some.injEq, Prod.mk.injEq] at h
    obtain ⟨rfl, rfl, rfl⟩ := h
    exact ⟨rfl, rfl⟩
  | succ n ih =>
    intro pos cur fields p c h
    obtain ⟨field, rest, cur1, hf, -, -, -, -, -, hrest⟩ := readFields_succ h
    simp only at hf hrest
    subst hf
    obtain ⟨hlen, hp⟩ := ih (pos + 4) cur1 rest p c hrest
    exact ⟨by simp [hlen], by omega⟩

/-! ## How `load` is put together -/

/-- A structure record: the base type index at `pos`, the field count at
`pos + 2`, the field loop from `pos + 4` with the running offset at 0. -/
theorem readStructure_eq_some {pointerSize : Nat} {data : List Nat} {types : List DNAType}
    {names : List DNAName} {pos : Nat} {r : DNAStructure × Nat × Nat}
    (h : readStructure pointerSize data types names pos = some r) :
    pos + 4 ≤ data.length ∧
      types[decodeLE ((data.drop pos).take 2)]? = some r.1.type ∧
      readFields pointerSize data types names (decodeLE ((data.drop (pos + 2)).take 2))
        (pos + 4) 0 = some (r.1.fields, r.2) := by
  unfold readStructure at h
  simp only [Option.bind_eq_bind, Option.bind_eq_some, read_eq_some, Option.some.injEq] at h
  obtain ⟨ti, ⟨h1, rfl⟩, t, ht, nf, ⟨h2, rfl⟩, fs, hfs, rfl⟩ := h
  refine ⟨by omega, ht, ?_⟩
  simpa [Nat.add_assoc] using hfs

/-- The structure loop reads the records one after the other: there are
`n + 1` record boundaries, from `pos` to the final position, and the `i`-th
structure is the record between the `i`-th and the next. -/
theorem readStructures_records {pointerSize : Nat} {data : List Nat} {types : List DNAType}
    {names : List DNAName} :
    ∀ (n pos : Nat) (structures : List DNAStructure) (p : Nat),
      readStructures pointerSize data types names n pos = some (structures, p) →
      structures.length = n ∧
      ∃ starts : List Nat, starts.length = n + 1 ∧ starts[0]? = some pos ∧
        starts[n]? = some p ∧
        ∀ i (hi : i < structures.length), ∃ q q1 c, starts[i]? = some q ∧
          starts[i + 1]? = some q1 ∧
          readStructure pointerSize data types names q = some (structures[i], q1, c) := by
  intro n
  induction n with
  | zero =>
    intro pos structures p h
    simp only [readStructures, Option.some.injEq, Prod.mk.injEq] at h
    obtain ⟨rfl, rfl⟩ := h
    exact ⟨rfl, [pos], rfl, rfl, rfl, fun i hi => absurd hi (by simp)⟩
  | succ n ih =>
    intro pos structures p h
    rw [readStructures] at h
    simp only [Option.bind_eq_bind, Option.bind_eq_some, Option.some.injEq] at h
    obtain ⟨s, hs, rest, hrest, h⟩ := h
    obtain ⟨rest1, rest2⟩ := rest
    obtain ⟨s1, s2, s3⟩ := s
    simp only [Prod.mk.injEq] at h
    obtain ⟨rfl, rfl⟩ := h
    obtain ⟨hlen, starts, hsl, hs0, hsn, hall⟩ := ih _ _ _ hrest
    refine ⟨by simp [hlen], pos :: starts, by simp [hsl], by simp, by simpa using hsn, ?_⟩
    intro i hi
    cases i with
    | zero => exact ⟨pos, s2, s3, by simp, by simpa using hs0, by simpa using hs⟩
    | succ i =>
      obtain ⟨q, q1, c, h1, h2, h3⟩ := hall i (by simpa using hi)
      exact ⟨q, q1, c, by simpa using h1, by simpa using h2, by simpa using h3⟩

/-- Every structure of the structure loop is one record read by
`readStructure`. -/
theorem readStructures_mem {pointerSize : Nat} {data : List Nat} {types : List DNAType}
    {names : List DNAName} {n pos : Nat} {structures : List DNAStructure} {p : Nat}
    (h : readStructures pointerSize data types names n pos = some (structures, p))
    {s : DNAStructure} (hs : s ∈ structures) :
    ∃ q q1 c, readStructure pointerSize data types names q = some (s, q1, c) := by
  obtain ⟨-, starts, -, -, -, hall⟩ := readStructures_records n pos structures p h
  obtain ⟨i, hi, rfl⟩ := List.getElem_of_mem hs
  obtain ⟨q, q1, c, -, -, h3⟩ := hall i hi
  exact ⟨q, q1, c, h3⟩

/-- The phases of a `load` that returns: the stream is opened, the three
header strings are read, the blocks are scanned, the four catalog sections are
read from the payload of the last block, and the blocks are linked. -/
theorem load_eq_some {inflate : List Nat → List Nat} {parseName : List Nat → DNAName}
    {pointerSize0 : Nat} {raw : List Nat} {ret : Bool} {file : File}
    (h : load inflate parseName pointerSize0 raw = some (ret, file)) :
    ret = true ∧
    ∃ data m1 m2 version blocks back names types0 types structures,
      openStream inflate raw = some data ∧
      readString data 7 1 = some m1 ∧
      file.pointerSize = choosePointerSize pointerSize0 m1.1 ∧
      readString data m1.2 1 = some m2 ∧
      readString data m2.2 3 = some version ∧
      file.version = version.1 ∧
      scanBlocks file.pointerSize data version.2 = some blocks ∧
      blocks.getLast? = some back ∧
      readNameSection parseName data back.offset = some names ∧
      readTypeSection data names.2 = some types0 ∧
      readLengthSection file.pointerSize data types0.1 types0.2 = some types ∧
      readStructureSection file.pointerSize data types.1 names.1 types.2 = some structures ∧
      file.catalog = { names := names.1, types := types.1, structures := structures.1 } ∧
      linkBlocks structures.1 blocks = file.blocks := by
  unfold load loadStream at h
  simp only [Option.bind_eq_bind, Option.bind_eq_some, Option.some.injEq, Prod.mk.injEq] at h
  obtain ⟨data, hd, m1, hm1, m2, hm2, version, hv, blocks, hb, back, hback, catalog, hc,
    rfl, rfl⟩ := h
  unfold readCatalog at hc
  simp only [Option.bind_eq_bind, Option.bind_eq_some, Option.some.injEq] at hc
  obtain ⟨names, hn, types0, ht0, types, ht, structures, hs, rfl⟩ := hc
  exact ⟨rfl, data, m1, m2, version, blocks, back, names, types0, types, structures,
    hd, hm1, rfl, hm2, hv, rfl, hb, hback, hn, ht0, ht, hs, rfl, rfl⟩

/-- Every structure of a loaded catalog is one record of the stream, read by
`readStructure` against the loaded type and name tables. -/
theorem load_structure {inflate : List Nat → List Nat} {parseName : List Nat → DNAName}
    {pointerSize0 : Nat} {raw : List Nat} {ret : Bool} {file : File}
    (h : load inflate parseName pointerSize0 raw = some (ret, file))
    {s : DNAStructure} (hs : s ∈ file.catalog.structures) :
    ∃ data q q1 c, openStream inflate raw = some data ∧
      readStructure file.pointerSize data file.catalog.types file.catalog.names q
        = some (s, q1, c) := by
  obtain ⟨-, data, m1, m2, version, blocks, back, names, types0, types, structures,
    hd, -, -, -, -, -, -, -, -, -, -, hst, hcat, -⟩ := load_eq_some h
  rw [hcat] at hs ⊢
  unfold readStructureSection at hst
  simp only [Option.bind_eq_bind, Option.bind_eq_some, Option.some.injEq] at hst
  obtain ⟨s1, -, ns, -, ⟨sts1, sts2⟩, hsts, rfl⟩ := hst
  obtain ⟨q, q1, c, hq⟩ := readStructures_mem hsts hs
  exact ⟨data, q, q1, c, hd, hq⟩

/-- The example loads, and `load` returns `true`. -/
theorem load_demoFile : load id demoParseName 0 demoFile = some (true, demoLoaded) := by
  decide

/-! ## The layout of fields -/

/-- A non-empty result of the field loop: the first field carries the running
offset, the body moves it, and the loop goes on with the other fields. -/
theorem readFields_cons {pointerSize : Nat} {data : List Nat} {types : List DNAType}
    {names : List DNAName} {n pos cur : Nat} {field : DNAField} {rest : List DNAField}
    {p c : Nat}
    (h : readFields pointerSize data types names n pos cur = some (field :: rest, p, c)) :
    field.offset = cur ∧ ∃ cur1, nextOffset pointerSize field cur = some cur1 ∧
      readFields pointerSize data types names (n - 1) (pos + 4) cur1 = some (rest, p, c) := by
  cases n with
  | zero => simp [readFields] at h
  | succ n =>
    obtain ⟨f, r, cur1, hf, hoff, -, -, -, hnext, hrest⟩ := readFields_succ h
    simp only [List.cons.injEq] at hf
    obtain ⟨rfl, rfl⟩ := hf
    exact ⟨hoff, cur1, hnext, by simpa using hrest⟩

/-- An empty result of the field loop leaves the running offset as it was. -/
theorem readFields_nil {pointerSize : Nat} {data : List Nat} {types : List DNAType}
    {names : List DNAName} {n pos cur p c : Nat}
    (h : readFields pointerSize data types names n pos cur = some ([], p, c)) : c = cur := by
  cases n with
  | zero =>
    simp only [readFields, Option.some.injEq, Prod.mk.injEq] at h
    exact h.2.2.symm
  | succ n =>
    obtain ⟨f, r, cur1, hf, -⟩ := readFields_succ h
    simp at hf

/-- While the running offset stays below `2 ^ 24`, the offsets of the fields
are the partial sums of the advances, in 32-bit unsigned arithmetic. -/
theorem readFields_offsets {pointerSize : Nat} {data : List Nat} {types : List DNAType}
    {names : List DNAName} :
    ∀ (n pos cur : Nat) (fields : List DNAField) (p c : Nat), cur < 16777216 →
      readFields pointerSize data types names n pos cur = some (fields, p, c) →
      (∀ f ∈ fields, f.offset < 16777216) → c < 16777216 →
      ∃ advs : List Int, fields.map (offsetAdvance pointerSize) = advs.map some ∧
        (∀ k (hk : k < fields.length),
          ((fields[k]).offset : Int) = ((cur : Int) + (advs.take k).sum) % 4294967296) ∧
        (c : Int) = ((cur : Int) + advs.sum) % 4294967296 := by
  intro n
  induction n with
  | zero =>
    intro pos cur fields p c hcur h _ _
    simp only [readFields, Option.some.injEq, Prod.mk.injEq] at h
    obtain ⟨rfl, rfl, rfl⟩ := h
    refine ⟨[], rfl, ?_, ?_⟩
    · intro k hk
      simp at hk
    · simp
      omega
  | succ n ih =>
    intro pos cur fields p c hcur h hoffs hc
    obtain ⟨field, rest, cur1, hf, hoff, -, -, -, hnext, hrest⟩ := readFields_succ h
    simp only at hf hrest
    subst hf
    have hcur1 : cur1 < 16777216 := by
      cases rest with
      | nil =>
        rw [← readFields_nil hrest]
        exact hc
      | cons g rest =>
        rw [← (readFields_cons hrest).1]
        exact hoffs g (by simp)
    obtain ⟨a, ha, hc1⟩ := nextOffset_eq_advance hnext hcur hcur1
    obtain ⟨advs, hadv, hk, hc2⟩ := ih (pos + 4) cur1 rest p c hcur1 hrest
      (fun f hf => hoffs f (List.mem_cons_of_mem _ hf)) hc
    refine ⟨a :: advs, by simp [ha, hadv], ?_, ?_⟩
    · intro k hk1
      cases k with
      | zero =>
        simp [hoff]
        omega
      | succ k =>
        have := hk k (by simpa using hk1)
        simp only [List.getElem_cons_succ, List.take_succ_cons, List.sum_cons]
        rw [this, hc1]
        generalize (List.take k advs).sum = s
        omega
    · rw [hc2, hc1]
      simp only [List.sum_cons]
      generalize advs.sum = s
      omega

/-- Claim C1.  For pointer size 4 and for pointer size 8: a structure that `load`
builds from three fields, in order a non-pointer array `foo[3]` of a 4-byte
type, a pointer array `*foo[3]` and a single pointer `*foo`, gets the field
offsets 0, 12 and 12 + 3 * pointerSize, and the running offset after the last
field is 12 + 4 * pointerSize. -/
theorem load_offsets_array_ptrarray_ptr (inflate : List Nat → List Nat)
    (parseName : List Nat → DNAName) (pointerSize0 : Nat) (raw : List Nat) (ret : Bool)
    (file : File) (s : DNAStructure) (f0 f1 f2 : DNAField)
    (hload : load inflate parseName pointerSize0 raw = some (ret, file))
    (hps : file.pointerSize = 4 ∨ file.pointerSize = 8)
    (hs : s ∈ file.catalog.structures) (hfields : s.fields = [f0, f1, f2])
    (h0 : f0.name.isPointer = false ∧ f0.name.isArray = true ∧ f0.name.arraySizes = [3] ∧
      f0.type.size = 4)
    (h1 : f1.name.isPointer = true ∧ f1.name.isArray = true ∧ f1.name.arraySizes = [3])
    (h2 : f2.name.isPointer = true ∧ f2.name.isArray = false) :
    f0.offset = 0 ∧ f1.offset = 12 ∧ f2.offset = 12 + 3 * file.pointerSize ∧
      nextOffset file.pointerSize f2 f2.offset = some (12 + 4 * file.pointerSize) ∧
      ∃ data q q1, readStructure file.pointerSize data file.catalog.types file.catalog.names q
        = some (s, q1, 12 + 4 * file.pointerSize) := by
  obtain ⟨data, q, q1, c, -, hq⟩ := load_structure hload hs
  obtain ⟨-, -, hfs⟩ := readStructure_eq_some hq
  simp only [hfields] at hfs
  obtain ⟨ho0, c1, hn0, hfs⟩ := readFields_cons hfs
  obtain ⟨ho1, c2, hn1, hfs⟩ := readFields_cons hfs
  obtain ⟨ho2, c3, hn2, hfs⟩ := readFields_cons hfs
  have hc := readFields_nil hfs
  obtain ⟨h0p, h0a, h0s, h0t⟩ := h0
  obtain ⟨h1p, h1a, h1s⟩ := h1
  obtain ⟨h2p, h2a⟩ := h2
  have e0 : c1 = 12 := by
    have : nextOffset file.pointerSize f0 0 = some 12 := by
      simp only [nextOffset, h0p, h0a, h0s, h0t, Bool.false_eq_true, if_false, if_true]
      rfl
    rw [this] at hn0
    exact (Option.some.inj hn0).symm
  subst e0
  have e1 : c2 = 12 + 3 * file.pointerSize := by
    have : nextOffset file.pointerSize f1 12 = some (12 + 3 * file.pointerSize) := by
      rcases hps with hps | hps <;> simp [nextOffset, h1p, h1a, h1s, hps]
    rw [this] at hn1
    exact (Option.some.inj hn1).symm
  subst e1
  have e2 : nextOffset file.pointerSize f2 (12 + 3 * file.pointerSize)
      = some (12 + 4 * file.pointerSize) := by
    rcases hps with hps | hps <;> simp [nextOffset, h2p, h2a, hps]
  have e3 : c = 12 + 4 * file.pointerSize := by
    rw [e2] at hn2
    rw [hc]
    exact (Option.some.inj hn2).symm
  subst e3
  refine ⟨ho0, ho1, ho2, ?_, data, q, q1, hq⟩
  rw [ho2]
  exact e2

/-- Witness for C1: the structure `Thing` of the example. -/
theorem load_offsets_array_ptrarray_ptr_witness :
    load id demoParseName 0 demoFile = some (true, demoLoaded) ∧
    demoThing ∈ demoLoaded.catalog.structures ∧
    demoThing.fields = [demoFoo3, demoPtrFoo3, demoPtrFoo] ∧
    (demoFoo3.offset = 0 ∧ demoPtrFoo3.offset = 12 ∧
      demoPtrFoo.offset = 12 + 3 * demoLoaded.pointerSize ∧
      nextOffset demoLoaded.pointerSize demoPtrFoo demoPtrFoo.offset
        = some (12 + 4 * demoLoaded.pointerSize) ∧
      ∃ data q q1, readStructure demoLoaded.pointerSize data demoLoaded.catalog.types
        demoLoaded.catalog.names q = some (demoThing, q1, 12 + 4 * demoLoaded.pointerSize)) :=
  ⟨load_demoFile, by decide, rfl,
    load_offsets_array_ptrarray_ptr id demoParseName 0 demoFile true demoLoaded demoThing
      demoFoo3 demoPtrFoo3 demoPtrFoo load_demoFile (Or.inl rfl) (by decide) rfl
      (by decide) (by decide) (by decide)⟩

/-- Consecutive fields: the loop body, run on field `k` at its stored offset,
gives the offset stored in field `k + 1`, and after the last field the final
running offset. -/
theorem readFields_next {pointerSize : Nat} {data : List Nat} {types : List DNAType}
    {names : List DNAName} :
    ∀ (n pos cur : Nat) (fields : List DNAField) (p c : Nat),
      readFields pointerSize data types names n pos cur = some (fields, p, c) →
      ∀ k (hk : k < fields.length), ∃ c1,
        nextOffset pointerSize (fields[k]) (fields[k]).offset = some c1 ∧
        (∀ (hk1 : k + 1 < fields.length), (fields[k + 1]).offset = c1) ∧
        (k + 1 = fields.length → c = c1) := by
  intro n
  induction n with
  | zero =>
    intro pos cur fields p c h k hk
    simp only [readFields, Option.some.injEq, Prod.mk.injEq] at h
    obtain ⟨rfl, -, -⟩ := h
    simp at hk
  | succ n ih =>
    intro pos cur fields p c h k hk
    obtain ⟨field, rest, cur1, hf, hoff, -, -, -, hnext, hrest⟩ := readFields_succ h
    simp only at hf hrest
    subst hf
    cases k with
    | zero =>
      refine ⟨cur1, by simpa [hoff] using hnext, ?_, ?_⟩
      · intro hk1
        cases rest with
        | nil => simp at hk1
        | cons g rest =>
          have := (readFields_cons hrest).1
          simpa using this
      · intro hlen
        cases rest with
        | nil => exact readFields_nil hrest
        | cons g rest => simp at hlen
    | succ k =>
      obtain ⟨c1, h1, h2, h3⟩ := ih _ _ _ _ _ hrest k (by simpa using hk)
      refine ⟨c1, by simpa using h1, ?_, ?_⟩
      · intro hk1
        simpa using h2 (by simpa using hk1)
      · intro hlen
        exact h3 (by simpa using hlen)

/-- The field at index `k` has the type and the name selected by the `k`-th pair
of indices, which is read at `pos + 4 * k`. -/
theorem readFields_indices {pointerSize : Nat} {data : List Nat} {types : List DNAType}
    {names : List DNAName} :
    ∀ (n pos cur : Nat) (fields : List DNAField) (p c : Nat),
      readFields pointerSize data types names n pos cur = some (fields, p, c) →
      ∀ k (hk : k < fields.length),
        types[decodeLE ((data.drop (pos + 4 * k)).take 2)]? = some (fields[k]).type ∧
        names[decodeLE ((data.drop (pos + 4 * k + 2)).take 2)]? = some (fields[k]).name := by
  intro n
  induction n with
  | zero =>
    intro pos cur fields p c h k hk
    simp only [readFields, Option.some.injEq, Prod.mk.injEq] at h
    obtain ⟨rfl, -, -⟩ := h
    simp at hk
  | succ n ih =>
    intro pos cur fields p c h k hk
    obtain ⟨field, rest, cur1, hf, -, -, ht, hn, -, hrest⟩ := readFields_succ h
    simp only at hf hrest
    subst hf
    cases k with
    | zero => exact ⟨by simpa using ht, by simpa using hn⟩
    | succ k =>
      obtain ⟨h1, h2⟩ := ih _ _ _ _ _ hrest k (by simpa using hk)
      have e : pos + 4 * (k + 1) = pos + 4 + 4 * k := by ring
      rw [e]
      exact ⟨by simpa using h1, by simpa using h2⟩

/-- What one structure record decodes to. -/
theorem readStructure_spec {pointerSize : Nat} {data : List Nat} {types : List DNAType}
    {names : List DNAName} {q q1 c : Nat} {s : DNAStructure}
    (h : readStructure pointerSize data types names q = some (s, q1, c)) :
    types[decodeLE ((data.drop q).take 2)]? = some s.type ∧
    s.fields.length = decodeLE ((data.drop (q + 2)).take 2) ∧
    q1 = q + 4 + 4 * s.fields.length ∧
    ∀ j (hj : j < s.fields.length),
      types[decodeLE ((data.drop (q + 4 + 4 * j)).take 2)]? = some (s.fields[j]).type ∧
      names[decodeLE ((data.drop (q + 4 + 4 * j + 2)).take 2)]? = some (s.fields[j]).name := by
  obtain ⟨-, ht, hfs⟩ := readStructure_eq_some h
  obtain ⟨hlen, hp⟩ := readFields_length _ _ _ _ _ _ hfs
  refine ⟨ht, hlen, ?_, readFields_indices _ _ _ _ _ _ hfs⟩
  rw [hlen]
  exact hp

/-- A partial sum of non-negative integers is non-negative and at most the
whole sum. -/
theorem sum_take_bounds :
    ∀ (advs : List Int) (k : Nat), (∀ a ∈ advs, 0 ≤ a) →
      0 ≤ (advs.take k).sum ∧ (advs.take k).sum ≤ advs.sum := by
  intro advs
  induction advs with
  | nil => intro k _; simp
  | cons a advs ih =>
    intro k h
    have ha : 0 ≤ a := h a (List.mem_cons_self _ _)
    have hrest : ∀ b ∈ advs, 0 ≤ b := fun b hb => h b (List.mem_cons_of_mem _ hb)
    cases k with
    | zero =>
      have := ih 0 hrest
      simp only [List.take_zero, List.sum_nil, List.sum_cons] at this ⊢
      omega
    | succ k =>
      have := ih k hrest
      simp only [List.take_succ_cons, List.sum_cons]
      omega

/-- In every structure built by `load` the first field has offset 0, and while
the running offset stays below `2 ^ 24` the offset stored in field `k` is the
sum of the advances of the fields before it, in the 32-bit unsigned
arithmetic of `curOffset`, and the running offset after the last field is the
sum of all advances. -/
theorem load_offsets_exact_range (inflate : List Nat → List Nat)
    (parseName : List Nat → DNAName) (pointerSize0 : Nat) (raw : List Nat) (ret : Bool)
    (file : File) (s : DNAStructure)
    (hload : load inflate parseName pointerSize0 raw = some (ret, file))
    (hs : s ∈ file.catalog.structures) :
    ∃ (data : List Nat) (q q1 c : Nat),
      readStructure file.pointerSize data file.catalog.types file.catalog.names q
        = some (s, q1, c) ∧
      (∀ f, s.fields.head? = some f → f.offset = 0) ∧
      ((∀ f ∈ s.fields, f.offset < 16777216) → c < 16777216 →
        ∃ advs : List Int, s.fields.map (offsetAdvance file.pointerSize) = advs.map some ∧
          (∀ k (hk : k < s.fields.length),
            ((s.fields[k]).offset : Int) = (advs.take k).sum % 4294967296) ∧
          (c : Int) = advs.sum % 4294967296) := by
  obtain ⟨data, q, q1, c, -, hq⟩ := load_structure hload hs
  obtain ⟨-, -, hfs⟩ := readStructure_eq_some hq
  refine ⟨data, q, q1, c, hq, ?_, ?_⟩
  · intro f hf
    cases hfl : s.fields with
    | nil => simp [hfl] at hf
    | cons g rest =>
      simp only [hfl, List.head?_cons, Option.some.injEq] at hf
      subst hf
      rw [hfl] at hfs
      exact (readFields_cons hfs).1
  · intro hoffs hc
    obtain ⟨advs, hadv, hk, hc1⟩ :=
      readFields_offsets _ _ _ _ _ _ (by norm_num) hfs hoffs hc
    simp only [Nat.cast_zero, zero_add] at hk hc1
    exact ⟨advs, hadv, hk, hc1⟩

/-- The third example loads. -/
theorem load_roundFile : load id roundParseName 0 roundFile = some (true, roundLoaded) := by
  decide

/-- Claim C2, evaluated.  In the structure `F { char c; int a[4194305]; int d; }`
the advances of the three fields are 1, 16777220 and 4, and the offsets stored
are 0, 1 and 16777220.  The statement `curOffset += type->size * multi` is
evaluated in `float`, where the sum 1 + 16777220 = 16777221 is not a value and
is rounded to 16777220: the offset of `d` is not the sum of the advances of
the fields before it, and the running offset after the last field, 16777224,
is not the sum of all advances, 16777225. -/
theorem load_offsets_float_rounding :
    load id roundParseName 0 roundFile = some (true, roundLoaded) ∧
    roundLoaded.catalog.structures = [roundF] ∧
    roundF.fields = [roundC, roundA, roundD] ∧
    roundF.fields.map (offsetAdvance 4) = [some 1, some 16777220, some 4] ∧
    roundF.fields.map DNAField.offset = [0, 1, 16777220] ∧
    roundFloat (1 + 16777220) = .finite 16777220 ∧
    nextOffset 4 roundC roundC.offset = some 1 ∧
    nextOffset 4 roundA roundA.offset = some 16777220 ∧
    nextOffset 4 roundD roundD.offset = some 16777224 ∧
    (roundD.offset : Int) ≠ (1 : Int) + 16777220 ∧
    (16777224 : Int) ≠ (1 : Int) + 16777220 + 4 := by
  refine ⟨load_roundFile, rfl, rfl, ?_, rfl, ?_, ?_, ?_, ?_, ?_, ?_⟩ <;> decide

/-- The second example loads. -/
theorem load_quirkFile : load id quirkParseName 0 quirkFile = some (true, quirkLoaded) := by
  decide

/-- Claim C3, evaluated.  For the non-pointer array field `int a[0][3]` the loop
takes the dimension 0 for "no dimension yet" and advances by 3 * 4 = 12 bytes
(the product 0 * 3 gives 0): the next field of `Q` is stored at offset 12.  For
the dimensions `[3][0]` the advance falls back to the plain size 4, although a
dimension differs from -1.  For `[2][3]` the advance is 6 * 4. -/
theorem array_advance_zero_dimension :
    load id quirkParseName 0 quirkFile = some (true, quirkLoaded) ∧
    quirkLoaded.catalog.structures = [quirkQ] ∧
    quirkQ.fields.map DNAField.offset = [0, 12, 16, 12] ∧
    (quirkA.name.isPointer = false ∧ quirkA.name.isArray = true ∧
      quirkA.name.arraySizes = [0, 3] ∧ quirkA.type.size = 4) ∧
    nextOffset 4 quirkA 0 = some 12 ∧
    nextOffset 4 { quirkA with name := { quirkA.name with arraySizes := [3, 0] } } 0 = some 4 ∧
    nextOffset 4 { quirkA with name := { quirkA.name with arraySizes := [2, 3] } } 0
      = some 24 := by
  refine ⟨load_quirkFile, rfl, rfl, ⟨rfl, rfl, rfl, rfl⟩, ?_, ?_, ?_⟩ <;> decide

/-- Claim C4, evaluated.  For the pointer array `int *p[]`, whose first dimension
is the unsized marker -1, the loop multiplies the pointer size by -1: the
advance is -4, the running offset goes back from 16 to 12, and the next field
of `Q` is stored at offset 12, where the field `b` already is.  From a running
offset of 0 the result wraps to 2 ^ 32 - 4. -/
theorem pointer_advance_unsized_dimension :
    load id quirkParseName 0 quirkFile = some (true, quirkLoaded) ∧
    quirkLoaded.catalog.structures = [quirkQ] ∧
    quirkQ.fields = [quirkA, quirkB, quirkP, quirkC] ∧
    (quirkP.name.isPointer = true ∧ quirkP.name.isArray = true ∧
      quirkP.name.arraySizes = [-1]) ∧
    offsetAdvance 4 quirkP = some (-4) ∧
    nextOffset 4 quirkP quirkP.offset = some 12 ∧
    quirkC.offset = 12 ∧ quirkB.offset = 12 ∧
    nextOffset 4 quirkP 0 = some 4294967292 := by
  refine ⟨load_quirkFile, rfl, rfl, ⟨rfl, rfl, rfl⟩, ?_, ?_, rfl, rfl, ?_⟩ <;> decide

/-- Counterexample to C5.  In the structure `Pair` of the example, of base type
`Pair` (8 bytes), the first field is a scalar `int` (4 bytes): the loop
advances the running offset by 4, the size of the field's type, and not by 8,
the size of the structure's base type; the second field is stored at offset 4. -/
theorem scalar_advance_not_base_type :
    load id demoParseName 0 demoFile = some (true, demoLoaded) ∧
    demoPair ∈ demoLoaded.catalog.structures ∧
    demoPair.fields = [demoX0, demoX4] ∧
    (demoX0.name.isPointer = false ∧ demoX0.name.isArray = false) ∧
    demoPair.type.size = 8 ∧ demoX0.type.size = 4 ∧
    nextOffset demoLoaded.pointerSize demoX0 demoX0.offset = some 4 ∧
    demoX4.offset = 4 ∧
    nextOffset demoLoaded.pointerSize demoX0 demoX0.offset
      ≠ some (demoX0.offset + demoPair.type.size) := by
  refine ⟨load_demoFile, ?_, rfl, ⟨rfl, rfl⟩, rfl, rfl, ?_, rfl, ?_⟩ <;> decide

/-- Claim C5, amended.  For every field of a structure built by `load` that is
neither a pointer nor an array, the loop advances the running offset by the
size of the field's own type, the type selected by the type index of the
field's own pair: the advance is that size, and the next field, if there is
one, is stored at the field's offset plus that size (in 32-bit unsigned
arithmetic). -/
theorem load_scalar_advance_field_type (inflate : List Nat → List Nat)
    (parseName : List Nat → DNAName) (pointerSize0 : Nat) (raw : List Nat) (ret : Bool)
    (file : File) (s : DNAStructure) (k : Nat) (hk : k < s.fields.length)
    (hload : load inflate parseName pointerSize0 raw = some (ret, file))
    (hs : s ∈ file.catalog.structures)
    (hscalar : (s.fields[k]).name.isPointer = false ∧ (s.fields[k]).name.isArray = false) :
    offsetAdvance file.pointerSize (s.fields[k]) = some ((s.fields[k]).type.size : Int) ∧
    nextOffset file.pointerSize (s.fields[k]) (s.fields[k]).offset
      = some (((s.fields[k]).offset + (s.fields[k]).type.size) % 4294967296) ∧
    (∀ (hk1 : k + 1 < s.fields.length), (s.fields[k + 1]).offset
      = ((s.fields[k]).offset + (s.fields[k]).type.size) % 4294967296) ∧
    ∃ data q q1 c, openStream inflate raw = some data ∧
      readStructure file.pointerSize data file.catalog.types file.catalog.names q
        = some (s, q1, c) ∧
      file.catalog.types[decodeLE ((data.drop (q + 4 + 4 * k)).take 2)]?
        = some (s.fields[k]).type := by
  obtain ⟨data, q, q1, c, hd, hq⟩ := load_structure hload hs
  obtain ⟨-, -, hfs⟩ := readStructure_eq_some hq
  obtain ⟨c1, hn, hnext, -⟩ := readFields_next _ _ _ _ _ _ hfs k hk
  have e : nextOffset file.pointerSize (s.fields[k]) (s.fields[k]).offset
      = some (((s.fields[k]).offset + (s.fields[k]).type.size) % 4294967296) := by
    simp [nextOffset, hscalar.1, hscalar.2]
  refine ⟨by simp [offsetAdvance, hscalar.1, hscalar.2], e, ?_, data, q, q1, c, hd, hq,
    ((readStructure_spec hq).2.2.2 k hk).1⟩
  intro hk1
  rw [e] at hn
  rw [hnext hk1]
  exact (Option.some.inj hn).symm

/-- Witness for the amended C5: the first field of `Pair` in the example. -/
theorem load_scalar_advance_field_type_witness :
    load id demoParseName 0 demoFile = some (true, demoLoaded) ∧
    demoPair ∈ demoLoaded.catalog.structures ∧
    ((demoPair.fields[0]).name.isPointer = false ∧
      (demoPair.fields[0]).name.isArray = false) ∧
    nextOffset demoLoaded.pointerSize (demoPair.fields[0]) (demoPair.fields[0]).offset
      = some (((demoPair.fields[0]).offset + (demoPair.fields[0]).type.size) % 4294967296) :=
  ⟨load_demoFile, by decide, by decide,
    (load_scalar_advance_field_type id demoParseName 0 demoFile true demoLoaded demoPair 0
      (by decide) load_demoFile (by decide) (by decide)).2.1⟩

/-! ## The type table -/

/-- The type loop started at index `i` builds `n` types whose ids count up
from `i`. -/
theorem readTypes_ids {data : List Nat} :
    ∀ (n pos i : Nat) (types : List DNAType) (p : Nat),
      readTypes data n pos i = some (types, p) →
      types.length = n ∧ ∀ k (hk : k < types.length), (types[k]).id = i + k := by
  intro n
  induction n with
  | zero =>
    intro pos i types p h
    simp only [readTypes, Option.some.injEq, Prod.mk.injEq] at h
    obtain ⟨rfl, -⟩ := h
    exact ⟨rfl, fun k hk => absurd hk (by simp)⟩
  | succ n ih =>
    intro pos i types p h
    rw [readTypes] at h
    simp only [Option.bind_eq_bind, Option.bind_eq_some, Option.some.injEq, Prod.mk.injEq] at h
    obtain ⟨nm, -, ⟨rest, p1⟩, hrest, rfl, rfl⟩ := h
    obtain ⟨hlen, hids⟩ := ih _ _ _ _ hrest
    refine ⟨by simp [hlen], ?_⟩
    intro k hk
    cases k with
    | zero => simp
    | succ k =>
      have := hids k (by simpa using hk)
      simp only [List.getElem_cons_succ, this]
      omega

/-- The type-length loop: one 2-byte size per type, read at `pos + 2 * k`; a
zero becomes `pointerSize`; names and ids are kept. -/
theorem readTypeLengths_spec {pointerSize : Nat} {data : List Nat} :
    ∀ (types : List DNAType) (pos : Nat) (sized : List DNAType) (p : Nat),
      readTypeLengths pointerSize data types pos = some (sized, p) →
      sized.length = types.length ∧ p = pos + 2 * types.length ∧
      ∀ k (hk : k < sized.length) (hk1 : k < types.length),
        pos + 2 * k + 2 ≤ data.length ∧
        (sized[k]).size =
          (if decodeLE ((data.drop (pos + 2 * k)).take 2) = 0 then pointerSize
           else decodeLE ((data.drop (pos + 2 * k)).take 2)) ∧
        (sized[k]).id = (types[k]).id ∧ (sized[k]).name = (types[k]).name := by
  intro types
  induction types with
  | nil =>
    intro pos sized p h
    simp only [readTypeLengths, Option.some.injEq, Prod.mk.injEq] at h
    obtain ⟨rfl, rfl⟩ := h
    exact ⟨rfl, rfl, fun k hk => absurd hk (by simp)⟩
  | cons t ts ih =>
    intro pos sized p h
    rw [readTypeLengths] at h
    simp only [Option.bind_eq_bind, Option.bind_eq_some, read_eq_some, Option.some.injEq,
      Prod.mk.injEq] at h
    obtain ⟨sz, ⟨hsz, rfl⟩, ⟨rest, p1⟩, hrest, rfl, rfl⟩ := h
    obtain ⟨hlen, hp, hall⟩ := ih _ _ _ hrest
    refine ⟨by simp [hlen], by simp only [List.length_cons]; omega, ?_⟩
    intro k hk hk1
    cases k with
    | zero => exact ⟨by omega, by simp⟩
    | succ k =>
      have := hall k (by simpa using hk) (by simpa using hk1)
      have e : pos + 2 * (k + 1) = pos + 2 + 2 * k := by ring
      simp only [List.getElem_cons_succ, e]
      exact this

/-- The type-length loop returns whenever the stream holds two bytes per type. -/
theorem readTypeLengths_isSome {pointerSize : Nat} {data : List Nat} :
    ∀ (types : List DNAType) (pos : Nat), pos + 2 * types.length ≤ data.length →
      ∃ sized, readTypeLengths pointerSize data types pos
        = some (sized, pos + 2 * types.length) := by
  intro types
  induction types with
  | nil => intro pos _; exact ⟨[], by simp [readTypeLengths]⟩
  | cons t ts ih =>
    intro pos h
    simp only [List.length_cons] at h
    obtain ⟨sized, hs⟩ := ih (pos + 2) (by omega)
    have hr : read data pos 2 = some (decodeLE ((data.drop pos).take 2), pos + 2) :=
      read_eq_some.2 ⟨by omega, rfl⟩
    rw [readTypeLengths]
    simp only [hr, Option.bind_eq_bind, Option.some_bind, hs, List.length_cons,
      Option.some.injEq, Prod.mk.injEq]
    exact ⟨_, ⟨rfl, by omega⟩⟩

/-- The type table of a loaded file: the types read by the type loop, then
sized by the type-length loop. -/
theorem load_types {inflate : List Nat → List Nat} {parseName : List Nat → DNAName}
    {pointerSize0 : Nat} {raw : List Nat} {ret : Bool} {file : File}
    (h : load inflate parseName pointerSize0 raw = some (ret, file)) :
    ∃ data types0 n p0 p1 pos, openStream inflate raw = some data ∧
      readTypes data n p0 0 = some (types0, p1) ∧
      readTypeLengths file.pointerSize data types0 pos
        = some (file.catalog.types, pos + 2 * types0.length) := by
  obtain ⟨-, data, m1, m2, version, blocks, back, names, types0, types, structures,
    hd, -, -, -, -, -, -, -, -, ht0, ht, -, hcat, -⟩ := load_eq_some h
  rw [hcat]
  unfold readTypeSection at ht0
  unfold readLengthSection at ht
  simp only [Option.bind_eq_bind, Option.bind_eq_some, Option.some.injEq] at ht0 ht
  obtain ⟨t1, -, nt, -, ⟨ts, p1⟩, hts, rfl⟩ := ht0
  obtain ⟨l1, -, ⟨sized, p2⟩, hsized, rfl⟩ := ht
  have := (readTypeLengths_spec _ _ _ _ hsized).2.1
  simp only at this hsized
  subst this
  exact ⟨data, ts, nt.1, nt.2, p1, l1.2, hd, hts, hsized⟩

/-- Claim C6.  After `load` has read the type-length section, the size stored in
the type of index `k` is the `k`-th encoded 2-byte size when that is not zero
and `pointerSize` when it is zero.  Hence, for pointer size 4 and for pointer
size 8, no type of the catalog has size 0, and a type encoded with size 0 has
exactly the pointer size. -/
theorem load_type_sizes (inflate : List Nat → List Nat)
    (parseName : List Nat → DNAName) (pointerSize0 : Nat) (raw : List Nat) (ret : Bool)
    (file : File)
    (hload : load inflate parseName pointerSize0 raw = some (ret, file)) :
    ∃ (data : List Nat) (types0 : List DNAType) (pos : Nat),
      openStream inflate raw = some data ∧
      readTypeLengths file.pointerSize data types0 pos
        = some (file.catalog.types, pos + 2 * file.catalog.types.length) ∧
      (∀ k (hk : k < file.catalog.types.length),
        pos + 2 * k + 2 ≤ data.length ∧
        (file.catalog.types[k]).size =
          (if decodeLE ((data.drop (pos + 2 * k)).take 2) = 0 then file.pointerSize
           else decodeLE ((data.drop (pos + 2 * k)).take 2))) ∧
      ((file.pointerSize = 4 ∨ file.pointerSize = 8) →
        ∀ k (hk : k < file.catalog.types.length),
          (file.catalog.types[k]).size ≠ 0 ∧
          (decodeLE ((data.drop (pos + 2 * k)).take 2) = 0 →
            (file.catalog.types[k]).size = file.pointerSize)) := by
  obtain ⟨data, types0, n, p0, p1, pos, hd, -, hsized⟩ := load_types hload
  obtain ⟨hlen, -, hall⟩ := readTypeLengths_spec _ _ _ _ hsized
  have hsz : ∀ k (hk : k < file.catalog.types.length),
      pos + 2 * k + 2 ≤ data.length ∧
      (file.catalog.types[k]).size =
        (if decodeLE ((data.drop (pos + 2 * k)).take 2) = 0 then file.pointerSize
         else decodeLE ((data.drop (pos + 2 * k)).take 2)) := by
    intro k hk
    obtain ⟨h1, h2, -⟩ := hall k hk (by omega)
    exact ⟨h1, h2⟩
  refine ⟨data, types0, pos, hd, by rw [hlen]; exact hsized, hsz, ?_⟩
  intro hps k hk
  obtain ⟨-, h2⟩ := hsz k hk
  rw [h2]
  constructor
  · split
    · rcases hps with hps | hps <;> omega
    · assumption
  · intro h0
    simp [h0]

/-- Witness for C6: the example has the encoded sizes 4, 28, 8 and 0, and
loads with the sizes 4, 28, 8 and 4. -/
theorem load_type_sizes_witness :
    load id demoParseName 0 demoFile = some (true, demoLoaded) ∧
    demoLoaded.catalog.types.map DNAType.size = [4, 28, 8, 4] ∧
    ∃ (data : List Nat) (types0 : List DNAType) (pos : Nat),
      openStream id demoFile = some data ∧
      readTypeLengths demoLoaded.pointerSize data types0 pos
        = some (demoLoaded.catalog.types, pos + 2 * demoLoaded.catalog.types.length) ∧
      (∀ k (hk : k < demoLoaded.catalog.types.length),
        pos + 2 * k + 2 ≤ data.length ∧
        (demoLoaded.catalog.types[k]).size =
          (if decodeLE ((data.drop (pos + 2 * k)).take 2) = 0 then demoLoaded.pointerSize
           else decodeLE ((data.drop (pos + 2 * k)).take 2))) ∧
      ((demoLoaded.pointerSize = 4 ∨ demoLoaded.pointerSize = 8) →
        ∀ k (hk : k < demoLoaded.catalog.types.length),
          (demoLoaded.catalog.types[k]).size ≠ 0 ∧
          (decodeLE ((data.drop (pos + 2 * k)).take 2) = 0 →
            (demoLoaded.catalog.types[k]).size = demoLoaded.pointerSize)) :=
  ⟨load_demoFile, by decide,
    load_type_sizes id demoParseName 0 demoFile true demoLoaded load_demoFile⟩

/-! ## The structure table -/

/-- Claim C7.  Every type of a loaded catalog has its position in the type list
as id.  The structure section is a 4-byte count followed by that many records,
one after the other (`starts` are the record boundaries); the `i`-th structure
of the catalog is decoded from the `i`-th record: its base type is the type
selected by the record's leading 2-byte index, it has as many fields as the
2-byte field count says, and its `j`-th field refers to the type and the name
selected by the `j`-th pair of 2-byte indices. -/
theorem load_catalog_records (inflate : List Nat → List Nat)
    (parseName : List Nat → DNAName) (pointerSize0 : Nat) (raw : List Nat) (ret : Bool)
    (file : File)
    (hload : load inflate parseName pointerSize0 raw = some (ret, file)) :
    (∀ k (hk : k < file.catalog.types.length), (file.catalog.types[k]).id = k) ∧
    ∃ (data : List Nat) (p : Nat) (starts : List Nat),
      openStream inflate raw = some data ∧
      read data p 4 = some (file.catalog.structures.length, p + 4) ∧
      starts.length = file.catalog.structures.length + 1 ∧
      starts[0]? = some (p + 4) ∧
      ∀ i (hi : i < file.catalog.structures.length), ∃ q, starts[i]? = some q ∧
        starts[i + 1]? = some (q + 4 + 4 * (file.catalog.structures[i]).fields.length) ∧
        file.catalog.types[decodeLE ((data.drop q).take 2)]?
          = some (file.catalog.structures[i]).type ∧
        (file.catalog.structures[i]).fields.length = decodeLE ((data.drop (q + 2)).take 2) ∧
        ∀ j (hj : j < (file.catalog.structures[i]).fields.length),
          file.catalog.types[decodeLE ((data.drop (q + 4 + 4 * j)).take 2)]?
            = some (((file.catalog.structures[i]).fields[j]).type) ∧
          file.catalog.names[decodeLE ((data.drop (q + 4 + 4 * j + 2)).take 2)]?
            = some (((file.catalog.structures[i]).fields[j]).name) := by
  constructor
  · obtain ⟨data, types0, n, p0, p1, pos, -, hts, hsized⟩ := load_types hload
    obtain ⟨-, hids⟩ := readTypes_ids _ _ _ _ _ hts
    obtain ⟨hlen, -, hall⟩ := readTypeLengths_spec _ _ _ _ hsized
    intro k hk
    rw [(hall k hk (by omega)).2.2.1, hids k (by omega)]
    omega
  · obtain ⟨-, data, m1, m2, version, blocks, back, names, types0, types, structures,
      hd, -, -, -, -, -, -, -, -, -, -, hst, hcat, -⟩ := load_eq_some hload
    rw [hcat]
    unfold readStructureSection at hst
    simp only [Option.bind_eq_bind, Option.bind_eq_some, Option.some.injEq] at hst
    obtain ⟨s1, -, ns, hns, ⟨sts, p2⟩, hsts, rfl⟩ := hst
    obtain ⟨hlen, starts, hsl, hs0, -, hall⟩ := readStructures_records _ _ _ _ hsts
    obtain ⟨hns1, hns2⟩ := read_eq_some.1 hns
    simp only at hlen hall ⊢
    refine ⟨data, s1.2, starts, hd, ?_, by rw [hlen]; exact hsl, ?_, ?_⟩
    · rw [hlen, hns, hns2]
    · rw [hs0, hns2]
    · intro i hi
      obtain ⟨q, q1, c, hq, hq1, hrec⟩ := hall i hi
      obtain ⟨ht, hfl, hq1e, hfields⟩ := readStructure_spec hrec
      exact ⟨q, hq, by rw [hq1, hq1e], ht, hfl, hfields⟩

/-- Witness for C7: the example, whose structure section holds two records. -/
theorem load_catalog_records_witness :
    load id demoParseName 0 demoFile = some (true, demoLoaded) ∧
    demoLoaded.catalog.structures.length = 2 ∧
    ((∀ k (hk : k < demoLoaded.catalog.types.length), (demoLoaded.catalog.types[k]).id = k) ∧
    ∃ (data : List Nat) (p : Nat) (starts : List Nat),
      openStream id demoFile = some data ∧
      read data p 4 = some (demoLoaded.catalog.structures.length, p + 4) ∧
      starts.length = demoLoaded.catalog.structures.length + 1 ∧
      starts[0]? = some (p + 4) ∧
      ∀ i (hi : i < demoLoaded.catalog.structures.length), ∃ q, starts[i]? = some q ∧
        starts[i + 1]?
          = some (q + 4 + 4 * (demoLoaded.catalog.structures[i]).fields.length) ∧
        demoLoaded.catalog.types[decodeLE ((data.drop q).take 2)]?
          = some (demoLoaded.catalog.structures[i]).type ∧
        (demoLoaded.catalog.structures[i]).fields.length
          = decodeLE ((data.drop (q + 2)).take 2) ∧
        ∀ j (hj : j < (demoLoaded.catalog.structures[i]).fields.length),
          demoLoaded.catalog.types[decodeLE ((data.drop (q + 4 + 4 * j)).take 2)]?
            = some (((demoLoaded.catalog.structures[i]).fields[j]).type) ∧
          demoLoaded.catalog.names[decodeLE ((data.drop (q + 4 + 4 * j + 2)).take 2)]?
            = some (((demoLoaded.catalog.structures[i]).fields[j]).name)) :=
  ⟨load_demoFile, rfl,
    load_catalog_records id demoParseName 0 demoFile true demoLoaded load_demoFile⟩

/-! ## Block headers and the directory -/

/-- What `readHeader` reads at `pos`: the tag from 4 bytes, the size from the
next 4; for a tag other than "ENDB" the address from the next 4 or 8 bytes
(4 when `pointerSize` is 4), then the structure index and the count from 4
bytes each; the block's `offset` is the position after the header. -/
theorem readHeader_spec {pointerSize : Nat} {data : List Nat} {pos : Nat} {b : Block}
    (h : readHeader pointerSize data pos = some b) :
    pos + 8 ≤ data.length ∧ b.offset ≤ data.length ∧ pos + 8 ≤ b.offset ∧
    b.«structure» = none ∧
    b.code = (trim ((data.drop pos).take 4)).filter (fun ch => ch != 0) ∧
    b.size = decodeLE ((data.drop (pos + 4)).take 4) ∧
    (b.code ≠ ENDB →
      b.address = decodeLE ((data.drop (pos + 8)).take (if pointerSize = 4 then 4 else 8)) ∧
      b.offset = pos + 16 + (if pointerSize = 4 then 4 else 8)) ∧
    (b.code = ENDB → b.address = 0 ∧ b.SDNAIndex = 0 ∧ b.count = 0 ∧ b.offset = pos + 8) := by
  unfold readHeader at h
  simp only [Option.bind_eq_bind, Option.bind_eq_some] at h
  obtain ⟨c, hc, h⟩ := h
  obtain ⟨hc1, rfl⟩ := (readString_eq_some (by norm_num)).1 hc
  split at h
  · rename_i hne
    simp only [bne_iff_ne, ne_eq] at hne
    simp only [Option.bind_eq_some, read_eq_some, Option.some.injEq] at h
    obtain ⟨sz, ⟨h1, rfl⟩, ad, had, si, ⟨h3, rfl⟩, ct, ⟨h4, rfl⟩, rfl⟩ := h
    have hw : (if pointerSize = 4 then 4 else 8) = 4 ∨ (if pointerSize = 4 then 4 else 8) = 8 := by
      split <;> simp
    have had1 : read data (pos + 4 + 4) (if pointerSize = 4 then 4 else 8) = some ad := by
      unfold readPointer at had
      by_cases hps : pointerSize = 4
      · simpa [hps] using had
      · have hb : (pointerSize == 4) = false := by simpa using hps
        simpa [hps, hb] using had
    obtain ⟨h2, rfl⟩ := read_eq_some.1 had1
    generalize (if pointerSize = 4 then 4 else 8) = w at *
    simp only at h3 h4 ⊢
    refine ⟨by omega, by omega, by omega, trivial, trivial, ?_, ?_, ?_⟩
    · simp [Nat.add_assoc]
    · intro _
      exact ⟨by simp [Nat.add_assoc], by omega⟩
    · intro he
      exact absurd he hne
  · rename_i hne
    simp only [bne_iff_ne, ne_eq, not_not] at hne
    simp only [Option.bind_eq_some, read_eq_some, Option.some.injEq] at h
    obtain ⟨sz, ⟨h1, rfl⟩, rfl⟩ := h
    simp only at hne ⊢
    refine ⟨by omega, by omega, by omega, trivial, trivial, ?_, ?_, ?_⟩
    · simp [Nat.add_assoc]
    · intro hn
      exact absurd hne hn
    · intro _
      exact ⟨trivial, trivial, trivial, trivial⟩

/-- The entries the loop pushes: it starts with `back`, the last entry is the
catalog block, no entry before it is, and each entry's header is read where
the payload of the entry before it ends. -/
theorem scanLoop_spec {pointerSize : Nat} {data : List Nat} :
    ∀ (fuel : Nat) (back : Block) (blocks : List Block),
      scanLoop pointerSize data fuel back = some blocks →
      blocks.head? = some back ∧
      (∃ last, blocks.getLast? = some last ∧ isCatalogCode last.code = true) ∧
      ∀ i (hi : i + 1 < blocks.length),
        isCatalogCode (blocks[i]).code = false ∧
        readHeader pointerSize data ((blocks[i]).offset + (blocks[i]).size)
          = some (blocks[i + 1]) := by
  intro fuel
  induction fuel with
  | zero => intro back blocks h; simp [scanLoop] at h
  | succ fuel ih =>
    intro back blocks h
    rw [scanLoop] at h
    split at h
    · rename_i hcat
      simp only [Option.some.injEq] at h
      subst h
      exact ⟨rfl, ⟨back, rfl, hcat⟩, fun i hi => absurd hi (by simp)⟩
    · rename_i hcat
      simp only [Option.bind_eq_bind, Option.bind_eq_some, Option.some.injEq] at h
      obtain ⟨next, hnext, rest, hrest, rfl⟩ := h
      obtain ⟨hhead, ⟨last, hlast, hlc⟩, hall⟩ := ih _ _ hrest
      cases rest with
      | nil => simp at hhead
      | cons r rest =>
        simp only [List.head?_cons, Option.some.injEq] at hhead
        subst hhead
        refine ⟨rfl, ⟨last, by simpa using hlast, hlc⟩, ?_⟩
        intro i hi
        cases i with
        | zero => exact ⟨by simpa using hcat, by simpa using hnext⟩
        | succ i =>
          have := hall i (by simpa using hi)
          simpa using this

/-- The loop does not depend on its fuel once the fuel exceeds the bytes that
remain after the entry it starts with: the scan of `load` never stops for lack
of fuel. -/
theorem scanLoop_fuel {pointerSize : Nat} {data : List Nat} :
    ∀ (fuel : Nat) (back : Block) (blocks : List Block),
      scanLoop pointerSize data fuel back = some blocks →
      back.offset ≤ data.length →
      ∀ fuel1, data.length < fuel1 + back.offset →
        scanLoop pointerSize data fuel1 back = some blocks := by
  intro fuel
  induction fuel with
  | zero => intro back blocks h; simp [scanLoop] at h
  | succ fuel ih =>
    intro back blocks h hle fuel1 hf
    cases fuel1 with
    | zero => omega
    | succ fuel1 =>
      rw [scanLoop] at h ⊢
      split at h
      · rename_i hcat
        simp only [hcat, if_true]
        exact h
      · rename_i hcat
        simp only [hcat, Bool.false_eq_true, if_false]
        simp only [Option.bind_eq_bind, Option.bind_eq_some, Option.some.injEq] at h ⊢
        obtain ⟨next, hnext, rest, hrest, rfl⟩ := h
        obtain ⟨-, h2, h3, -⟩ := readHeader_spec hnext
        exact ⟨next, hnext, rest, ih _ _ hrest h2 fuel1 (by omega), rfl⟩

/-- The scan of `load` finds every directory that the loop can produce with
any amount of fuel. -/
theorem scanBlocks_complete {pointerSize : Nat} {data : List Nat} {pos fuel : Nat}
    {first : Block} {blocks : List Block}
    (hfirst : readHeader pointerSize data pos = some first)
    (hloop : scanLoop pointerSize data fuel first = some blocks) :
    scanBlocks pointerSize data pos = some blocks := by
  unfold scanBlocks
  simp only [hfirst, Option.bind_eq_bind, Option.some_bind]
  obtain ⟨-, h2, -⟩ := readHeader_spec hfirst
  exact scanLoop_fuel _ _ _ hloop h2 _ (by omega)

/-- The directory scan: the first header is read at `pos`, the last entry is
the catalog block, no entry before it is, each header is read where the
payload before it ends, and every entry is a header of the stream. -/
theorem scanBlocks_spec {pointerSize : Nat} {data : List Nat} {pos : Nat}
    {blocks : List Block} (h : scanBlocks pointerSize data pos = some blocks) :
    (∃ first, readHeader pointerSize data pos = some first ∧ blocks.head? = some first) ∧
    (∃ last, blocks.getLast? = some last ∧ isCatalogCode last.code = true) ∧
    (∀ i (hi : i + 1 < blocks.length),
      isCatalogCode (blocks[i]).code = false ∧
      readHeader pointerSize data ((blocks[i]).offset + (blocks[i]).size)
        = some (blocks[i + 1])) ∧
    ∀ i (hi : i < blocks.length), ∃ q, readHeader pointerSize data q = some (blocks[i]) := by
  unfold scanBlocks at h
  simp only [Option.bind_eq_bind, Option.bind_eq_some] at h
  obtain ⟨first, hfirst, hloop⟩ := h
  obtain ⟨hhead, hlast, hall⟩ := scanLoop_spec _ _ _ hloop
  refine ⟨⟨first, hfirst, hhead⟩, hlast, hall, ?_⟩
  intro i hi
  cases i with
  | zero =>
    refine ⟨pos, ?_⟩
    cases blocks with
    | nil => simp at hi
    | cons b bs =>
      simp only [List.head?_cons, Option.some.injEq] at hhead
      simpa [hhead] using hfirst
  | succ i => exact ⟨_, (hall i hi).2⟩

/-- The link loop keeps the entries and their order and sets in each entry the
structure selected by its `SDNAIndex`, if the table has one at that index. -/
theorem linkBlocks_spec {structures : List DNAStructure} :
    ∀ (blocks linked : List Block), linkBlocks structures blocks = linked →
      linked.length = blocks.length ∧
      ∀ i (hi : i < linked.length) (hi1 : i < blocks.length),
        linked[i] = { blocks[i] with «structure» := structures[(blocks[i]).SDNAIndex]? } := by
  intro blocks
  induction blocks with
  | nil =>
    intro linked h
    simp only [linkBlocks] at h
    subst h
    exact ⟨rfl, fun i hi => absurd hi (by simp)⟩
  | cons b bs ih =>
    intro linked h
    rw [linkBlocks] at h
    subst h
    obtain ⟨hlen, hall⟩ := ih _ rfl
    refine ⟨by simp [hlen], ?_⟩
    intro i hi hi1
    cases i with
    | zero => rfl
    | succ i =>
      have he := hall i (by simpa using hi) (by simpa using hi1)
      simpa using he

/-- The directory of a loaded file: the blocks scanned from position 12, the
end of the 12-byte file header, then linked. -/
theorem load_blocks {inflate : List Nat → List Nat} {parseName : List Nat → DNAName}
    {pointerSize0 : Nat} {raw : List Nat} {ret : Bool} {file : File}
    (h : load inflate parseName pointerSize0 raw = some (ret, file)) :
    ∃ data blocks, openStream inflate raw = some data ∧ 12 ≤ data.length ∧
      file.pointerSize
        = choosePointerSize pointerSize0 (trim ((data.drop 7).take 1)) ∧
      scanBlocks file.pointerSize data 12 = some blocks ∧
      linkBlocks file.catalog.structures blocks = file.blocks := by
  obtain ⟨-, data, m1, m2, version, blocks, back, names, types0, types, structures,
    hd, hm1, hps, hm2, hv, -, hscan, -, -, -, -, -, hcat, hlink⟩ := load_eq_some h
  obtain ⟨h1, rfl⟩ := (readString_eq_some (by norm_num)).1 hm1
  obtain ⟨h2, rfl⟩ := (readString_eq_some (by norm_num)).1 hm2
  obtain ⟨h3, rfl⟩ := (readString_eq_some (by norm_num)).1 hv
  rw [hcat]
  exact ⟨data, blocks, hd, by omega, hps, hscan, hlink⟩

/-- An entry of a loaded directory is the scanned header with the structure
set: the header is recovered by clearing the structure. -/
theorem load_block_header {inflate : List Nat → List Nat} {parseName : List Nat → DNAName}
    {pointerSize0 : Nat} {raw : List Nat} {ret : Bool} {file : File}
    (h : load inflate parseName pointerSize0 raw = some (ret, file)) :
    ∃ data blocks, openStream inflate raw = some data ∧
      scanBlocks file.pointerSize data 12 = some blocks ∧
      blocks.length = file.blocks.length ∧
      ∀ i (hi : i < file.blocks.length) (hi1 : i < blocks.length),
        blocks[i] = { file.blocks[i] with «structure» := none } := by
  obtain ⟨data, blocks, hd, -, -, hscan, hlink⟩ := load_blocks h
  obtain ⟨hlen, hall⟩ := linkBlocks_spec _ _ hlink
  refine ⟨data, blocks, hd, hscan, hlen.symm, ?_⟩
  intro i hi hi1
  have he := hall i hi hi1
  obtain ⟨q, hq⟩ := (scanBlocks_spec hscan).2.2.2 i hi1
  have hnone := (readHeader_spec hq).2.2.2.1
  rw [he]
  cases hb : blocks[i] with
  | mk code size address SDNAIndex count offset st =>
    rw [hb] at hnone
    simp only at hnone
    subst hnone
    rfl

/-- The pointer size `load` takes from the byte after the magic. -/
theorem load_scanned {inflate : List Nat → List Nat} {parseName : List Nat → DNAName}
    {pointerSize0 : Nat} {raw data : List Nat} {blocks : List Block} {ret : Bool}
    {file : File}
    (hopen : openStream inflate raw = some data)
    (hscan : scanBlocks (choosePointerSize pointerSize0 (trim ((data.drop 7).take 1)))
      data 12 = some blocks)
    (h : load inflate parseName pointerSize0 raw = some (ret, file)) :
    file.pointerSize = choosePointerSize pointerSize0 (trim ((data.drop 7).take 1)) ∧
    file.blocks.length = blocks.length ∧
    ∀ i (hi : i < file.blocks.length) (hi1 : i < blocks.length),
      blocks[i] = { file.blocks[i] with «structure» := none } := by
  obtain ⟨data1, blocks1, hd, hscan1, hlen, hsame⟩ := load_block_header h
  obtain ⟨data2, blocks2, hd2, -, hps, -, -⟩ := load_blocks h
  rw [hopen] at hd hd2
  obtain rfl := Option.some.inj hd
  obtain rfl := Option.some.inj hd2
  rw [hps, hscan] at hscan1
  obtain rfl := Option.some.inj hscan1
  exact ⟨hps, hlen.symm, hsame⟩

/-- The example begins with the magic: its stream is the file itself. -/
theorem openStream_demoFile : openStream id demoFile = some demoFile := by
  decide

/-- The scan of the example. -/
theorem scanBlocks_demoFile :
    scanBlocks (choosePointerSize 0 (trim ((demoFile.drop 7).take 1))) demoFile 12
      = some demoScanned := by
  decide

/-- The byte after the magic of the example is `_`. -/
theorem demoFile_marker : demoFile[7]? = some 95 := by
  decide

/-- The pointer size of the example. -/
theorem demoFile_pointerSize :
    choosePointerSize 0 (trim ((demoFile.drop 7).take 1)) = 4 := by
  decide

/-- Claim C8.  When the directory scan of `load` reaches a catalog-tagged block,
the directory lists the blocks in on-disk order: the header of the first entry
is read at position 12, the header of entry `i + 1` is read exactly at the
payload offset of entry `i` plus its declared size, and the payload offsets
increase.  The last entry carries the catalog tag ("DNA1" or "SDNA") and no
entry before it does: the scan stops with the catalog block.  If `load`
returns, its directory is this list, each entry linked to its structure. -/
theorem load_directory (inflate : List Nat → List Nat)
    (parseName : List Nat → DNAName) (pointerSize0 : Nat) (raw data : List Nat)
    (blocks : List Block)
    (hopen : openStream inflate raw = some data)
    (hscan : scanBlocks (choosePointerSize pointerSize0 (trim ((data.drop 7).take 1)))
      data 12 = some blocks) :
    (∃ first, blocks.head? = some first ∧
      readHeader (choosePointerSize pointerSize0 (trim ((data.drop 7).take 1))) data 12
        = some first) ∧
    (∃ last, blocks.getLast? = some last ∧ isCatalogCode last.code = true) ∧
    (∀ i (hi : i + 1 < blocks.length),
      isCatalogCode (blocks[i]).code = false ∧
      readHeader (choosePointerSize pointerSize0 (trim ((data.drop 7).take 1))) data
          ((blocks[i]).offset + (blocks[i]).size) = some (blocks[i + 1]) ∧
      (blocks[i]).offset < (blocks[i + 1]).offset) ∧
    ∀ ret file, load inflate parseName pointerSize0 raw = some (ret, file) →
      file.blocks.length = blocks.length ∧
      ∀ i (hi : i < file.blocks.length) (hi1 : i < blocks.length),
        blocks[i] = { file.blocks[i] with «structure» := none } := by
  obtain ⟨⟨first, hfirst, hhead⟩, hlast, hall, -⟩ := scanBlocks_spec hscan
  refine ⟨⟨first, hhead, hfirst⟩, hlast, ?_, ?_⟩
  · intro i hi
    obtain ⟨hc, hnext⟩ := hall i hi
    refine ⟨hc, hnext, ?_⟩
    have := (readHeader_spec hnext).2.2.1
    omega
  · intro ret file hload
    exact (load_scanned hopen hscan hload).2

/-- Witness for C8: the directory of the example. -/
theorem load_directory_witness :
    openStream id demoFile = some demoFile ∧
    scanBlocks (choosePointerSize 0 (trim ((demoFile.drop 7).take 1))) demoFile 12
      = some demoScanned ∧
    (∀ i (hi : i + 1 < demoScanned.length),
      isCatalogCode (demoScanned[i]).code = false ∧
      readHeader (choosePointerSize 0 (trim ((demoFile.drop 7).take 1))) demoFile
          ((demoScanned[i]).offset + (demoScanned[i]).size) = some (demoScanned[i + 1]) ∧
      (demoScanned[i]).offset < (demoScanned[i + 1]).offset) :=
  ⟨openStream_demoFile, scanBlocks_demoFile,
    (load_directory id demoParseName 0 demoFile demoFile demoScanned openStream_demoFile
      scanBlocks_demoFile).2.2.1⟩

/-- The one-character string read at position `pos` when the byte there is
`c`. -/
theorem take_one_drop {data : List Nat} {pos c : Nat} (h : data[pos]? = some c) :
    (data.drop pos).take 1 = [c] := by
  obtain ⟨hlt, hc⟩ := List.getElem?_eq_some.1 h
  rw [List.drop_eq_getElem_cons hlt, hc]
  simp

/-- Claim C9.  The byte after the magic selects the pointer size: `-` gives 8 and
`_` gives 4.  With either marker that size is the width of the address field
of every block header the scan reads: the address of a block other than the
terminator is the unsigned value of exactly `pointerSize` bytes, 8 bytes after
the start of its header, and its payload offset is the position of its header
plus 16 + `pointerSize`.  If `load` returns, this is its pointer size and
these are its blocks. -/
theorem load_pointer_width (inflate : List Nat → List Nat)
    (parseName : List Nat → DNAName) (pointerSize0 pointerSize : Nat) (raw data : List Nat)
    (blocks : List Block)
    (hopen : openStream inflate raw = some data)
    (hmarker : data[7]? = some 45 ∨ data[7]? = some 95)
    (hps : pointerSize = choosePointerSize pointerSize0 (trim ((data.drop 7).take 1)))
    (hscan : scanBlocks pointerSize data 12 = some blocks) :
    (data[7]? = some 45 → pointerSize = 8) ∧
    (data[7]? = some 95 → pointerSize = 4) ∧
    (∀ i (hi : i < blocks.length), ∃ pos,
      readHeader pointerSize data pos = some (blocks[i]) ∧
      ((blocks[i]).code ≠ ENDB →
        (blocks[i]).address = decodeLE ((data.drop (pos + 8)).take pointerSize) ∧
        (blocks[i]).offset = pos + 16 + pointerSize)) ∧
    ∀ ret file, load inflate parseName pointerSize0 raw = some (ret, file) →
      file.pointerSize = pointerSize ∧ file.blocks.length = blocks.length ∧
      ∀ i (hi : i < file.blocks.length) (hi1 : i < blocks.length),
        blocks[i] = { file.blocks[i] with «structure» := none } := by
  have h8 : data[7]? = some 45 → pointerSize = 8 := by
    intro h
    rw [hps, take_one_drop h]
    rfl
  have h4 : data[7]? = some 95 → pointerSize = 4 := by
    intro h
    rw [hps, take_one_drop h]
    rfl
  have hw : (if pointerSize = 4 then 4 else 8) = pointerSize := by
    rcases hmarker with h | h
    · simp [h8 h]
    · simp [h4 h]
  refine ⟨h8, h4, ?_, ?_⟩
  · intro i hi
    obtain ⟨pos, hpos⟩ := (scanBlocks_spec hscan).2.2.2 i hi
    refine ⟨pos, hpos, ?_⟩
    intro hne
    have := (readHeader_spec hpos).2.2.2.2.2.2.1 hne
    rw [hw] at this
    exact this
  · intro ret file hload
    subst hps
    obtain ⟨h1, h2, h3⟩ := load_scanned hopen hscan hload
    exact ⟨h1, h2, h3⟩

/-- Witness for C9: the example has the marker `_`, its pointer size is 4, and
the scan reads its headers with 4-byte addresses. -/
theorem load_pointer_width_witness :
    openStream id demoFile = some demoFile ∧
    (demoFile[7]? = some 45 ∨ demoFile[7]? = some 95) ∧
    scanBlocks (choosePointerSize 0 (trim ((demoFile.drop 7).take 1))) demoFile 12
      = some demoScanned ∧
    choosePointerSize 0 (trim ((demoFile.drop 7).take 1)) = 4 ∧
    (∀ i (hi : i < demoScanned.length), ∃ pos,
      readHeader (choosePointerSize 0 (trim ((demoFile.drop 7).take 1))) demoFile pos
        = some (demoScanned[i]) ∧
      ((demoScanned[i]).code ≠ ENDB →
        (demoScanned[i]).address = decodeLE ((demoFile.drop (pos + 8)).take
          (choosePointerSize 0 (trim ((demoFile.drop 7).take 1)))) ∧
        (demoScanned[i]).offset
          = pos + 16 + choosePointerSize 0 (trim ((demoFile.drop 7).take 1)))) :=
  have h := load_pointer_width id demoParseName 0
    (choosePointerSize 0 (trim ((demoFile.drop 7).take 1))) demoFile demoFile demoScanned
    openStream_demoFile (Or.inr demoFile_marker) rfl scanBlocks_demoFile
  ⟨openStream_demoFile, Or.inr demoFile_marker, scanBlocks_demoFile,
    h.2.1 demoFile_marker, h.2.2.1⟩

/-! ## Reads depend on the stream only from their position on -/

theorem bind_agree {α β : Type} {x x1 : Option α} {f f1 : α → Option β} (hx : x = x1)
    (hf : ∀ a, x1 = some a → f a = f1 a) : x.bind f = x1.bind f1 := by
  subst hx
  cases x with
  | none => rfl
  | some a => exact hf a rfl

theorem AgreeFrom.drop_eq {k : Nat} {data data1 : List Nat} (h : AgreeFrom k data data1)
    {pos : Nat} (hp : k ≤ pos) : data.drop pos = data1.drop pos := by
  obtain ⟨j, rfl⟩ := Nat.exists_eq_add_of_le hp
  rw [← List.drop_drop, ← List.drop_drop, h.2]

theorem AgreeFrom.mono {k k1 : Nat} {data data1 : List Nat} (h : AgreeFrom k data data1)
    (hk : k ≤ k1) : AgreeFrom k1 data data1 :=
  ⟨h.1, h.drop_eq hk⟩

theorem readChar_agree {k : Nat} {data data1 : List Nat} (h : AgreeFrom k data data1)
    {pos : Nat} (hp : k ≤ pos) (length : Nat) :
    readChar data pos length = readChar data1 pos length := by
  unfold readChar
  rw [h.1, h.drop_eq hp]

theorem readString_agree {k : Nat} {data data1 : List Nat} (h : AgreeFrom k data data1)
    {pos : Nat} (hp : k ≤ pos) (length : Nat) :
    readString data pos length = readString data1 pos length := by
  unfold readString
  rw [readChar_agree h hp, h.drop_eq hp]

theorem read_agree {k : Nat} {data data1 : List Nat} (h : AgreeFrom k data data1)
    {pos : Nat} (hp : k ≤ pos) (width : Nat) :
    read data pos width = read data1 pos width := by
  unfold read
  rw [readChar_agree h hp]

theorem readPointer_agree {k : Nat} {data data1 : List Nat} (h : AgreeFrom k data data1)
    {pos : Nat} (hp : k ≤ pos) (pointerSize : Nat) :
    readPointer pointerSize data pos = readPointer pointerSize data1 pos := by
  unfold readPointer
  rw [read_agree h hp, read_agree h hp]

/-- A read never moves the position back. -/
theorem readChar_pos {data : List Nat} {pos length : Nat} {r : List Nat × Nat}
    (h : readChar data pos length = some r) : pos ≤ r.2 := by
  obtain ⟨-, rfl⟩ := readChar_eq_some.1 h
  simp

theorem read_pos {data : List Nat} {pos width : Nat} {r : Nat × Nat}
    (h : read data pos width = some r) : pos ≤ r.2 := by
  obtain ⟨-, rfl⟩ := read_eq_some.1 h
  simp

theorem readPointer_pos {pointerSize : Nat} {data : List Nat} {pos : Nat} {r : Nat × Nat}
    (h : readPointer pointerSize data pos = some r) : pos ≤ r.2 := by
  unfold readPointer at h
  split at h <;> exact read_pos h

theorem readString_pos {data : List Nat} {pos length : Nat} {r : List Nat × Nat}
    (h : readString data pos length = some r) : pos ≤ r.2 := by
  unfold readString at h
  split at h
  · simp only [Option.map_eq_some'] at h
    obtain ⟨a, -, rfl⟩ := h
    simp
  · simp only [Option.map_eq_some'] at h
    obtain ⟨a, ha, rfl⟩ := h
    exact (readChar_pos ha : pos ≤ a.2)

theorem align_pos (pos : Nat) : pos ≤ (align pos).toNat := by
  unfold align
  have h := Int.tmod_eq_emod (Int.ofNat_nonneg pos) (by norm_num : (0 : Int) ≤ 4)
  simp only [h]
  split <;> omega

theorem readHeader_agree {k : Nat} {data data1 : List Nat} (h : AgreeFrom k data data1)
    {pos : Nat} (hp : k ≤ pos) (pointerSize : Nat) :
    readHeader pointerSize data pos = readHeader pointerSize data1 pos := by
  unfold readHeader
  simp only [Option.bind_eq_bind]
  refine bind_agree (readString_agree h hp 4) (fun c hc => ?_)
  have h1 := readString_pos hc
  by_cases hcode : (List.filter (fun ch => ch != 0) c.1 != ENDB) = true
  · simp only [hcode, if_true]
    refine bind_agree (read_agree h (by omega) 4) (fun sz hsz => ?_)
    have h2 := read_pos hsz
    refine bind_agree (readPointer_agree h (by omega) pointerSize) (fun ad had => ?_)
    have h3 := readPointer_pos had
    refine bind_agree (read_agree h (by omega) 4) (fun si hsi => ?_)
    have h4 := read_pos hsi
    exact bind_agree (read_agree h (by omega) 4) (fun ct _ => rfl)
  · simp only [hcode, if_false]
    exact bind_agree (read_agree h (by omega) 4) (fun sz _ => rfl)

theorem scanLoop_agree {k : Nat} {data data1 : List Nat} (h : AgreeFrom k data data1)
    (pointerSize : Nat) :
    ∀ (fuel : Nat) (back : Block), k ≤ back.offset →
      scanLoop pointerSize data fuel back = scanLoop pointerSize data1 fuel back := by
  intro fuel
  induction fuel with
  | zero => intro back _; rfl
  | succ fuel ih =>
    intro back hb
    rw [scanLoop, scanLoop]
    split
    · rfl
    · simp only [Option.bind_eq_bind]
      refine bind_agree (readHeader_agree h (by omega) pointerSize) (fun next hnext => ?_)
      have := (readHeader_spec hnext).2.2.1
      rw [ih next (by omega)]

theorem scanBlocks_agree {k : Nat} {data data1 : List Nat} (h : AgreeFrom k data data1)
    {pos : Nat} (hp : k ≤ pos) (pointerSize : Nat) :
    scanBlocks pointerSize data pos = scanBlocks pointerSize data1 pos := by
  unfold scanBlocks
  simp only [Option.bind_eq_bind]
  refine bind_agree (readHeader_agree h hp pointerSize) (fun first hfirst => ?_)
  have := (readHeader_spec hfirst).2.2.1
  rw [h.1]
  exact scanLoop_agree h pointerSize _ first (by omega)

theorem readNames_pos {parseName : List Nat → DNAName} {data : List Nat} :
    ∀ (n pos : Nat) (r : List DNAName × Nat),
      readNames parseName data n pos = some r → pos ≤ r.2 := by
  intro n
  induction n with
  | zero =>
    intro pos r h
    simp only [readNames, Option.some.injEq] at h
    subst h
    exact Nat.le_refl _
  | succ n ih =>
    intro pos r h
    rw [readNames] at h
    simp only [Option.bind_eq_bind, Option.bind_eq_some, Option.some.injEq] at h
    obtain ⟨s, hs, rest, hrest, rfl⟩ := h
    have h1 := readString_pos hs
    have h2 := ih _ _ hrest
    simp only
    omega

theorem readNames_agree {k : Nat} {data data1 : List Nat} (h : AgreeFrom k data data1)
    (parseName : List Nat → DNAName) :
    ∀ (n pos : Nat), k ≤ pos →
      readNames parseName data n pos = readNames parseName data1 n pos := by
  intro n
  induction n with
  | zero => intro pos _; rfl
  | succ n ih =>
    intro pos hp
    rw [readNames, readNames]
    simp only [Option.bind_eq_bind]
    refine bind_agree (readString_agree h hp 0) (fun s hs => ?_)
    have := readString_pos hs
    rw [ih s.2 (by omega)]

theorem readTypes_pos {data : List Nat} :
    ∀ (n pos i : Nat) (r : List DNAType × Nat),
      readTypes data n pos i = some r → pos ≤ r.2 := by
  intro n
  induction n with
  | zero =>
    intro pos i r h
    simp only [readTypes, Option.some.injEq] at h
    subst h
    exact Nat.le_refl _
  | succ n ih =>
    intro pos i r h
    rw [readTypes] at h
    simp only [Option.bind_eq_bind, Option.bind_eq_some, Option.some.injEq] at h
    obtain ⟨s, hs, rest, hrest, rfl⟩ := h
    have h1 := readString_pos hs
    have h2 := ih _ _ _ hrest
    simp only
    omega

theorem readTypes_agree {k : Nat} {data data1 : List Nat} (h : AgreeFrom k data data1) :
    ∀ (n pos i : Nat), k ≤ pos → readTypes data n pos i = readTypes data1 n pos i := by
  intro n
  induction n with
  | zero => intro pos i _; rfl
  | succ n ih =>
    intro pos i hp
    rw [readTypes, readTypes]
    simp only [Option.bind_eq_bind]
    refine bind_agree (readString_agree h hp 0) (fun s hs => ?_)
    have := readString_pos hs
    rw [ih s.2 (i + 1) (by omega)]

theorem readTypeLengths_agree {k : Nat} {data data1 : List Nat} (h : AgreeFrom k data data1)
    (pointerSize : Nat) :
    ∀ (types : List DNAType) (pos : Nat), k ≤ pos →
      readTypeLengths pointerSize data types pos
        = readTypeLengths pointerSize data1 types pos := by
  intro types
  induction types with
  | nil => intro pos _; rfl
  | cons t ts ih =>
    intro pos hp
    rw [readTypeLengths, readTypeLengths]
    simp only [Option.bind_eq_bind]
    refine bind_agree (read_agree h hp 2) (fun sz hsz => ?_)
    have := read_pos hsz
    rw [ih sz.2 (by omega)]

theorem readFields_agree {k : Nat} {data data1 : List Nat} (h : AgreeFrom k data data1)
    (pointerSize : Nat) (types : List DNAType) (names : List DNAName) :
    ∀ (n pos cur : Nat), k ≤ pos →
      readFields pointerSize data types names n pos cur
        = readFields pointerSize data1 types names n pos cur := by
  intro n
  induction n with
  | zero => intro pos cur _; rfl
  | succ n ih =>
    intro pos cur hp
    rw [readFields, readFields]
    simp only [Option.bind_eq_bind]
    refine bind_agree (read_agree h hp 2) (fun ti hti => ?_)
    have h1 := read_pos hti
    refine bind_agree (read_agree h (by omega) 2) (fun ni hni => ?_)
    have h2 := read_pos hni
    refine bind_agree rfl (fun t _ => ?_)
    refine bind_agree rfl (fun nm _ => ?_)
    refine bind_agree rfl (fun c _ => ?_)
    rw [ih ni.2 c (by omega)]

theorem readStructure_agree {k : Nat} {data data1 : List Nat} (h : AgreeFrom k data data1)
    (pointerSize : Nat) (types : List DNAType) (names : List DNAName) {pos : Nat}
    (hp : k ≤ pos) :
    readStructure pointerSize data types names pos
      = readStructure pointerSize data1 types names pos := by
  unfold readStructure
  simp only [Option.bind_eq_bind]
  refine bind_agree (read_agree h hp 2) (fun ti hti => ?_)
  have h1 := read_pos hti
  refine bind_agree rfl (fun t _ => ?_)
  refine bind_agree (read_agree h (by omega) 2) (fun nf hnf => ?_)
  have h2 := read_pos hnf
  rw [readFields_agree h pointerSize types names nf.1 nf.2 0 (by omega)]

theorem readStructure_pos {pointerSize : Nat} {data : List Nat} {types : List DNAType}
    {names : List DNAName} {pos : Nat} {r : DNAStructure × Nat × Nat}
    (h : readStructure pointerSize data types names pos = some r) : pos ≤ r.2.1 := by
  obtain ⟨s, q1, c⟩ := r
  have := (readStructure_spec h).2.2.1
  simp only
  omega

theorem readStructures_pos {pointerSize : Nat} {data : List Nat} {types : List DNAType}
    {names : List DNAName} :
    ∀ (n pos : Nat) (r : List DNAStructure × Nat),
      readStructures pointerSize data types names n pos = some r → pos ≤ r.2 := by
  intro n
  induction n with
  | zero =>
    intro pos r h
    simp only [readStructures, Option.some.injEq] at h
    subst h
    exact Nat.le_refl _
  | succ n ih =>
    intro pos r h
    rw [readStructures] at h
    simp only [Option.bind_eq_bind, Option.bind_eq_some, Option.some.injEq] at h
    obtain ⟨s, hs, rest, hrest, rfl⟩ := h
    have h1 := readStructure_pos hs
    have h2 := ih _ _ hrest
    simp only
    omega

theorem readStructures_agree {k : Nat} {data data1 : List Nat} (h : AgreeFrom k data data1)
    (pointerSize : Nat) (types : List DNAType) (names : List DNAName) :
    ∀ (n pos : Nat), k ≤ pos →
      readStructures pointerSize data types names n pos
        = readStructures pointerSize data1 types names n pos := by
  intro n
  induction n with
  | zero => intro pos _; rfl
  | succ n ih =>
    intro pos hp
    rw [readStructures, readStructures]
    simp only [Option.bind_eq_bind]
    refine bind_agree (readStructure_agree h pointerSize types names hp) (fun s hs => ?_)
    have := readStructure_pos hs
    rw [ih s.2.1 (by omega)]

theorem readNameSection_agree {k : Nat} {data data1 : List Nat} (h : AgreeFrom k data data1)
    (parseName : List Nat → DNAName) {pos : Nat} (hp : k ≤ pos) :
    readNameSection parseName data pos = readNameSection parseName data1 pos := by
  unfold readNameSection
  simp only [Option.bind_eq_bind]
  refine bind_agree (readString_agree h hp 4) (fun a1 ha1 => ?_)
  have h1 := readString_pos ha1
  refine bind_agree (readString_agree h (by omega) 4) (fun a2 ha2 => ?_)
  have h2 := readString_pos ha2
  refine bind_agree (read_agree h (by omega) 4) (fun nn hnn => ?_)
  have h3 := read_pos hnn
  rw [readNames_agree h parseName nn.1 nn.2 (by omega)]

theorem readNameSection_pos {parseName : List Nat → DNAName} {data : List Nat} {pos : Nat}
    {r : List DNAName × Nat} (h : readNameSection parseName data pos = some r) :
    pos ≤ r.2 := by
  unfold readNameSection at h
  simp only [Option.bind_eq_bind, Option.bind_eq_some, Option.some.injEq] at h
  obtain ⟨a1, ha1, a2, ha2, nn, hnn, names, hnames, rfl⟩ := h
  have h1 := readString_pos ha1
  have h2 := readString_pos ha2
  have h3 := read_pos hnn
  have h4 := readNames_pos _ _ _ hnames
  have h5 := align_pos names.2
  simp only
  omega

theorem readTypeSection_agree {k : Nat} {data data1 : List Nat} (h : AgreeFrom k data data1)
    {pos : Nat} (hp : k ≤ pos) : readTypeSection data pos = readTypeSection data1 pos := by
  unfold readTypeSection
  simp only [Option.bind_eq_bind]
  refine bind_agree (readString_agree h hp 4) (fun t1 ht1 => ?_)
  have h1 := readString_pos ht1
  refine bind_agree (read_agree h (by omega) 4) (fun nt hnt => ?_)
  have h2 := read_pos hnt
  rw [readTypes_agree h nt.1 nt.2 0 (by omega)]

theorem readTypeSection_pos {data : List Nat} {pos : Nat} {r : List DNAType × Nat}
    (h : readTypeSection data pos = some r) : pos ≤ r.2 := by
  unfold readTypeSection at h
  simp only [Option.bind_eq_bind, Option.bind_eq_some, Option.some.injEq] at h
  obtain ⟨t1, ht1, nt, hnt, types, htypes, rfl⟩ := h
  have h1 := readString_pos ht1
  have h2 := read_pos hnt
  have h3 := readTypes_pos _ _ _ _ htypes
  have h4 := align_pos types.2
  simp only
  omega

theorem readLengthSection_agree {k : Nat} {data data1 : List Nat}
    (h : AgreeFrom k data data1) (pointerSize : Nat) (types : List DNAType) {pos : Nat}
    (hp : k ≤ pos) :
    readLengthSection pointerSize data types pos
      = readLengthSection pointerSize data1 types pos := by
  unfold readLengthSection
  simp only [Option.bind_eq_bind]
  refine bind_agree (readString_agree h hp 4) (fun l1 hl1 => ?_)
  have h1 := readString_pos hl1
  rw [readTypeLengths_agree h pointerSize types l1.2 (by omega)]

theorem readLengthSection_pos {pointerSize : Nat} {data : List Nat} {types : List DNAType}
    {pos : Nat} {r : List DNAType × Nat}
    (h : readLengthSection pointerSize data types pos = some r) : pos ≤ r.2 := by
  unfold readLengthSection at h
  simp only [Option.bind_eq_bind, Option.bind_eq_some, Option.some.injEq] at h
  obtain ⟨l1, hl1, ⟨sized, p⟩, hsized, rfl⟩ := h
  have h1 := readString_pos hl1
  have h2 := (readTypeLengths_spec _ _ _ _ hsized).2.1
  have h3 := align_pos p
  simp only at h2 ⊢
  omega

theorem readStructureSection_agree {k : Nat} {data data1 : List Nat}
    (h : AgreeFrom k data data1) (pointerSize : Nat) (types : List DNAType)
    (names : List DNAName) {pos : Nat} (hp : k ≤ pos) :
    readStructureSection pointerSize data types names pos
      = readStructureSection pointerSize data1 types names pos := by
  unfold readStructureSection
  simp only [Option.bind_eq_bind]
  refine bind_agree (readString_agree h hp 4) (fun s1 hs1 => ?_)
  have h1 := readString_pos hs1
  refine bind_agree (read_agree h (by omega) 4) (fun ns hns => ?_)
  have h2 := read_pos hns
  rw [readStructures_agree h pointerSize types names ns.1 ns.2 (by omega)]

theorem readCatalog_agree {k : Nat} {data data1 : List Nat} (h : AgreeFrom k data data1)
    (parseName : List Nat → DNAName) (pointerSize : Nat) {pos : Nat} (hp : k ≤ pos) :
    readCatalog parseName pointerSize data pos
      = readCatalog parseName pointerSize data1 pos := by
  unfold readCatalog
  simp only [Option.bind_eq_bind]
  refine bind_agree (readNameSection_agree h parseName hp) (fun names hnames => ?_)
  have h1 := readNameSection_pos hnames
  refine bind_agree (readTypeSection_agree h (by omega)) (fun types0 htypes0 => ?_)
  have h2 := readTypeSection_pos htypes0
  refine bind_agree (readLengthSection_agree h pointerSize types0.1 (by omega))
    (fun types htypes => ?_)
  have h3 := readLengthSection_pos htypes
  rw [readStructureSection_agree h pointerSize types.1 names.1 (by omega)]

/-! ## The header checks of `load` -/

/-- Every entry the loop pushes has its payload at or after that of the entry
the loop starts with. -/
theorem scanLoop_offsets {pointerSize : Nat} {data : List Nat} :
    ∀ (fuel : Nat) (back : Block) (blocks : List Block),
      scanLoop pointerSize data fuel back = some blocks →
      ∀ b ∈ blocks, back.offset ≤ b.offset := by
  intro fuel
  induction fuel with
  | zero => intro back blocks h; simp [scanLoop] at h
  | succ fuel ih =>
    intro back blocks h
    rw [scanLoop] at h
    split at h
    · simp only [Option.some.injEq] at h
      subst h
      intro b hb
      simp only [List.mem_singleton] at hb
      subst hb
      exact Nat.le_refl _
    · simp only [Option.bind_eq_bind, Option.bind_eq_some, Option.some.injEq] at h
      obtain ⟨next, hnext, rest, hrest, rfl⟩ := h
      have h1 := (readHeader_spec hnext).2.2.1
      intro b hb
      rcases List.mem_cons.1 hb with rfl | hb
      · exact Nat.le_refl _
      · have := ih _ _ hrest b hb
        omega

theorem scanBlocks_offsets {pointerSize : Nat} {data : List Nat} {pos : Nat}
    {blocks : List Block} (h : scanBlocks pointerSize data pos = some blocks) :
    ∀ b ∈ blocks, pos + 8 ≤ b.offset := by
  unfold scanBlocks at h
  simp only [Option.bind_eq_bind, Option.bind_eq_some] at h
  obtain ⟨first, hfirst, hloop⟩ := h
  have h1 := (readHeader_spec hfirst).2.2.1
  intro b hb
  have := scanLoop_offsets _ _ _ hloop b hb
  omega

/-- The part of `load` after the two markers depends on the stream only from
position 9 on. -/
theorem loadStream_tail_agree {data data1 : List Nat} (h : AgreeFrom 9 data data1)
    (parseName : List Nat → DNAName) (pointerSize : Nat) :
    ((readString data 9 3).bind fun version =>
      (scanBlocks pointerSize data version.2).bind fun blocks =>
        blocks.getLast?.bind fun back =>
          (readCatalog parseName pointerSize data back.offset).bind fun catalog =>
            some (true, ({ pointerSize := pointerSize, version := version.1,
                           blocks := linkBlocks catalog.1.structures blocks,
                           catalog := catalog.1 } : File))) =
    ((readString data1 9 3).bind fun version =>
      (scanBlocks pointerSize data1 version.2).bind fun blocks =>
        blocks.getLast?.bind fun back =>
          (readCatalog parseName pointerSize data1 back.offset).bind fun catalog =>
            some (true, ({ pointerSize := pointerSize, version := version.1,
                           blocks := linkBlocks catalog.1.structures blocks,
                           catalog := catalog.1 } : File))) := by
  refine bind_agree (readString_agree h (Nat.le_refl _) 3) (fun version hv => ?_)
  have h1 := readString_pos hv
  refine bind_agree (scanBlocks_agree h (by omega) pointerSize) (fun blocks hb => ?_)
  refine bind_agree rfl (fun back hback => ?_)
  have h2 := scanBlocks_offsets hb back (List.mem_of_mem_getLast? hback)
  rw [readCatalog_agree h parseName pointerSize (by omega : 9 ≤ back.offset)]

/-- The load of a stream unfolds into the two marker reads and the rest. -/
theorem loadStream_eq (parseName : List Nat → DNAName) (pointerSize0 : Nat)
    (data : List Nat) :
    loadStream parseName pointerSize0 data =
      if 9 ≤ data.length then
        ((readString data 9 3).bind fun version =>
          (scanBlocks (choosePointerSize pointerSize0 (trim ((data.drop 7).take 1))) data
              version.2).bind fun blocks =>
            blocks.getLast?.bind fun back =>
              (readCatalog parseName
                  (choosePointerSize pointerSize0 (trim ((data.drop 7).take 1))) data
                  back.offset).bind fun catalog =>
                some (true,
                  ({ pointerSize :=
                       choosePointerSize pointerSize0 (trim ((data.drop 7).take 1)),
                     version := version.1,
                     blocks := linkBlocks catalog.1.structures blocks,
                     catalog := catalog.1 } : File)))
      else none := by
  unfold loadStream
  simp only [Option.bind_eq_bind]
  by_cases h9 : 9 ≤ data.length
  · have e1 : readString data 7 1 = some (trim ((data.drop 7).take 1), 8) :=
      (readString_eq_some (by norm_num)).2 ⟨by omega, rfl⟩
    have e2 : readString data 8 1 = some (trim ((data.drop 8).take 1), 9) :=
      (readString_eq_some (by norm_num)).2 ⟨by omega, rfl⟩
    simp only [e1, e2, Option.some_bind, h9, if_true]
  · simp only [h9, if_false]
    cases e1 : readString data 7 1 with
    | none => rfl
    | some m1 =>
      obtain ⟨h8, rfl⟩ := (readString_eq_some (by norm_num)).1 e1
      have e2 : readString data (7 + 1) 1 = none := by
        cases e : readString data (7 + 1) 1 with
        | none => rfl
        | some m2 =>
          have := ((readString_eq_some (by norm_num)).1 e).1
          omega
      simp only [Option.some_bind, e2, Option.none_bind]

/-- The one-character string at position `n` is the byte there, if any. -/
theorem take_one_drop_eq (l : List Nat) (n : Nat) : (l.drop n).take 1 = (l[n]?).toList := by
  cases h : l[n]? with
  | some c => exact take_one_drop h
  | none =>
    rw [List.getElem?_eq_none_iff] at h
    simp [List.drop_eq_nil_of_le h]

/-- Once the magic check is over, `load` depends on the stream only from
position 7 on. -/
theorem loadStream_agree {data data1 : List Nat} (h : AgreeFrom 7 data data1)
    (parseName : List Nat → DNAName) (pointerSize0 : Nat) :
    loadStream parseName pointerSize0 data = loadStream parseName pointerSize0 data1 := by
  rw [loadStream_eq, loadStream_eq, h.1, h.2]
  split
  · exact loadStream_tail_agree (h.mono (by norm_num)) parseName _
  · rfl

/-- The byte at position 8, the byte-order marker, has no influence on the
load. -/
theorem loadStream_set_marker (parseName : List Nat → DNAName) (pointerSize0 : Nat)
    (data : List Nat) (b : Nat) :
    loadStream parseName pointerSize0 (data.set 8 b)
      = loadStream parseName pointerSize0 data := by
  have hagree : AgreeFrom 9 (data.set 8 b) data :=
    ⟨List.length_set _ _ _, List.drop_set_of_lt b data (by norm_num)⟩
  have hm : ((data.set 8 b).drop 7).take 1 = (data.drop 7).take 1 := by
    rw [take_one_drop_eq, take_one_drop_eq, List.getElem?_set_ne (by norm_num)]
  rw [loadStream_eq, loadStream_eq, hm, List.length_set]
  split
  · exact loadStream_tail_agree hagree parseName _
  · rfl

theorem trim_singleton (m : Nat) : trim [m] = if isSpace m then [] else [m] := by
  unfold trim
  by_cases h : isSpace m = true <;> simp [List.dropWhile, h]

/-- A marker other than `-` and `_` leaves the pointer size as it was. -/
theorem choosePointerSize_other (pointerSize0 m : Nat) (h1 : m ≠ 45) (h2 : m ≠ 95) :
    choosePointerSize pointerSize0 (trim [m]) = pointerSize0 := by
  rw [trim_singleton]
  unfold choosePointerSize
  split <;> simp [h1, h2]

/-- The example with the byte-order marker `x` loads like the example. -/
theorem load_demoFile_order :
    load id demoParseName 0 (demoFile.set 8 120) = some (true, demoLoaded) := by
  decide

/-- The example with the pointer-size marker `x` loads like the example when
the pointer size was 4 before. -/
theorem load_demoFile_pointer :
    load id demoParseName 4 (demoFile.set 7 120) = some (true, demoLoaded) := by
  decide

/-- A file that does not begin with the magic and whose decompressed content
is the example with the first byte changed to `X` loads like the example. -/
theorem load_demoFile_magic :
    load (fun _ => demoFile.set 0 88) demoParseName 0 [31, 139, 8, 0, 0, 0, 0, 0]
      = some (true, demoLoaded) := by
  decide

/-- Counterexample to C10.  `load` returns `true` on a stream whose byte-order
marker is `x`, on a stream whose pointer-width marker is `x`, and on a file
whose first 7 bytes are not the magic before and after the decompression. -/
theorem load_accepts_invalid_header :
    ((demoFile.set 8 120)[8]? = some 120 ∧
      load id demoParseName 0 (demoFile.set 8 120) = some (true, demoLoaded)) ∧
    ((demoFile.set 7 120)[7]? = some 120 ∧
      load id demoParseName 4 (demoFile.set 7 120) = some (true, demoLoaded)) ∧
    (readString [31, 139, 8, 0, 0, 0, 0, 0] 0 7 ≠ some (BLENDER, 7) ∧
      readString (demoFile.set 0 88) 0 7 ≠ some (BLENDER, 7) ∧
      load (fun _ => demoFile.set 0 88) demoParseName 0 [31, 139, 8, 0, 0, 0, 0, 0]
        = some (true, demoLoaded)) :=
  ⟨⟨by decide, load_demoFile_order⟩, ⟨by decide, load_demoFile_pointer⟩,
    ⟨by decide, by decide, load_demoFile_magic⟩⟩

/-- Claim C10, amended.  `load` does not validate the two marker bytes of the
header and has no failure outcome for them: whenever it returns, it returns
`true`.  The pointer-width marker `-` selects the pointer size 8 and `_`
selects 4; any other marker leaves the pointer size at its previous value.
The byte-order marker is read and ignored: changing it does not change the
load. -/
theorem load_without_marker_checks (inflate : List Nat → List Nat)
    (parseName : List Nat → DNAName) (pointerSize0 : Nat) (raw : List Nat) :
    (∀ ret file, load inflate parseName pointerSize0 raw = some (ret, file) → ret = true) ∧
    (∀ data ret file m, loadStream parseName pointerSize0 data = some (ret, file) →
      data[7]? = some m →
      (m = 45 → file.pointerSize = 8) ∧ (m = 95 → file.pointerSize = 4) ∧
      (m ≠ 45 → m ≠ 95 → file.pointerSize = pointerSize0)) ∧
    (∀ data b, loadStream parseName pointerSize0 (data.set 8 b)
      = loadStream parseName pointerSize0 data) := by
  refine ⟨fun ret file h => (load_eq_some h).1, ?_,
    fun data b => loadStream_set_marker parseName pointerSize0 data b⟩
  intro data ret file m h hm
  rw [loadStream_eq] at h
  split at h
  · simp only [Option.bind_eq_some, Option.some.injEq, Prod.mk.injEq] at h
    obtain ⟨version, -, blocks, -, back, -, catalog, -, linked, -, -, rfl⟩ := h
    simp only [take_one_drop hm]
    refine ⟨?_, ?_, choosePointerSize_other pointerSize0 m⟩
    · rintro rfl
      rfl
    · rintro rfl
      rfl
  · exact absurd h (by simp)

/-- Witness for the amended C10: the example with the byte-order marker `x`. -/
theorem load_without_marker_checks_witness :
    load id demoParseName 0 (demoFile.set 8 120) = some (true, demoLoaded) ∧
    true = true ∧
    loadStream demoParseName 0 (demoFile.set 8 120) = loadStream demoParseName 0 demoFile :=
  have h := load_without_marker_checks id demoParseName 0 (demoFile.set 8 120)
  ⟨load_demoFile_order, h.1 true demoLoaded load_demoFile_order, h.2.2 demoFile 120⟩

/-! ## The layout rules on dimensions that are sizes -/

theorem sizedProduct_nil : sizedProduct [] = 1 := rfl

theorem sizedProduct_cons_unsized (rest : List Int) :
    sizedProduct (-1 :: rest) = sizedProduct rest := by
  simp [sizedProduct]

theorem sizedProduct_cons_sized {s : Int} (rest : List Int) (h : s ≠ -1) :
    sizedProduct (s :: rest) = s * sizedProduct rest := by
  simp [sizedProduct, h]

theorem sizedProduct_pos : ∀ (dims : List Int), (∀ s ∈ dims, s = -1 ∨ 1 ≤ s) →
    1 ≤ sizedProduct dims := by
  intro dims
  induction dims with
  | nil => intro _; simp [sizedProduct_nil]
  | cons s rest ih =>
    intro h
    have hrest := ih (fun t ht => h t (List.mem_cons_of_mem _ ht))
    rcases h s (List.mem_cons_self _ _) with rfl | hs
    · rw [sizedProduct_cons_unsized]
      exact hrest
    · rw [sizedProduct_cons_sized rest (by omega)]
      nlinarith

/-- Once a dimension has been taken, the loop multiplies: with every dimension
-1 or at least 1 and the product in the exact range of `float`, `multi` ends
as the running value times the product of the dimensions that are not -1. -/
theorem arrayMulti_product : ∀ (dims : List Int) (multi : Int),
    (∀ s ∈ dims, s = -1 ∨ 1 ≤ s) → 1 ≤ multi → multi * sizedProduct dims ≤ 16777216 →
    arrayMulti dims (.finite multi) = .finite (multi * sizedProduct dims) := by
  intro dims
  induction dims with
  | nil => intro multi _ _ _; simp [arrayMulti, sizedProduct_nil]
  | cons s rest ih =>
    intro multi h hm hle
    have hall : ∀ t ∈ rest, t = -1 ∨ 1 ≤ t := fun t ht => h t (List.mem_cons_of_mem _ ht)
    have hp := sizedProduct_pos rest hall
    rcases h s (List.mem_cons_self _ _) with rfl | hs
    · rw [sizedProduct_cons_unsized] at hle ⊢
      rw [arrayMulti]
      simpa using ih multi hall hm hle
    · have hne : s ≠ -1 := by omega
      rw [sizedProduct_cons_sized rest hne] at hle ⊢
      have h1 : multi * s ≤ 16777216 := by nlinarith
      have h2 : s ≤ 16777216 := by nlinarith
      have h3 : 1 ≤ multi * s := by nlinarith
      have hm0 : (FloatValue.finite multi).isZero = false := by
        simp only [FloatValue.isZero, beq_eq_false_iff_ne, ne_eq]
        omega
      have e1 : roundFloat s = .finite s := roundFloat_exact (by omega)
      have e2 : roundFloat (multi * s) = .finite (multi * s) := roundFloat_exact (by omega)
      rw [arrayMulti]
      simp only [bne_iff_ne, ne_eq, hne, not_false_eq_true, if_true, hm0, Bool.false_eq_true,
        if_false, e1, FloatValue.mul, e2]
      rw [ih (multi * s) hall h3 (by rw [mul_assoc]; exact hle), mul_assoc]

/-- From `multi = 0`: the first dimension that is not -1 is taken, the others
are multiplied; with no such dimension `multi` stays 0. -/
theorem arrayMulti_zero : ∀ (dims : List Int),
    (∀ s ∈ dims, s = -1 ∨ 1 ≤ s) → sizedProduct dims ≤ 16777216 →
    arrayMulti dims (.finite 0)
      = .finite (if dims.all (fun s => s == -1) then 0 else sizedProduct dims) := by
  intro dims
  induction dims with
  | nil => intro _ _; simp [arrayMulti]
  | cons s rest ih =>
    intro h hle
    have hall : ∀ t ∈ rest, t = -1 ∨ 1 ≤ t := fun t ht => h t (List.mem_cons_of_mem _ ht)
    have hp := sizedProduct_pos rest hall
    rcases h s (List.mem_cons_self _ _) with rfl | hs
    · rw [sizedProduct_cons_unsized] at hle ⊢
      rw [arrayMulti]
      simpa using ih hall hle
    · have hne : s ≠ -1 := by omega
      rw [sizedProduct_cons_sized rest hne] at hle ⊢
      have h2 : s ≤ 16777216 := by nlinarith
      have e1 : roundFloat s = .finite s := roundFloat_exact (by omega)
      have e2 : roundFloat (0 + s) = .finite s := by
        rw [zero_add]
        exact e1
      have hz : (FloatValue.finite 0).isZero = true := rfl
      rw [arrayMulti]
      simp only [bne_iff_ne, ne_eq, hne, not_false_eq_true, if_true, hz, e1, FloatValue.add, e2]
      rw [arrayMulti_product rest s hall hs hle]
      simp [hne]

/-- The array rule where every dimension is -1 or at least 1 and the layout
stays in the exact range of `float`: the advance is the size of the field's
type times the product of the dimensions that are not -1, and the plain size
when every dimension is -1. -/
theorem nextOffset_array_sized (pointerSize : Nat) (field : DNAField) (curOffset : Nat)
    (hp : field.name.isPointer = false) (ha : field.name.isArray = true)
    (hdims : ∀ s ∈ field.name.arraySizes, s = -1 ∨ 1 ≤ s)
    (hsize : 1 ≤ field.type.size)
    (hrange : (curOffset : Int) + field.type.size * sizedProduct field.name.arraySizes
      ≤ 16777216) :
    nextOffset pointerSize field curOffset =
      some (if field.name.arraySizes.all (fun s => s == -1) then curOffset + field.type.size
        else curOffset + field.type.size * (sizedProduct field.name.arraySizes).toNat) := by
  have hpos := sizedProduct_pos _ hdims
  have hP : sizedProduct field.name.arraySizes ≤ 16777216 := by nlinarith
  have hS : (field.type.size : Int) ≤ 16777216 := by nlinarith
  have hSP : (field.type.size : Int) * sizedProduct field.name.arraySizes ≤ 16777216 := by
    omega
  have hSP0 : 0 ≤ (field.type.size : Int) * sizedProduct field.name.arraySizes := by
    nlinarith
  have hcs : (curOffset : Int) + field.type.size ≤ 16777216 := by nlinarith
  have e1 : roundFloat (field.type.size : Int) = .finite (field.type.size : Int) :=
    roundFloat_exact (by omega)
  have e3 : roundFloat (curOffset : Int) = .finite (curOffset : Int) :=
    roundFloat_exact (by omega)
  unfold nextOffset
  simp only [hp, Bool.false_eq_true, if_false, ha, if_true, arrayMulti_zero _ hdims hP,
    Option.bind_eq_bind, e1, e3]
  by_cases hall : field.name.arraySizes.all (fun s => s == -1) = true
  · simp only [hall, if_true, FloatValue.mul, mul_zero, FloatValue.add, add_zero]
    have e2 : roundFloat (0 : Int) = .finite 0 := roundFloat_exact (by norm_num)
    have hu : (FloatValue.finite (curOffset : Int)).toUnsigned = some curOffset := by
      simp only [FloatValue.toUnsigned]
      rw [if_pos ⟨by omega, by omega⟩, Int.toNat_ofNat]
    have hz : (FloatValue.finite 0).isZero = true := rfl
    simp only [e2, FloatValue.add, add_zero, e3, hu, Option.some_bind, hz, if_true,
      Option.some.injEq]
    omega
  · simp only [hall, Bool.false_eq_true, if_false, FloatValue.mul]
    have e2 : roundFloat ((field.type.size : Int) * sizedProduct field.name.arraySizes)
        = .finite ((field.type.size : Int) * sizedProduct field.name.arraySizes) :=
      roundFloat_exact (by omega)
    have e4 : roundFloat ((curOffset : Int)
        + (field.type.size : Int) * sizedProduct field.name.arraySizes)
        = .finite ((curOffset : Int)
          + (field.type.size : Int) * sizedProduct field.name.arraySizes) :=
      roundFloat_exact (by omega)
    have hne : (FloatValue.finite (sizedProduct field.name.arraySizes)).isZero = false := by
      simp only [FloatValue.isZero, beq_eq_false_iff_ne, ne_eq]
      omega
    have hu : (FloatValue.finite ((curOffset : Int)
        + (field.type.size : Int) * sizedProduct field.name.arraySizes)).toUnsigned
        = some ((curOffset : Int)
          + (field.type.size : Int) * sizedProduct field.name.arraySizes).toNat := by
      simp only [FloatValue.toUnsigned]
      rw [if_pos ⟨by omega, by omega⟩]
    simp only [e2, FloatValue.add, e4, hu, Option.some_bind, hne, Bool.false_eq_true, if_false,
      Option.some.injEq]
    have hcast : ((sizedProduct field.name.arraySizes).toNat : Int)
        = sizedProduct field.name.arraySizes := Int.toNat_of_nonneg (by omega)
    have : ((curOffset + field.type.size * (sizedProduct field.name.arraySizes).toNat : Nat)
        : Int) = (curOffset : Int)
          + (field.type.size : Int) * sizedProduct field.name.arraySizes := by
      push_cast
      rw [hcast]
    rw [← this]
    exact Int.toNat_ofNat _

/-- The pointer rule where the first dimension is a size: the advance is the
pointer size times the first dimension of an array, and one pointer size for a
field that is not an array or whose first dimension is 0. -/
theorem nextOffset_pointer_sized (pointerSize : Nat) (field : DNAField) (curOffset : Nat)
    (hp : field.name.isPointer = true) :
    (field.name.isArray = false →
      nextOffset pointerSize field curOffset
        = some ((curOffset + pointerSize) % 4294967296)) ∧
    (∀ (d : Nat) (rest : List Int), field.name.isArray = true →
      field.name.arraySizes = (d : Int) :: rest →
      nextOffset pointerSize field curOffset
        = some ((curOffset + pointerSize * (if d = 0 then 1 else d)) % 4294967296)) := by
  constructor
  · intro ha
    simp only [nextOffset, hp, if_true, ha, Bool.false_eq_true, if_false, Option.bind_eq_bind,
      Option.some_bind, beq_self_eq_true, mul_one, Option.some.injEq]
    omega
  · intro d rest ha hd
    by_cases h0 : d = 0
    · subst h0
      simp only [nextOffset, hp, if_true, ha, hd, List.head?_cons, Option.bind_eq_bind,
        Option.some_bind, Nat.cast_zero, beq_self_eq_true, mul_one, Option.some.injEq]
      omega
    · have hb : (((d : Nat) : Int) == 0) = false := by
        simp only [beq_eq_false_iff_ne, ne_eq]
        omega
      simp only [nextOffset, hp, if_true, ha, hd, List.head?_cons, Option.bind_eq_bind,
        Option.some_bind, hb, Bool.false_eq_true, if_false, h0, Option.some.injEq]
      have : ((curOffset : Int) + (pointerSize : Int) * (d : Int))
          = ((curOffset + pointerSize * d : Nat) : Int) := by push_cast; ring
      rw [this]
      omega

/-! ## `align` -/

/-- On a non-negative position `align` is written with the ordinary remainder. -/
theorem align_of_nonneg {p : Int} (hp : 0 ≤ p) :
    align p = if p % 4 = 0 then p else p + 4 - p % 4 := by
  unfold align
  have h := Int.tmod_eq_emod hp (by norm_num : (0 : Int) ≤ 4)
  simp only [h, bne_iff_ne, ne_eq, ite_not]

/-- Claim C20.  For every stream position `p ≥ 0`, `align` moves the position to
the smallest multiple of 4 that is at least `p`: the new position `r` is a
multiple of 4 with `p ≤ r < p + 4`, no multiple of 4 from `p` on is smaller,
the position is unchanged when `p` is a multiple of 4, and aligning twice is
aligning once.  The sum `pos + 4` that the code forms stays a `streamoff`
whenever `p + 4` does. -/
theorem align_next_multiple_of_four (p : Int) (hp : 0 ≤ p) :
    align p % 4 = 0 ∧ p ≤ align p ∧ align p < p + 4 ∧
    (∀ r : Int, r % 4 = 0 → p ≤ r → align p ≤ r) ∧
    (p % 4 = 0 → align p = p) ∧
    align (align p) = align p ∧
    (p + 4 ≤ 9223372036854775807 → align p ≤ 9223372036854775807) := by
  have h := align_of_nonneg hp
  have h0 : 0 ≤ align p := by rw [h]; split <;> omega
  have h2 := align_of_nonneg h0
  have hm : align p % 4 = 0 := by rw [h]; split <;> omega
  refine ⟨hm, ?_, ?_, ?_, ?_, ?_, ?_⟩
  · rw [h]; split <;> omega
  · rw [h]; split <;> omega
  · intro r hr hpr
    rw [h]; split <;> omega
  · intro hp4
    rw [h]; simp [hp4]
  · rw [h2]; simp [hm]
  · intro _
    rw [h]; split <;> omega

/-- Witness for C20: position 5 is moved to 8. -/
theorem align_next_multiple_of_four_witness :
    (0 : Int) ≤ 5 ∧ align 5 = 8 ∧
    (align 5 % 4 = 0 ∧ (5 : Int) ≤ align 5 ∧ align 5 < 5 + 4 ∧
    (∀ r : Int, r % 4 = 0 → 5 ≤ r → align 5 ≤ r) ∧
    ((5 : Int) % 4 = 0 → align 5 = 5) ∧
    align (align 5) = align 5 ∧
    ((5 : Int) + 4 ≤ 9223372036854775807 → align 5 ≤ 9223372036854775807)) :=
  ⟨by decide, by decide, align_next_multiple_of_four 5 (by decide)⟩

/-! ## Queries on the directory -/

/-- Claim C18.  `getBlockByAddress(a)` returns the first block of the directory
whose address is `a`, and `NULL` exactly when no block of the directory has the
address `a`; `doesAddressExist(a)` is true exactly when `getBlockByAddress(a)` is
not `NULL`. -/
theorem getBlockByAddress_first (blocks : List Block) (address : Nat) :
    (∀ b, getBlockByAddress blocks address = some b ↔
      ∃ i, ∃ (hi : i < blocks.length), blocks[i] = b ∧ b.address = address ∧
        ∀ j (hj : j < blocks.length), j < i → (blocks[j]).address ≠ address) ∧
    (getBlockByAddress blocks address = none ↔ ∀ b ∈ blocks, b.address ≠ address) ∧
    (doesAddressExist blocks address = true ↔ getBlockByAddress blocks address ≠ none) := by
  induction blocks with
  | nil =>
    refine ⟨fun b => ?_, ?_, ?_⟩
    · simp [getBlockByAddress]
    · simp [getBlockByAddress]
    · simp [getBlockByAddress, doesAddressExist]
  | cons c rest ih =>
    obtain ⟨ih1, ih2, ih3⟩ := ih
    by_cases hc : c.address = address
    · have hb : (c.address == address) = true := by simpa using hc
      refine ⟨fun b => ?_, ?_, ?_⟩
      · simp only [getBlockByAddress, hb, if_true, Option.some.injEq]
        constructor
        · rintro rfl
          exact ⟨0, by simp, rfl, hc, fun j _ hj => absurd hj (by omega)⟩
        · rintro ⟨i, hi, hbi, -, hfirst⟩
          cases i with
          | zero => simpa using hbi
          | succ i => exact absurd hc (by simpa using hfirst 0 (by simp) (by omega))
      · simp only [getBlockByAddress, hb, if_true]
        constructor
        · intro h
          exact absurd h (by simp)
        · intro h
          exact absurd hc (h c (List.mem_cons_self _ _))
      · simp [getBlockByAddress, doesAddressExist, hb]
    · have hb : (c.address == address) = false := by simpa using hc
      refine ⟨fun b => ?_, ?_, ?_⟩
      · simp only [getBlockByAddress, hb, Bool.false_eq_true, if_false]
        rw [ih1 b]
        constructor
        · rintro ⟨i, hi, hbi, hba, hfirst⟩
          refine ⟨i + 1, by simpa using hi, by simpa using hbi, hba, ?_⟩
          intro j hj hji
          cases j with
          | zero => simpa using hc
          | succ j => simpa using hfirst j (by simpa using hj) (by omega)
        · rintro ⟨i, hi, hbi, hba, hfirst⟩
          cases i with
          | zero =>
            simp only [List.getElem_cons_zero] at hbi
            subst hbi
            exact absurd hba hc
          | succ i =>
            refine ⟨i, by simpa using hi, by simpa using hbi, hba, ?_⟩
            intro j hj hji
            simpa using hfirst (j + 1) (by simpa using hj) (by omega)
      · simp only [getBlockByAddress, hb, Bool.false_eq_true, if_false]
        rw [ih2]
        constructor
        · intro h b hbm
          rcases List.mem_cons.1 hbm with rfl | hbm
          · exact hc
          · exact h b hbm
        · intro h b hbm
          exact h b (List.mem_cons_of_mem _ hbm)
      · simp only [getBlockByAddress, doesAddressExist, hb, Bool.false_eq_true, if_false]
        exact ih3

/-- On a block whose structure is set, the test of the type queries is the
spec's property. -/
theorem hasTypeName_linked {typeName : List Nat} {block : Block}
    (h : block.«structure».isSome = true) :
    hasTypeName typeName block = some (boundTypeNameIs typeName block) := by
  unfold hasTypeName boundTypeNameIs
  cases hs : block.«structure» with
  | none => simp [hs] at h
  | some s => rfl

/-- The counting loop adds the number of matching blocks to the counter, in
32-bit unsigned arithmetic. -/
theorem getNumberOfTypesLoop_linked (typeName : List Nat) :
    ∀ (blocks : List Block) (count : Nat), (∀ b ∈ blocks, b.«structure».isSome = true) →
      getNumberOfTypesLoop typeName blocks count
        = some (if blocks.filter (boundTypeNameIs typeName) = [] then count
            else (count + (blocks.filter (boundTypeNameIs typeName)).length) % 4294967296) := by
  intro blocks
  induction blocks with
  | nil => intro count _; simp [getNumberOfTypesLoop]
  | cons c rest ih =>
    intro count h
    have hc := @hasTypeName_linked typeName c (h c (List.mem_cons_self _ _))
    have hrest : ∀ b ∈ rest, b.«structure».isSome = true :=
      fun b hb => h b (List.mem_cons_of_mem _ hb)
    rw [getNumberOfTypesLoop]
    simp only [hc, Option.bind_eq_bind, Option.some_bind]
    rw [ih _ hrest]
    by_cases hm : boundTypeNameIs typeName c = true
    · simp only [hm, if_true, List.filter_cons_of_pos, List.length_cons, Option.some.injEq]
      split
      · rename_i hnil
        simp [hnil]
      · simp
        omega
    · simp only [hm, Bool.false_eq_true, if_false, List.filter_cons_of_neg, not_false_eq_true]

/-- Over a linked directory the vector built by `getBlocksByType` is the
directory filtered by the spec's property. -/
theorem getBlocksByType_linked (typeName : List Nat) :
    ∀ (blocks : List Block), (∀ b ∈ blocks, b.«structure».isSome = true) →
      getBlocksByType typeName blocks = some (blocks.filter (boundTypeNameIs typeName)) := by
  intro blocks
  induction blocks with
  | nil => intro _; simp [getBlocksByType]
  | cons c rest ih =>
    intro hlinked
    have hc := @hasTypeName_linked typeName c (hlinked c (List.mem_cons_self _ _))
    have hrest : ∀ b ∈ rest, b.«structure».isSome = true :=
      fun b hb => hlinked b (List.mem_cons_of_mem _ hb)
    rw [getBlocksByType]
    simp only [hc, Option.bind_eq_bind, Option.some_bind, ih hrest, Option.some.injEq]
    by_cases hm : boundTypeNameIs typeName c = true
    · simp [hm]
    · simp [hm]

/-- Over a linked directory of fewer than 2 ^ 32 blocks the count is the number
of blocks with the spec's property. -/
theorem getNumberOfTypes_linked (blocks : List Block) (typeName : List Nat)
    (hlinked : ∀ b ∈ blocks, b.«structure».isSome = true)
    (hlen : blocks.length < 4294967296) :
    getNumberOfTypes blocks typeName
      = some (blocks.filter (boundTypeNameIs typeName)).length := by
  unfold getNumberOfTypes
  rw [getNumberOfTypesLoop_linked typeName blocks 0 hlinked]
  have hle := List.length_filter_le (boundTypeNameIs typeName) blocks
  split
  · rename_i hnil
    simp [hnil]
  · simp only [zero_add, Option.some.injEq]
    omega

/-- Claim C17.  Over a linked directory, `getBlocksByType(T)` is exactly the
subsequence of the directory made of the blocks whose bound structure has the
type name `T`, in directory order, and `getNumberOfTypes(T)` is the length of
that subsequence (the directory having fewer than 2 ^ 32 blocks, the range of
the `unsigned int` counter). -/
theorem getBlocksByType_subsequence (blocks : List Block) (typeName : List Nat)
    (hlinked : ∀ b ∈ blocks, b.«structure».isSome = true)
    (hlen : blocks.length < 4294967296) :
    getBlocksByType typeName blocks = some (blocks.filter (boundTypeNameIs typeName)) ∧
    (blocks.filter (boundTypeNameIs typeName)).Sublist blocks ∧
    (∀ b, b ∈ blocks.filter (boundTypeNameIs typeName) ↔
      b ∈ blocks ∧ boundTypeNameIs typeName b = true) ∧
    getNumberOfTypes blocks typeName
      = some (blocks.filter (boundTypeNameIs typeName)).length :=
  ⟨getBlocksByType_linked typeName blocks hlinked, List.filter_sublist _,
    fun _ => List.mem_filter, getNumberOfTypes_linked blocks typeName hlinked hlen⟩

/-- Claim C16.  Over a linked directory, `getBlocksByType(T, k)` returns `NULL`
whenever `k` is at least `getNumberOfTypes(T)`, and otherwise the `k`-th block,
counted from 0 in directory order, among the blocks whose bound structure has
the type name `T`; it never reads outside the vector. -/
theorem getBlocksByTypeAt_kth (blocks : List Block) (typeName : List Nat) (k : Nat)
    (hlinked : ∀ b ∈ blocks, b.«structure».isSome = true)
    (hlen : blocks.length < 4294967296) :
    getBlocksByTypeAt blocks typeName k
      = some ((blocks.filter (boundTypeNameIs typeName))[k]?) ∧
    ∃ n, getNumberOfTypes blocks typeName = some n ∧
      (n ≤ k → getBlocksByTypeAt blocks typeName k = some none) ∧
      (k < n → ∃ b, (blocks.filter (boundTypeNameIs typeName))[k]? = some b ∧
        getBlocksByTypeAt blocks typeName k = some (some b)) := by
  have hret := getBlocksByType_linked typeName blocks hlinked
  have hnum := getNumberOfTypes_linked blocks typeName hlinked hlen
  have hmain : getBlocksByTypeAt blocks typeName k
      = some ((blocks.filter (boundTypeNameIs typeName))[k]?) := by
    unfold getBlocksByTypeAt
    simp only [hnum, hret, Option.bind_eq_bind, Option.some_bind]
    by_cases hk : (blocks.filter (boundTypeNameIs typeName)).length ≤ k
    · simp [hk, List.getElem?_eq_none hk]
    · have hk1 : k < (blocks.filter (boundTypeNameIs typeName)).length := by omega
      simp [hk, List.getElem?_eq_getElem hk1]
  refine ⟨hmain, _, hnum, ?_, ?_⟩
  · intro hk
    rw [hmain, List.getElem?_eq_none hk]
  · intro hk
    exact ⟨_, List.getElem?_eq_getElem hk, by rw [hmain, List.getElem?_eq_getElem hk]⟩

/-- Witness for C18: in the example the address 4096 is that of the block
"OB", the first block. -/
theorem getBlockByAddress_first_witness :
    getBlockByAddress demoLoaded.blocks 4096 = some demoBlockOB ∧
    (∃ i, ∃ (hi : i < demoLoaded.blocks.length), demoLoaded.blocks[i] = demoBlockOB ∧
      demoBlockOB.address = 4096 ∧
      ∀ j (hj : j < demoLoaded.blocks.length), j < i →
        (demoLoaded.blocks[j]).address ≠ 4096) ∧
    (doesAddressExist demoLoaded.blocks 4096 = true ↔
      getBlockByAddress demoLoaded.blocks 4096 ≠ none) :=
  have h := getBlockByAddress_first demoLoaded.blocks 4096
  ⟨by decide, (h.1 demoBlockOB).1 (by decide), h.2.2⟩

/-- Witness for C17: the blocks of type `Pair` in the example. -/
theorem getBlocksByType_subsequence_witness :
    (∀ b ∈ demoLoaded.blocks, b.«structure».isSome = true) ∧
    demoLoaded.blocks.length < 4294967296 ∧
    demoLoaded.blocks.filter (boundTypeNameIs [80, 97, 105, 114]) = [demoBlockOB] ∧
    getBlocksByType [80, 97, 105, 114] demoLoaded.blocks
      = some (demoLoaded.blocks.filter (boundTypeNameIs [80, 97, 105, 114])) ∧
    getNumberOfTypes demoLoaded.blocks [80, 97, 105, 114]
      = some (demoLoaded.blocks.filter (boundTypeNameIs [80, 97, 105, 114])).length :=
  have h := getBlocksByType_subsequence demoLoaded.blocks [80, 97, 105, 114]
    (by decide) (by decide)
  ⟨by decide, by decide, by decide, h.1, h.2.2.2⟩

/-- Witness for C16: the first block of type `Pair` in the example, and no
second one. -/
theorem getBlocksByTypeAt_kth_witness :
    (∀ b ∈ demoLoaded.blocks, b.«structure».isSome = true) ∧
    demoLoaded.blocks.length < 4294967296 ∧
    getBlocksByTypeAt demoLoaded.blocks [80, 97, 105, 114] 0
      = some ((demoLoaded.blocks.filter (boundTypeNameIs [80, 97, 105, 114]))[0]?) ∧
    getBlocksByTypeAt demoLoaded.blocks [80, 97, 105, 114] 0 = some (some demoBlockOB) ∧
    getBlocksByTypeAt demoLoaded.blocks [80, 97, 105, 114] 1 = some none :=
  ⟨by decide, by decide,
    (getBlocksByTypeAt_kth demoLoaded.blocks [80, 97, 105, 114] 0 (by decide) (by decide)).1,
    by decide, by decide⟩

/-! ## The cache of decoded blocks -/

/-- A cache hit: the stored pointer is returned and nothing changes. -/
theorem parseFileBlock_hit (decode : List Block → Block → Nat) {st : ParseState}
    {block : Block} {r : Nat} (h : st.parsedBlocks.lookup block.address = some r) :
    parseFileBlock decode st (some block) = (r, st) := by
  simp [parseFileBlock, h]

/-- A cache miss: the decoder is called once, its pointer is stored under the
block's address and returned. -/
theorem parseFileBlock_miss (decode : List Block → Block → Nat) {st : ParseState}
    {block : Block} (h : st.parsedBlocks.lookup block.address = none) :
    parseFileBlock decode st (some block)
      = (decode st.decoded block,
          { parsedBlocks := (block.address, decode st.decoded block) :: st.parsedBlocks,
            decoded := st.decoded ++ [block] }) := by
  simp [parseFileBlock, h, List.lookup]

/-- A call never changes or removes an entry of the cache. -/
theorem parseFileBlock_keeps (decode : List Block → Block → Nat) (st : ParseState)
    (block : Option Block) {a r : Nat} (h : st.parsedBlocks.lookup a = some r) :
    (parseFileBlock decode st block).2.parsedBlocks.lookup a = some r := by
  cases block with
  | none => exact h
  | some b =>
    cases hb : st.parsedBlocks.lookup b.address with
    | some v =>
      rw [parseFileBlock_hit decode hb]
      exact h
    | none =>
      rw [parseFileBlock_miss decode hb]
      have hne : (a == b.address) = false := by
        simp only [beq_eq_false_iff_ne, ne_eq]
        rintro rfl
        rw [hb] at h
        exact absurd h (by simp)
      simp [List.lookup, hne, h]

/-- After a call on a block, the returned pointer is the entry of the block's
address. -/
theorem parseFileBlock_stored (decode : List Block → Block → Nat) (st : ParseState)
    (block : Block) :
    (parseFileBlock decode st (some block)).2.parsedBlocks.lookup block.address
      = some (parseFileBlock decode st (some block)).1 := by
  cases hb : st.parsedBlocks.lookup block.address with
  | some v =>
    rw [parseFileBlock_hit decode hb]
    exact hb
  | none =>
    rw [parseFileBlock_miss decode hb]
    simp [List.lookup]

/-- A sequence of calls never changes or removes an entry of the cache. -/
theorem parseFileBlocks_keeps (decode : List Block → Block → Nat) :
    ∀ (calls : List (Option Block)) (st : ParseState) (a r : Nat),
      st.parsedBlocks.lookup a = some r →
      (parseFileBlocks decode st calls).2.parsedBlocks.lookup a = some r := by
  intro calls
  induction calls with
  | nil => intro st a r h; exact h
  | cons c rest ih =>
    intro st a r h
    exact ih _ a r (parseFileBlock_keeps decode st c h)

/-- Every call of a sequence returns the entry that the final cache holds for
the block's address. -/
theorem parseFileBlocks_results (decode : List Block → Block → Nat) :
    ∀ (calls : List (Option Block)) (st : ParseState) (i : Nat) (b : Block) (r : Nat),
      calls[i]? = some (some b) → (parseFileBlocks decode st calls).1[i]? = some r →
      (parseFileBlocks decode st calls).2.parsedBlocks.lookup b.address = some r := by
  intro calls
  induction calls with
  | nil => intro st i b r h; simp at h
  | cons c rest ih =>
    intro st i b r hc hr
    cases i with
    | zero =>
      simp only [List.getElem?_cons_zero, Option.some.injEq] at hc
      subst hc
      simp only [parseFileBlocks, List.getElem?_cons_zero, Option.some.injEq] at hr
      subst hr
      exact parseFileBlocks_keeps decode rest _ _ _ (parseFileBlock_stored decode st b)
    | succ i =>
      simp only [List.getElem?_cons_succ] at hc
      simp only [parseFileBlocks, List.getElem?_cons_succ] at hr
      exact ih _ i b r hc hr

/-- The blocks handed to the decoder have pairwise distinct addresses, each
with an entry in the cache; a call keeps this so. -/
theorem parseFileBlock_decoded (decode : List Block → Block → Nat) (st : ParseState)
    (block : Option Block)
    (h : (st.decoded.map Block.address).Nodup ∧
      ∀ b ∈ st.decoded, (st.parsedBlocks.lookup b.address).isSome = true) :
    ((parseFileBlock decode st block).2.decoded.map Block.address).Nodup ∧
      ∀ b ∈ (parseFileBlock decode st block).2.decoded,
        ((parseFileBlock decode st block).2.parsedBlocks.lookup b.address).isSome = true := by
  cases block with
  | none => exact h
  | some c =>
    cases hc : st.parsedBlocks.lookup c.address with
    | some v =>
      rw [parseFileBlock_hit decode hc]
      exact h
    | none =>
      rw [parseFileBlock_miss decode hc]
      obtain ⟨hnd, hall⟩ := h
      constructor
      · simp only [List.map_append, List.map_cons, List.map_nil]
        rw [List.nodup_append]
        refine ⟨hnd, by simp, ?_⟩
        intro a ha1 ha2
        simp only [List.mem_singleton] at ha2
        subst ha2
        obtain ⟨b, hb, hba⟩ := List.mem_map.1 ha1
        have := hall b hb
        rw [hba, hc] at this
        exact absurd this (by simp)
      · intro b hb
        rcases List.mem_append.1 hb with hb | hb
        · have := hall b hb
          by_cases hbc : b.address = c.address
          · simp [List.lookup, hbc]
          · have hne : (b.address == c.address) = false := by simpa using hbc
            simpa [List.lookup, hne] using this
        · simp only [List.mem_singleton] at hb
          subst hb
          simp [List.lookup]

theorem parseFileBlocks_decoded (decode : List Block → Block → Nat) :
    ∀ (calls : List (Option Block)) (st : ParseState),
      ((st.decoded.map Block.address).Nodup ∧
        ∀ b ∈ st.decoded, (st.parsedBlocks.lookup b.address).isSome = true) →
      ((parseFileBlocks decode st calls).2.decoded.map Block.address).Nodup := by
  intro calls
  induction calls with
  | nil => intro st h; exact h.1
  | cons c rest ih =>
    intro st h
    exact ih _ (parseFileBlock_decoded decode st c h)

theorem parseFileBlocks_length (decode : List Block → Block → Nat) :
    ∀ (calls : List (Option Block)) (st : ParseState),
      (parseFileBlocks decode st calls).1.length = calls.length := by
  intro calls
  induction calls with
  | nil => intro st; rfl
  | cons c rest ih =>
    intro st
    simp [parseFileBlocks, ih]

/-- Claim C14.  For every sequence of `parseFileBlock` calls on a `File` whose
cache starts empty: the decoder `Parser::parseFileBlock` is invoked at most
once per original address; every call on a block returns the pointer that the
final cache holds for the block's address, so any two calls on blocks with the
same address return the same pointer, the one stored at the first of them; and
a call that finds the address in the cache returns the stored pointer and
changes nothing. -/
theorem parseFileBlocks_at_most_once (decode : List Block → Block → Nat)
    (calls : List (Option Block)) :
    ((parseFileBlocks decode { parsedBlocks := [], decoded := [] } calls).2.decoded.map
      Block.address).Nodup ∧
    (parseFileBlocks decode { parsedBlocks := [], decoded := [] } calls).1.length
      = calls.length ∧
    (∀ (i : Nat) (b : Block) (r : Nat), calls[i]? = some (some b) →
      (parseFileBlocks decode { parsedBlocks := [], decoded := [] } calls).1[i]? = some r →
      (parseFileBlocks decode { parsedBlocks := [], decoded := [] }
        calls).2.parsedBlocks.lookup b.address = some r) ∧
    (∀ (i j : Nat) (b c : Block) (r s : Nat), calls[i]? = some (some b) →
      calls[j]? = some (some c) →
      b.address = c.address →
      (parseFileBlocks decode { parsedBlocks := [], decoded := [] } calls).1[i]? = some r →
      (parseFileBlocks decode { parsedBlocks := [], decoded := [] } calls).1[j]? = some s →
      r = s) ∧
    (∀ (st : ParseState) (b : Block) (r : Nat), st.parsedBlocks.lookup b.address = some r →
      parseFileBlock decode st (some b) = (r, st)) := by
  refine ⟨parseFileBlocks_decoded decode calls _ ⟨by simp, by simp⟩,
    parseFileBlocks_length decode calls _,
    fun i b r hb hr => parseFileBlocks_results decode calls _ i b r hb hr, ?_,
    fun st b r h => parseFileBlock_hit decode h⟩
  intro i j b c r s hb hc hbc hr hs
  have h1 := parseFileBlocks_results decode calls _ i b r hb hr
  have h2 := parseFileBlocks_results decode calls _ j c s hc hs
  rw [hbc, h2] at h1
  exact (Option.some.inj h1).symm

/-- Witness for C14: the block "OB" is asked for twice, with the catalog block
in between; the decoder runs twice, and the first and the third call return
the same pointer. -/
theorem parseFileBlocks_at_most_once_witness :
    parseFileBlocks demoDecode { parsedBlocks := [], decoded := [] }
        [some demoBlockOB, some demoBlockDNA, some demoBlockOB]
      = ([1000, 2000, 1000],
          { parsedBlocks := [(8192, 2000), (4096, 1000)],
            decoded := [demoBlockOB, demoBlockDNA] }) ∧
    ((parseFileBlocks demoDecode { parsedBlocks := [], decoded := [] }
        [some demoBlockOB, some demoBlockDNA, some demoBlockOB]).2.decoded.map
      Block.address).Nodup ∧
    (1000 : Nat) = 1000 :=
  have h := parseFileBlocks_at_most_once demoDecode
    [some demoBlockOB, some demoBlockDNA, some demoBlockOB]
  ⟨by decide, h.1,
    h.2.2.2.1 0 2 demoBlockOB demoBlockOB 1000 1000 (by decide) (by decide) rfl
      (by decide) (by decide)⟩

/-- Claim C15.  `parseFileBlock(NULL)` returns `NULL` without invoking the decoder
and without changing the cache; `parseFileBlock(address)` is
`parseFileBlock(getBlockByAddress(address))`, so an address that no block of
the directory has yields `NULL` and leaves the cache as it was. -/
theorem parseFileBlock_null (decode : List Block → Block → Nat) (blocks : List Block)
    (st : ParseState) :
    parseFileBlock decode st none = (0, st) ∧
    (∀ address, parseFileBlockAt decode blocks st address
      = parseFileBlock decode st (getBlockByAddress blocks address)) ∧
    (∀ address, (∀ b ∈ blocks, b.address ≠ address) →
      parseFileBlockAt decode blocks st address = (0, st)) := by
  refine ⟨rfl, fun _ => rfl, ?_⟩
  intro address h
  have hnone : getBlockByAddress blocks address = none := by
    induction blocks with
    | nil => rfl
    | cons c rest ih =>
      have hc : (c.address == address) = false := by
        simpa using h c (List.mem_cons_self _ _)
      simp only [getBlockByAddress, hc, Bool.false_eq_true, if_false]
      exact ih (fun b hb => h b (List.mem_cons_of_mem _ hb))
  unfold parseFileBlockAt
  rw [hnone]
  rfl

/-- Witness for C15: no block of the example has the address 5. -/
theorem parseFileBlock_null_witness :
    (∀ b ∈ demoLoaded.blocks, b.address ≠ 5) ∧
    parseFileBlockAt demoDecode demoLoaded.blocks { parsedBlocks := [], decoded := [] } 5
      = (0, { parsedBlocks := [], decoded := [] }) :=
  ⟨by decide,
    (parseFileBlock_null demoDecode demoLoaded.blocks
      { parsedBlocks := [], decoded := [] }).2.2 5 (by decide)⟩

/-! ## Reads at the end of the stream -/

/-- Counterexample to C13.  With two bytes left, `readChar(4)` does not fail: it
returns four bytes, the two of the stream and two that the buffer held before
(they are not in the stream), and the next `readChar(4)` returns the buffer as
it was.  And `readString(4)` does not return the four bytes it consumes when
they begin or end with white space. -/
theorem readChar_short_read_returns_buffer :
    readCharRaw [7, 7, 7, 7] { data := [1, 2], pos := 0, failed := false } 4
      = ([1, 2, 7, 7], { data := [1, 2], pos := 2, failed := true }) ∧
    readCharRaw [9, 9, 9, 9] { data := [1, 2], pos := 2, failed := true } 4
      = ([9, 9, 9, 9], { data := [1, 2], pos := 2, failed := true }) ∧
    readString [32, 65, 66, 32] 0 4 = some ([65, 66], 4) := by
  decide

/-- Claim C13, amended.  On a stream that has not failed, with a buffer of `n`
bytes: when at least `n` bytes remain, `readChar(n)` returns exactly the next
`n` bytes and moves the position by `n` (this is the case in which the reads
of the loader are defined: `readString(n)` returns these bytes trimmed and a
fixed-width read returns their value).  When fewer than `n` bytes remain no
failure is reported: `readChar(n)` still returns `n` bytes, the bytes that
remain followed by the rest of the buffer as it was before the read
(uninitialised memory, not bytes of the stream), and the stream has failed. -/
theorem readChar_exact_or_buffer (buffer : List Nat) (s : Stream) (n : Nat)
    (hgood : s.failed = false) (hbuf : buffer.length = n) :
    (s.pos + n ≤ s.data.length →
      readCharRaw buffer s n
        = ((s.data.drop s.pos).take n, { s with pos := s.pos + n }) ∧
      readChar s.data s.pos n = some ((s.data.drop s.pos).take n, s.pos + n) ∧
      (n ≠ 0 → readString s.data s.pos n
        = some (trim ((s.data.drop s.pos).take n), s.pos + n)) ∧
      read s.data s.pos n = some (decodeLE ((s.data.drop s.pos).take n), s.pos + n)) ∧
    (s.data.length - s.pos < n →
      (readCharRaw buffer s n).1.length = n ∧
      (readCharRaw buffer s n).1
        = s.data.drop s.pos ++ buffer.drop (s.data.length - s.pos) ∧
      (readCharRaw buffer s n).2.failed = true ∧
      readChar s.data s.pos n = none) := by
  constructor
  · intro h
    have hlen : ((s.data.drop s.pos).take n).length = n := by
      rw [List.length_take, List.length_drop]
      omega
    refine ⟨?_, readChar_eq_some.2 ⟨h, rfl⟩, fun hn => (readString_eq_some hn).2 ⟨h, rfl⟩,
      read_eq_some.2 ⟨h, rfl⟩⟩
    simp [readCharRaw, hgood, hlen]
  · intro h
    have htake : (s.data.drop s.pos).take n = s.data.drop s.pos := by
      apply List.take_of_length_le
      rw [List.length_drop]
      omega
    have hlen : (s.data.drop s.pos).length = s.data.length - s.pos := List.length_drop _ _
    have hne : ¬ (s.data.length - s.pos = n) := by omega
    have hraw : readCharRaw buffer s n
        = (s.data.drop s.pos ++ buffer.drop (s.data.length - s.pos),
            { s with pos := s.pos + (s.data.length - s.pos), failed := true }) := by
      simp [readCharRaw, hgood, htake, hlen, hne]
    rw [hraw]
    refine ⟨?_, rfl, rfl, ?_⟩
    · simp only [List.length_append, List.length_drop, hbuf]
      omega
    · cases hr : readChar s.data s.pos n with
      | none => rfl
      | some r =>
        have := (readChar_eq_some.1 hr).1
        omega

/-- Witness for the amended C13: four bytes are read from a stream that holds
them, and from a stream that holds two. -/
theorem readChar_exact_or_buffer_witness :
    readCharRaw [7, 7, 7, 7] { data := [1, 2, 3, 4, 5], pos := 1, failed := false } 4
      = ([2, 3, 4, 5], { data := [1, 2, 3, 4, 5], pos := 5, failed := false }) ∧
    (readCharRaw [7, 7, 7, 7] { data := [1, 2], pos := 0, failed := false } 4).1
      = [1, 2] ++ [7, 7] :=
  ⟨((readChar_exact_or_buffer [7, 7, 7, 7]
      { data := [1, 2, 3, 4, 5], pos := 1, failed := false } 4 rfl rfl).1 (by decide)).1,
    ((readChar_exact_or_buffer [7, 7, 7, 7]
      { data := [1, 2], pos := 0, failed := false } 4 rfl rfl).2 (by decide)).2.1⟩

/-! ## A terminator before the catalog -/

/-- The container with a terminator before the catalog loads. -/
theorem load_endbFile : load id demoParseName 0 endbFile = some (true, endbLoaded) := by
  decide

/-- Counterexample to C11.  The container `endbFile` has a valid header and a
block tagged "ENDB" before the catalog block; `load` returns `true`, the
terminator block is the first entry of the directory, and the scan went on
behind it to the catalog block. -/
theorem load_keeps_terminator :
    load id demoParseName 0 endbFile = some (true, endbLoaded) ∧
    endbLoaded.blocks.map Block.code = [ENDB, DNA1] ∧
    endbLoaded.blocks.head? = some endbBlock ∧
    readHeader 4 endbFile 12 = some { endbBlock with «structure» := none } :=
  ⟨load_endbFile, by decide, rfl, by decide⟩

/-- Claim C11, amended.  A block tagged "ENDB" that the scan meets before the
catalog block does not end the load: it is an entry of the directory like any
other, with address, structure index and count 0 and its payload offset 8
bytes after the start of its header; it is never the last entry, the scan
reads the next header at its payload offset plus its declared size.  If `load`
returns, it returns `true` and these are the blocks of its directory. -/
theorem scan_continues_after_terminator (inflate : List Nat → List Nat)
    (parseName : List Nat → DNAName) (pointerSize0 : Nat) (raw data : List Nat)
    (blocks : List Block)
    (hopen : openStream inflate raw = some data)
    (hscan : scanBlocks (choosePointerSize pointerSize0 (trim ((data.drop 7).take 1)))
      data 12 = some blocks) :
    (∀ i (hi : i < blocks.length), (blocks[i]).code = ENDB →
      ∃ (hi1 : i + 1 < blocks.length),
        (blocks[i]).address = 0 ∧ (blocks[i]).SDNAIndex = 0 ∧ (blocks[i]).count = 0 ∧
        (∃ pos, readHeader (choosePointerSize pointerSize0 (trim ((data.drop 7).take 1)))
            data pos = some (blocks[i]) ∧ (blocks[i]).offset = pos + 8) ∧
        readHeader (choosePointerSize pointerSize0 (trim ((data.drop 7).take 1))) data
          ((blocks[i]).offset + (blocks[i]).size) = some (blocks[i + 1])) ∧
    ∀ ret file, load inflate parseName pointerSize0 raw = some (ret, file) →
      ret = true ∧ file.blocks.length = blocks.length ∧
      ∀ i (hi : i < file.blocks.length) (hi1 : i < blocks.length),
        blocks[i] = { file.blocks[i] with «structure» := none } := by
  obtain ⟨-, ⟨last, hlast, hlc⟩, hall, hhdr⟩ := scanBlocks_spec hscan
  constructor
  · intro i hi hcode
    have hi1 : i + 1 < blocks.length := by
      by_contra hcon
      have hil : i = blocks.length - 1 := by omega
      rw [List.getLast?_eq_getElem?, List.getElem?_eq_getElem (by omega)] at hlast
      have e : blocks[i] = last := by
        subst hil
        exact Option.some.inj hlast
      rw [← e, hcode] at hlc
      exact absurd hlc (by decide)
    obtain ⟨pos, hpos⟩ := hhdr i hi
    obtain ⟨h1, h2, h3, h4⟩ := (readHeader_spec hpos).2.2.2.2.2.2.2 hcode
    exact ⟨hi1, h1, h2, h3, ⟨pos, hpos, h4⟩, (hall i hi1).2⟩
  · intro ret file hload
    exact ⟨(load_eq_some hload).1, (load_scanned hopen hscan hload).2⟩

/-- Witness for the amended C11: the scan of `endbFile`. -/
theorem scan_continues_after_terminator_witness :
    openStream id endbFile = some endbFile ∧
    scanBlocks (choosePointerSize 0 (trim ((endbFile.drop 7).take 1))) endbFile 12
      = some (endbLoaded.blocks.map (fun b => { b with «structure» := none })) ∧
    load id demoParseName 0 endbFile = some (true, endbLoaded) ∧
    true = true :=
  have hopen : openStream id endbFile = some endbFile := by decide
  have hscan : scanBlocks (choosePointerSize 0 (trim ((endbFile.drop 7).take 1))) endbFile 12
      = some (endbLoaded.blocks.map (fun b => { b with «structure» := none })) := by decide
  ⟨hopen, hscan, load_endbFile,
    ((scan_continues_after_terminator id demoParseName 0 endbFile endbFile _ hopen hscan).2
      true endbLoaded load_endbFile).1⟩

/-! ## Indices into the catalog -/

/-- The container with the structure index 7 loads. -/
theorem load_badIndexFile :
    load id demoParseName 0 badIndexFile = some (true, badIndexLoaded) := by
  decide

/-- Counterexample to C12.  In `badIndexFile` the catalog block has the structure
index 7 and the catalog has two structures.  `load` does not fail: it returns
`true`, and the structure pointer of the block is `&catalog.structures[7]`,
formed without a test, which points to no structure of the catalog. -/
theorem load_indexes_out_of_range :
    load id demoParseName 0 badIndexFile = some (true, badIndexLoaded) ∧
    badIndexLoaded.blocks = [badIndexBlock] ∧
    badIndexBlock.SDNAIndex = 7 ∧ badIndexLoaded.catalog.structures.length = 2 ∧
    badIndexLoaded.catalog.structures[badIndexBlock.SDNAIndex]? = none ∧
    badIndexBlock.«structure» = none :=
  ⟨load_badIndexFile, rfl, rfl, rfl, rfl, rfl⟩

/-- Claim C12, amended.  `load` has no outcome that reports a bad index:
whenever it returns, it returns `true`.  The structure index of a block is
used without a test: once the directory is scanned and the catalog is read,
`load` returns `true` whatever the structure indices of the blocks are, and
the structure pointer of every block is `&catalog.structures[SDNAIndex]`: the
block is bound to exactly the structure at its index when the index is below
the number of structures, and to no structure of the catalog otherwise. -/
theorem load_indices_unchecked (inflate : List Nat → List Nat)
    (parseName : List Nat → DNAName) (pointerSize0 : Nat) (raw : List Nat) :
    (∀ ret file, load inflate parseName pointerSize0 raw = some (ret, file) →
      ret = true ∧
      ∀ i (hi : i < file.blocks.length),
        (file.blocks[i]).«structure»
          = file.catalog.structures[(file.blocks[i]).SDNAIndex]? ∧
        ((hlt : (file.blocks[i]).SDNAIndex < file.catalog.structures.length) →
          (file.blocks[i]).«structure»
            = some (file.catalog.structures[(file.blocks[i]).SDNAIndex])) ∧
        (file.catalog.structures.length ≤ (file.blocks[i]).SDNAIndex →
          (file.blocks[i]).«structure» = none)) ∧
    (∀ (data : List Nat) (blocks : List Block) (back : Block) (catalog : Catalog × Nat),
      openStream inflate raw = some data →
      scanBlocks (choosePointerSize pointerSize0 (trim ((data.drop 7).take 1))) data 12
        = some blocks →
      blocks.getLast? = some back →
      readCatalog parseName (choosePointerSize pointerSize0 (trim ((data.drop 7).take 1)))
        data back.offset = some catalog →
      load inflate parseName pointerSize0 raw
        = some (true,
            { pointerSize := choosePointerSize pointerSize0 (trim ((data.drop 7).take 1)),
              version := trim ((data.drop 9).take 3),
              blocks := linkBlocks catalog.1.structures blocks,
              catalog := catalog.1 })) := by
  constructor
  · intro ret file hload
    refine ⟨(load_eq_some hload).1, ?_⟩
    intro i hi
    obtain ⟨data, blocks, -, -, -, -, hlink⟩ := load_blocks hload
    obtain ⟨hlen, hall⟩ := linkBlocks_spec _ _ hlink
    have he := hall i hi (by omega)
    have hidx : (file.blocks[i]).SDNAIndex = (blocks[i]).SDNAIndex := by rw [he]
    have hst : (file.blocks[i]).«structure»
        = file.catalog.structures[(blocks[i]).SDNAIndex]? := by rw [he]
    rw [hidx, hst]
    refine ⟨rfl, ?_, ?_⟩
    · intro hlt
      exact List.getElem?_eq_getElem hlt
    · intro hge
      exact List.getElem?_eq_none hge
  · intro data blocks back catalog hopen hscan hback hcat
    have hlen : 12 + 8 ≤ data.length := by
      unfold scanBlocks at hscan
      simp only [Option.bind_eq_bind, Option.bind_eq_some] at hscan
      obtain ⟨first, hfirst, -⟩ := hscan
      exact (readHeader_spec hfirst).1
    have hv : readString data 9 3 = some (trim ((data.drop 9).take 3), 9 + 3) :=
      (readString_eq_some (by norm_num)).2 ⟨by omega, rfl⟩
    unfold load
    rw [hopen]
    simp only [Option.bind_eq_bind, Option.some_bind]
    rw [loadStream_eq, if_pos (by omega), hv]
    simp only [Option.some_bind, hscan, hback, hcat]

/-- Witness for the amended C12: the container with the structure index 7. -/
theorem load_indices_unchecked_witness :
    load id demoParseName 0 badIndexFile = some (true, badIndexLoaded) ∧
    (true = true ∧
      ∀ i (hi : i < badIndexLoaded.blocks.length),
        (badIndexLoaded.blocks[i]).«structure»
          = badIndexLoaded.catalog.structures[(badIndexLoaded.blocks[i]).SDNAIndex]? ∧
        ((hlt : (badIndexLoaded.blocks[i]).SDNAIndex
            < badIndexLoaded.catalog.structures.length) →
          (badIndexLoaded.blocks[i]).«structure»
            = some (badIndexLoaded.catalog.structures[(badIndexLoaded.blocks[i]).SDNAIndex])) ∧
        (badIndexLoaded.catalog.structures.length ≤ (badIndexLoaded.blocks[i]).SDNAIndex →
          (badIndexLoaded.blocks[i]).«structure» = none)) :=
  ⟨load_badIndexFile,
    (load_indices_unchecked id demoParseName 0 badIndexFile).1 true badIndexLoaded
      load_badIndexFile⟩

/-! ## Widening the pointers of a container -/

/-- `readHeader` at `pos` looks at the stream only from `pos` on. -/
theorem readHeader_eq_headerAt (pointerSize : Nat) (data : List Nat) (pos : Nat) :
    readHeader pointerSize data pos = headerAt pointerSize (data.drop pos) pos := by
  have hlen : (data.drop pos).length = data.length - pos := List.length_drop _ _
  have hw : (if pointerSize = 4 then 4 else 8) = 4 ∨ (if pointerSize = 4 then 4 else 8) = 8 := by
    split <;> simp
  have hrp : ∀ p, readPointer pointerSize data p
      = read data p (if pointerSize = 4 then 4 else 8) := by
    intro p
    unfold readPointer
    by_cases hps : pointerSize = 4
    · simp [hps]
    · have hb : (pointerSize == 4) = false := by simpa using hps
      simp [hps, hb]
  unfold readHeader headerAt
  simp only [Option.bind_eq_bind, hrp]
  generalize (if pointerSize = 4 then 4 else 8) = w at *
  by_cases h4 : pos + 4 ≤ data.length
  · have e0 : readString data pos 4 = some (trim ((data.drop pos).take 4), pos + 4) :=
      (readString_eq_some (by norm_num)).2 ⟨h4, rfl⟩
    simp only [e0, Option.some_bind]
    by_cases hcode : ((trim ((data.drop pos).take 4)).filter (fun ch => ch != 0) != ENDB) = true
    · simp only [hcode, if_true]
      by_cases hfull : 16 + w ≤ (data.drop pos).length
      · have e1 : read data (pos + 4) 4
            = some (decodeLE ((data.drop (pos + 4)).take 4), pos + 4 + 4) :=
          read_eq_some.2 ⟨by omega, rfl⟩
        have e2 : read data (pos + 4 + 4) w
            = some (decodeLE ((data.drop (pos + 4 + 4)).take w), pos + 4 + 4 + w) :=
          read_eq_some.2 ⟨by omega, rfl⟩
        have e3 : read data (pos + 4 + 4 + w) 4
            = some (decodeLE ((data.drop (pos + 4 + 4 + w)).take 4), pos + 4 + 4 + w + 4) :=
          read_eq_some.2 ⟨by omega, rfl⟩
        have e4 : read data (pos + 4 + 4 + w + 4) 4
            = some (decodeLE ((data.drop (pos + 4 + 4 + w + 4)).take 4),
                pos + 4 + 4 + w + 4 + 4) :=
          read_eq_some.2 ⟨by omega, rfl⟩
        simp only [e1, e2, e3, e4, Option.some_bind, hfull, if_true, List.drop_drop,
          Option.some.injEq, Block.mk.injEq, true_and, and_true]
        repeat' constructor
        all_goals first | rfl | omega | (congr 3; omega)
      · simp only [hfull, if_false]
        cases e1 : read data (pos + 4) 4 with
        | none => rfl
        | some sz =>
          obtain ⟨h1, rfl⟩ := read_eq_some.1 e1
          simp only [Option.some_bind]
          cases e2 : read data (pos + 4 + 4) w with
          | none => rfl
          | some ad =>
            obtain ⟨h2, rfl⟩ := read_eq_some.1 e2
            simp only [Option.some_bind]
            cases e3 : read data (pos + 4 + 4 + w) 4 with
            | none => rfl
            | some si =>
              obtain ⟨h3, rfl⟩ := read_eq_some.1 e3
              simp only [Option.some_bind]
              cases e4 : read data (pos + 4 + 4 + w + 4) 4 with
              | none => rfl
              | some ct =>
                have := (read_eq_some.1 e4).1
                omega
    · simp only [hcode, Bool.false_eq_true, if_false]
      by_cases hfull : 8 ≤ (data.drop pos).length
      · have e1 : read data (pos + 4) 4
            = some (decodeLE ((data.drop (pos + 4)).take 4), pos + 4 + 4) :=
          read_eq_some.2 ⟨by omega, rfl⟩
        simp only [e1, Option.some_bind, hfull, if_true, List.drop_drop]
      · simp only [hfull, if_false]
        cases e1 : read data (pos + 4) 4 with
        | none => rfl
        | some sz =>
          have := (read_eq_some.1 e1).1
          omega
  · have e0 : readString data pos 4 = none := by
      cases e : readString data pos 4 with
      | none => rfl
      | some c =>
        have := ((readString_eq_some (by norm_num)).1 e).1
        omega
    simp only [e0, Option.none_bind]
    have h1 : ¬ (16 + w ≤ data.length - pos) := by omega
    have h2 : ¬ (8 ≤ data.length - pos) := by omega
    simp [h1, h2]

theorem decodeLE_append_zeros (l : List Nat) : decodeLE (l ++ [0, 0, 0, 0]) = decodeLE l := by
  induction l with
  | nil => simp [decodeLE]
  | cons b bs ih => simp [decodeLE, ih]

theorem list_of_length_four (l : List Nat) (h : l.length = 4) :
    ∃ a b c d, l = [a, b, c, d] := by
  rcases l with _ | ⟨a, _ | ⟨b, _ | ⟨c, _ | ⟨d, _ | ⟨e, t⟩⟩⟩⟩⟩ <;>
    simp at h
  exact ⟨a, b, c, d, rfl⟩

theorem list_of_length_eight (l : List Nat) (h : l.length = 8) :
    ∃ p q : List Nat, p.length = 4 ∧ q.length = 4 ∧ l = p ++ q :=
  ⟨l.take 4, l.drop 4, by simp [h], by simp [h], (List.take_append_drop 4 l).symm⟩

theorem list_of_length_twelve (l : List Nat) (h : l.length = 12) :
    ∃ p q r : List Nat, p.length = 4 ∧ q.length = 4 ∧ r.length = 4 ∧ l = p ++ q ++ r :=
  ⟨l.take 4, (l.drop 4).take 4, l.drop 8, by simp [h], by simp [h], by simp [h], by
    rw [List.append_assoc]
    have : (l.drop 4).take 4 ++ l.drop 8 = l.drop 4 := by
      have := List.take_append_drop 4 (l.drop 4)
      simpa using this
    rw [this, List.take_append_drop]⟩

/-- A header with an address field, read with 8-byte pointers from the widened
bytes, is the header read with 4-byte pointers from the original bytes, apart
from the payload offset. -/
theorem headerAt_widened (A B X Y : List Nat) (pos pos1 : Nat) (hA : A.length = 12)
    (hB : B.length = 8)
    (hcode : ((trim (A.take 4)).filter (fun ch => ch != 0) != ENDB) = true) :
    ∃ b, headerAt 4 (A ++ B ++ Y) pos = some b ∧ b.offset = pos + 20 ∧
      b.code = (trim (A.take 4)).filter (fun ch => ch != 0) ∧
      b.size = decodeLE ((A.drop 4).take 4) ∧
      headerAt 8 (A ++ [0, 0, 0, 0] ++ B ++ X) pos1 = some { b with offset := pos1 + 24 } := by
  obtain ⟨p, q, r, hp, hq, hr, rfl⟩ := list_of_length_twelve A hA
  obtain ⟨u, v, hu, hv, rfl⟩ := list_of_length_eight B hB
  obtain ⟨p0, p1, p2, p3, rfl⟩ := list_of_length_four p hp
  obtain ⟨q0, q1, q2, q3, rfl⟩ := list_of_length_four q hq
  obtain ⟨r0, r1, r2, r3, rfl⟩ := list_of_length_four r hr
  obtain ⟨u0, u1, u2, u3, rfl⟩ := list_of_length_four u hu
  obtain ⟨v0, v1, v2, v3, rfl⟩ := list_of_length_four v hv
  have hcode1 : ((trim [p0, p1, p2, p3]).filter (fun ch => ch != 0) != ENDB) = true := hcode
  have e8 : (if (8 : Nat) = 4 then 4 else 8) = 8 := by decide
  have e4 : (if (4 : Nat) = 4 then 4 else 8) = 4 := by decide
  refine ⟨{ code := (trim [p0, p1, p2, p3]).filter (fun ch => ch != 0),
            size := decodeLE [q0, q1, q2, q3], address := decodeLE [r0, r1, r2, r3],
            SDNAIndex := decodeLE [u0, u1, u2, u3], count := decodeLE [v0, v1, v2, v3],
            offset := pos + 20, «structure» := none }, ?_, rfl, rfl, rfl, ?_⟩
  · unfold headerAt
    simp only [e4, List.cons_append, List.nil_append, List.take_succ_cons, List.take_zero,
      List.drop_succ_cons, List.drop_zero, hcode1, if_true, List.length_cons]
    simp
  · unfold headerAt
    simp only [e8, List.cons_append, List.nil_append, List.take_succ_cons, List.take_zero,
      List.drop_succ_cons, List.drop_zero, hcode1, if_true, List.length_cons]
    have hz : decodeLE [r0, r1, r2, r3, 0, 0, 0, 0] = decodeLE [r0, r1, r2, r3] :=
      decodeLE_append_zeros [r0, r1, r2, r3]
    simp [hz]

/-- A terminator header is read alike with 4-byte and with 8-byte pointers. -/
theorem headerAt_terminator (E X Y : List Nat) (pos pos1 : Nat) (hE : E.length = 8)
    (hcode : ((trim (E.take 4)).filter (fun ch => ch != 0) != ENDB) = false) :
    ∃ b, headerAt 4 (E ++ Y) pos = some b ∧ b.offset = pos + 8 ∧
      b.code = (trim (E.take 4)).filter (fun ch => ch != 0) ∧
      b.size = decodeLE ((E.drop 4).take 4) ∧
      headerAt 8 (E ++ X) pos1 = some { b with offset := pos1 + 8 } := by
  obtain ⟨u, v, hu, hv, rfl⟩ := list_of_length_eight E hE
  obtain ⟨u0, u1, u2, u3, rfl⟩ := list_of_length_four u hu
  obtain ⟨v0, v1, v2, v3, rfl⟩ := list_of_length_four v hv
  have hcode1 : ((trim [u0, u1, u2, u3]).filter (fun ch => ch != 0) != ENDB) = false := hcode
  refine ⟨{ code := (trim [u0, u1, u2, u3]).filter (fun ch => ch != 0),
            size := decodeLE [v0, v1, v2, v3], address := 0, SDNAIndex := 0, count := 0,
            offset := pos + 8, «structure» := none }, ?_, rfl, rfl, rfl, ?_⟩
  · unfold headerAt
    simp only [List.cons_append, List.nil_append, List.take_succ_cons, List.take_zero,
      List.drop_succ_cons, List.drop_zero, hcode1, Bool.false_eq_true, if_false,
      List.length_cons]
    simp
  · unfold headerAt
    simp only [List.cons_append, List.nil_append, List.take_succ_cons, List.take_zero,
      List.drop_succ_cons, List.drop_zero, hcode1, Bool.false_eq_true, if_false,
      List.length_cons]
    simp

theorem isCatalogCode_ne_ENDB {code : List Nat} (h : isCatalogCode code = true) :
    (code != ENDB) = true := by
  unfold isCatalogCode at h
  simp only [Bool.or_eq_true, beq_iff_eq] at h
  rcases h with rfl | rfl <;> decide

/-- The bytes from a header on split into the first 12 bytes of the header, its
last 8 bytes and what follows. -/
theorem split_header (rest : List Nat) :
    rest = rest.take 12 ++ (rest.drop 12).take 8 ++ rest.drop 20 := by
  have h1 : (rest.drop 12).take 8 ++ rest.drop 20 = rest.drop 12 := by
    have := List.take_append_drop 8 (rest.drop 12)
    simpa using this
  rw [List.append_assoc, h1, List.take_append_drop]

theorem split_terminator (rest : List Nat) : rest = rest.take 8 ++ rest.drop 8 :=
  (List.take_append_drop 8 rest).symm

theorem scanLoop_ne_nil {pointerSize : Nat} {data : List Nat} {fuel : Nat} {back : Block}
    {blocks : List Block} (h : scanLoop pointerSize data fuel back = some blocks) :
    blocks ≠ [] := by
  cases fuel with
  | zero => simp [scanLoop] at h
  | succ fuel =>
    rw [scanLoop] at h
    split at h
    · simp only [Option.some.injEq] at h
      subst h
      simp
    · simp only [Option.bind_eq_bind, Option.bind_eq_some, Option.some.injEq] at h
      obtain ⟨next, -, rest, -, rfl⟩ := h
      simp

theorem getLast?_cons_of_ne_nil {α : Type} (a : α) {l : List α} (h : l ≠ []) :
    (a :: l).getLast? = l.getLast? := by
  cases l with
  | nil => exact absurd rfl h
  | cons b l => exact List.getLast?_cons_cons

theorem widenedBlocks_length : ∀ (blocks : List Block) (shift : Nat),
    (widenedBlocks shift blocks).length = blocks.length := by
  intro blocks
  induction blocks with
  | nil => intro shift; rfl
  | cons b bs ih =>
    intro shift
    rw [widenedBlocks]
    split <;> simp [ih]

theorem widenedBlocks_ne_nil {blocks : List Block} (h : blocks ≠ []) (shift : Nat) :
    widenedBlocks shift blocks ≠ [] := by
  intro e
  have := widenedBlocks_length blocks shift
  rw [e] at this
  exact h (List.length_eq_zero.1 this.symm)

/-- The scan of the widened blocks with 8-byte pointers, next to the scan of the
original blocks with 4-byte pointers: `shift` is the number of bytes inserted
before the header at `pos`.  The payload of the last block, the catalog, is the
same in both streams. -/
theorem scanLoop_widened (data data1 : List Nat) :
    ∀ (fuel pos shift : Nat) (first : Block) (blocks : List Block),
      data1.drop (pos + shift) = widenBlocks fuel (data.drop pos) →
      readHeader 4 data pos = some first →
      scanLoop 4 data fuel first = some blocks →
      ∃ first1, readHeader 8 data1 (pos + shift) = some first1 ∧
        scanLoop 8 data1 fuel first1 = some (widenedBlocks shift blocks) ∧
        ∀ back back1, blocks.getLast? = some back →
          (widenedBlocks shift blocks).getLast? = some back1 →
          data1.drop back1.offset = data.drop back.offset := by
  intro fuel
  induction fuel with
  | zero => intro pos shift first blocks _ _ h; simp [scanLoop] at h
  | succ fuel ih =>
    intro pos shift first blocks hdrop hfirst hloop
    have hspec := readHeader_spec hfirst
    rw [readHeader_eq_headerAt] at hfirst
    rw [readHeader_eq_headerAt, hdrop]
    have hlen : (data.drop pos).length = data.length - pos := List.length_drop _ _
    generalize hrest : data.drop pos = rest at *
    have hcodeq : first.code = (trim (rest.take 4)).filter (fun ch => ch != 0) := hspec.2.2.2.2.1
    have hsize : first.size = decodeLE ((rest.drop 4).take 4) := by
      rw [hspec.2.2.2.2.2.1, ← hrest, List.drop_drop]
    rw [widenBlocks]
    by_cases hcat : isCatalogCode ((trim (rest.take 4)).filter (fun ch => ch != 0)) = true
    · -- the catalog block
      have hne := isCatalogCode_ne_ENDB hcat
      simp only [hcat, if_true]
      have h20 : 20 ≤ rest.length := by
        have := (hspec.2.2.2.2.2.2.1 (by rw [hcodeq]; simpa using hne)).2
        have := hspec.2.1
        simp only [if_true] at *
        omega
      obtain ⟨b, hb, hboff, -, -, hb8⟩ := headerAt_widened (rest.take 12)
        ((rest.drop 12).take 8) (rest.drop 20) (rest.drop 20) pos (pos + shift)
        (by simp; omega) (by simp; omega) (by simpa [List.take_take] using hne)
      rw [← split_header rest, hfirst] at hb
      obtain rfl := Option.some.inj hb
      rw [scanLoop] at hloop
      rw [hcodeq] at hloop
      simp only [hcat, if_true, Option.some.injEq] at hloop
      subst hloop
      have hne1 : (first.code != ENDB) = true := by rw [hcodeq]; exact hne
      have hoff : first.offset = pos + 20 := by
        have := (hspec.2.2.2.2.2.2.1 (by rw [hcodeq]; simpa using hne)).2
        simpa using this
      refine ⟨_, hb8, ?_, ?_⟩
      · rw [scanLoop]
        simp only [hcodeq, hcat, if_true, widenedBlocks, hne, Option.some.injEq,
          List.cons.injEq, and_true, Block.mk.injEq, true_and]
        omega
      · intro back back1 hback hback1
        simp only [widenedBlocks, hne1, if_true, List.getLast?_singleton,
          Option.some.injEq] at hback hback1
        subst hback hback1
        have e1 : first.offset + shift + 4 = (pos + shift) + 24 := by omega
        show data1.drop (first.offset + shift + 4) = data.drop first.offset
        rw [e1, ← List.drop_drop, hdrop, widenBlocks]
        simp only [hcat, if_true]
        have e2 : data.drop first.offset = rest.drop 20 := by
          rw [hoff, ← hrest, List.drop_drop]
        rw [e2]
        apply List.drop_left'
        simp only [List.length_append, List.length_take, List.length_drop, List.length_cons,
          List.length_nil]
        omega
    · simp only [hcat, Bool.false_eq_true, if_false]
      rw [scanLoop] at hloop
      rw [hcodeq] at hloop
      simp only [hcat, Bool.false_eq_true, if_false, Option.bind_eq_bind, Option.bind_eq_some,
        Option.some.injEq] at hloop
      obtain ⟨next, hnext, restBlocks, hrestBlocks, rfl⟩ := hloop
      have hnextlen := (readHeader_spec hnext).1
      by_cases hne : ((trim (rest.take 4)).filter (fun ch => ch != 0) != ENDB) = true
      · -- a block with an address
        simp only [hne, if_true]
        have hoff : first.offset = pos + 20 := by
          have := (hspec.2.2.2.2.2.2.1 (by rw [hcodeq]; simpa using hne)).2
          simpa using this
        have h20 : 20 + first.size ≤ rest.length := by omega
        obtain ⟨b, hb, hboff, -, -, hb8⟩ := headerAt_widened (rest.take 12)
          ((rest.drop 12).take 8)
          ((rest.drop 20).take (decodeLE ((rest.drop 4).take 4))
            ++ widenBlocks fuel (rest.drop (20 + decodeLE ((rest.drop 4).take 4))))
          (rest.drop 20) pos (pos + shift)
          (by simp; omega) (by simp; omega) (by simpa [List.take_take] using hne)
        rw [← split_header rest, hfirst] at hb
        obtain rfl := Option.some.inj hb
        have hb8' : headerAt 8
            (rest.take 12 ++ [0, 0, 0, 0] ++ (rest.drop 12).take 8
              ++ (rest.drop 20).take (decodeLE ((rest.drop 4).take 4))
              ++ widenBlocks fuel (rest.drop (20 + decodeLE ((rest.drop 4).take 4))))
            (pos + shift) = some { first with offset := pos + shift + 24 } := by
          rw [List.append_assoc]
          exact hb8
        refine ⟨_, hb8', ?_⟩
        have hdrop2 : data1.drop (pos + 20 + first.size + (shift + 4))
            = widenBlocks fuel (data.drop (pos + 20 + first.size)) := by
          have e1 : pos + 20 + first.size + (shift + 4)
              = (pos + shift) + (24 + first.size) := by omega
          rw [e1, ← List.drop_drop, hdrop, widenBlocks]
          simp only [hcat, Bool.false_eq_true, if_false, hne, if_true, ← hsize]
          have e2 : data.drop (pos + 20 + first.size) = rest.drop (20 + first.size) := by
            rw [← hrest, List.drop_drop, Nat.add_assoc]
          rw [e2]
          apply List.drop_left'
          simp only [List.length_append, List.length_take, List.length_drop, List.length_cons,
            List.length_nil]
          omega
        obtain ⟨next1, hnext1, hloop1, hlast⟩ := ih (pos + 20 + first.size) (shift + 4) next
          restBlocks hdrop2 (by rw [← hoff]; exact hnext) hrestBlocks
        have hne1 : (first.code != ENDB) = true := by rw [hcodeq]; exact hne
        have e3 : pos + shift + 24 + first.size = pos + 20 + first.size + (shift + 4) := by omega
        have hnn := scanLoop_ne_nil hrestBlocks
        refine ⟨?_, ?_⟩
        · rw [scanLoop]
          simp only [hcodeq, hcat, Bool.false_eq_true, if_false, Option.bind_eq_bind, e3, hnext1,
            Option.some_bind, hloop1, widenedBlocks, hne, if_true, Option.some.injEq,
            List.cons.injEq, and_true, Block.mk.injEq, true_and]
          omega
        · intro back back1 hback hback1
          rw [getLast?_cons_of_ne_nil _ hnn] at hback
          rw [widenedBlocks] at hback1
          simp only [hne1, if_true] at hback1
          rw [getLast?_cons_of_ne_nil _ (widenedBlocks_ne_nil hnn _)] at hback1
          exact hlast back back1 hback hback1
      · -- a terminator block
        have hne0 : ((trim (rest.take 4)).filter (fun ch => ch != 0) != ENDB) = false := by
          simpa using hne
        simp only [hne0, Bool.false_eq_true, if_false]
        have hoff : first.offset = pos + 8 := by
          have := (hspec.2.2.2.2.2.2.2 (by rw [hcodeq]; simpa using hne0)).2.2.2
          exact this
        have h8 : 8 + first.size ≤ rest.length := by omega
        obtain ⟨b, hb, hboff, -, -, hb8⟩ := headerAt_terminator (rest.take 8)
          ((rest.drop 8).take (decodeLE ((rest.drop 4).take 4))
            ++ widenBlocks fuel (rest.drop (8 + decodeLE ((rest.drop 4).take 4))))
          (rest.drop 8) pos (pos + shift)
          (by simp; omega) (by simpa [List.take_take] using hne0)
        rw [← split_terminator rest, hfirst] at hb
        obtain rfl := Option.some.inj hb
        have hb8' : headerAt 8
            (rest.take 8 ++ (rest.drop 8).take (decodeLE ((rest.drop 4).take 4))
              ++ widenBlocks fuel (rest.drop (8 + decodeLE ((rest.drop 4).take 4))))
            (pos + shift) = some { first with offset := pos + shift + 8 } := by
          rw [List.append_assoc]
          exact hb8
        refine ⟨_, hb8', ?_⟩
        have hdrop2 : data1.drop (pos + 8 + first.size + shift)
            = widenBlocks fuel (data.drop (pos + 8 + first.size)) := by
          have e1 : pos + 8 + first.size + shift = (pos + shift) + (8 + first.size) := by omega
          rw [e1, ← List.drop_drop, hdrop, widenBlocks]
          simp only [hcat, Bool.false_eq_true, if_false, hne0, ← hsize]
          have e2 : data.drop (pos + 8 + first.size) = rest.drop (8 + first.size) := by
            rw [← hrest, List.drop_drop, Nat.add_assoc]
          rw [e2]
          apply List.drop_left'
          simp only [List.length_append, List.length_take, List.length_drop]
          omega
        obtain ⟨next1, hnext1, hloop1, hlast⟩ := ih (pos + 8 + first.size) shift next
          restBlocks hdrop2 (by rw [← hoff]; exact hnext) hrestBlocks
        have hne1 : (first.code != ENDB) = false := by rw [hcodeq]; exact hne0
        have e3 : pos + shift + 8 + first.size = pos + 8 + first.size + shift := by omega
        have hnn := scanLoop_ne_nil hrestBlocks
        refine ⟨?_, ?_⟩
        · rw [scanLoop]
          simp only [hcodeq, hcat, Bool.false_eq_true, if_false, Option.bind_eq_bind, e3, hnext1,
            Option.some_bind, hloop1, widenedBlocks, hne0, Option.some.injEq,
            List.cons.injEq, and_true, Block.mk.injEq, true_and]
          omega
        · intro back back1 hback hback1
          rw [getLast?_cons_of_ne_nil _ hnn] at hback
          rw [widenedBlocks] at hback1
          simp only [hne1, Bool.false_eq_true, if_false] at hback1
          rw [getLast?_cons_of_ne_nil _ (widenedBlocks_ne_nil hnn _)] at hback1
          exact hlast back back1 hback hback1

/-- Entry by entry, the widened directory has the fields of the original one,
and the payload offset moved by 4 bytes for every header with an address field
up to the entry's own. -/
theorem widenedBlocks_getElem : ∀ (blocks : List Block) (shift i : Nat)
    (hi : i < blocks.length) (hi1 : i < (widenedBlocks shift blocks).length),
    ((widenedBlocks shift blocks)[i]).code = (blocks[i]).code ∧
    ((widenedBlocks shift blocks)[i]).size = (blocks[i]).size ∧
    ((widenedBlocks shift blocks)[i]).address = (blocks[i]).address ∧
    ((widenedBlocks shift blocks)[i]).SDNAIndex = (blocks[i]).SDNAIndex ∧
    ((widenedBlocks shift blocks)[i]).count = (blocks[i]).count ∧
    ((widenedBlocks shift blocks)[i]).offset = (blocks[i]).offset + shift
      + 4 * ((blocks.take (i + 1)).filter (fun b => b.code != ENDB)).length := by
  intro blocks
  induction blocks with
  | nil => intro shift i hi; simp at hi
  | cons b bs ih =>
    intro shift i hi hi1
    by_cases hb : (b.code != ENDB) = true
    · have e : widenedBlocks shift (b :: bs)
          = { b with offset := b.offset + shift + 4 } :: widenedBlocks (shift + 4) bs := by
        rw [widenedBlocks]
        simp [hb]
      cases i with
      | zero => simp [e, hb]
      | succ i =>
        have h := ih (shift + 4) i (by simpa using hi)
          (by rw [widenedBlocks_length]; simpa using hi)
        have hf : List.filter (fun b => b.code != ENDB) (b :: List.take (i + 1) bs)
            = b :: List.filter (fun b => b.code != ENDB) (List.take (i + 1) bs) :=
          List.filter_cons_of_pos hb
        simp only [e, List.getElem_cons_succ, List.take_succ_cons, hf, List.length_cons]
        refine ⟨h.1, h.2.1, h.2.2.1, h.2.2.2.1, h.2.2.2.2.1, ?_⟩
        rw [h.2.2.2.2.2]
        omega
    · have hb0 : (b.code != ENDB) = false := by simpa using hb
      have e : widenedBlocks shift (b :: bs)
          = { b with offset := b.offset + shift } :: widenedBlocks shift bs := by
        rw [widenedBlocks]
        simp [hb0]
      cases i with
      | zero => simp [e, hb0]
      | succ i =>
        have h := ih shift i (by simpa using hi)
          (by rw [widenedBlocks_length]; simpa using hi)
        have hf : List.filter (fun b => b.code != ENDB) (b :: List.take (i + 1) bs)
            = List.filter (fun b => b.code != ENDB) (List.take (i + 1) bs) :=
          List.filter_cons_of_neg hb
        simp only [e, List.getElem_cons_succ, List.take_succ_cons, hf]
        exact h

/-- A stream that begins with the magic is read as it is. -/
theorem openStream_of_magic (inflate : List Nat → List Nat) (data : List Nat)
    (h : data.take 7 = BLENDER) : openStream inflate data = some data := by
  have hlen : 7 ≤ data.length := by
    have := congrArg List.length h
    simp only [List.length_take, BLENDER, List.length_cons, List.length_nil] at this
    omega
  have e : readString data 0 7 = some (trim ((data.drop 0).take 7), 0 + 7) :=
    (readString_eq_some (by norm_num)).2 ⟨by omega, rfl⟩
  have ht : trim BLENDER = BLENDER := by decide
  unfold openStream
  simp [e, h, ht]

/-- The scan of the widened container with 8-byte pointers; the payload of
its last block is the payload of the last block of the original. -/
theorem scanBlocks_widened (data : List Nat) (blocks : List Block)
    (hscan : scanBlocks 4 data 12 = some blocks) :
    scanBlocks 8 (widenPointers data) 12 = some (widenedBlocks 0 blocks) ∧
    ∀ back back1, blocks.getLast? = some back →
      (widenedBlocks 0 blocks).getLast? = some back1 →
      (widenPointers data).drop back1.offset = data.drop back.offset := by
  unfold scanBlocks at hscan
  simp only [Option.bind_eq_bind, Option.bind_eq_some] at hscan
  obtain ⟨first, hfirst, hloop⟩ := hscan
  have hlen := (readHeader_spec hfirst).1
  have hdrop : (widenPointers data).drop (12 + 0)
      = widenBlocks (data.length + 1) (data.drop 12) := by
    unfold widenPointers
    apply List.drop_left'
    simp only [List.length_append, List.length_take, List.length_drop, List.length_cons,
      List.length_nil]
    omega
  obtain ⟨first1, hfirst1, hloop1, hlast⟩ :=
    scanLoop_widened data (widenPointers data) _ 12 0 first blocks hdrop hfirst hloop
  exact ⟨scanBlocks_complete hfirst1 hloop1, hlast⟩

theorem widenPointers_header (data : List Nat) (h : 12 ≤ data.length) :
    (widenPointers data).take 7 = data.take 7 ∧ (widenPointers data)[7]? = some 45 := by
  have h7 : (data.take 7).length = 7 := by simp; omega
  constructor
  · unfold widenPointers
    rw [List.append_assoc, List.append_assoc]
    exact List.take_left' h7
  · unfold widenPointers
    rw [List.append_assoc, List.append_assoc, List.getElem?_append_right (by omega)]
    simp [h7]

/-! ## Reads of a stream whose bytes are moved by `shift` positions -/

theorem bind_shift {α β : Type} {x x1 : Option α} {f f1 : α → Option β} {g0 : α → α}
    {g : β → β} (hx : x1 = x.map g0) (hf : ∀ a, x = some a → f1 (g0 a) = (f a).map g) :
    x1.bind f1 = (x.bind f).map g := by
  subst hx
  cases x with
  | none => rfl
  | some a => exact hf a rfl

theorem bind_same {α β : Type} {x : Option α} {f f1 : α → Option β} {g : β → β}
    (hf : ∀ a, x = some a → f1 a = (f a).map g) : x.bind f1 = (x.bind f).map g := by
  cases x with
  | none => rfl
  | some a => exact hf a rfl

/-- If the bytes of `data` from `k` on are the bytes of `data1` from `k + shift`
on, the same holds from every later position. -/
theorem shifted_of_drop {shift k : Nat} {data data1 : List Nat}
    (h : data1.drop (k + shift) = data.drop k) :
    ∀ q, k ≤ q → data1.drop (q + shift) = data.drop q := by
  intro q hq
  obtain ⟨j, rfl⟩ := Nat.exists_eq_add_of_le hq
  have e : k + j + shift = (k + shift) + j := by omega
  rw [e, ← List.drop_drop, h, List.drop_drop]

theorem readChar_shift {shift k : Nat} {data data1 : List Nat}
    (h : ∀ q, k ≤ q → data1.drop (q + shift) = data.drop q) {pos : Nat} (hp : k ≤ pos)
    {length : Nat} (hn : length ≠ 0) :
    readChar data1 (pos + shift) length
      = (readChar data pos length).map (fun r => (r.1, r.2 + shift)) := by
  have hd := h pos hp
  have hl := congrArg List.length hd
  simp only [List.length_drop] at hl
  unfold readChar
  rw [hd]
  by_cases hc : pos + length ≤ data.length
  · rw [if_pos hc, if_pos (by omega)]
    simp only [Option.map_some', Option.some.injEq, Prod.mk.injEq, true_and]
    omega
  · rw [if_neg hc, if_neg (by omega)]
    rfl

theorem readString_shift {shift k : Nat} {data data1 : List Nat}
    (h : ∀ q, k ≤ q → data1.drop (q + shift) = data.drop q) {pos : Nat} (hp : k ≤ pos)
    (length : Nat) :
    readString data1 (pos + shift) length
      = (readString data pos length).map (fun r => (r.1, r.2 + shift)) := by
  unfold readString
  by_cases hz : length = 0
  · subst hz
    simp only [beq_self_eq_true, if_true]
    rw [h pos hp]
    cases readUntilNul (data.drop pos) with
    | none => rfl
    | some r =>
      simp only [Option.map_some', Option.some.injEq, Prod.mk.injEq, true_and]
      omega
  · have hz1 : (length == 0) = false := by simpa using hz
    simp only [hz1, Bool.false_eq_true, if_false]
    rw [readChar_shift h hp hz]
    cases readChar data pos length <;> rfl

theorem read_shift {shift k : Nat} {data data1 : List Nat}
    (h : ∀ q, k ≤ q → data1.drop (q + shift) = data.drop q) {pos : Nat} (hp : k ≤ pos)
    {width : Nat} (hn : width ≠ 0) :
    read data1 (pos + shift) width
      = (read data pos width).map (fun r => (r.1, r.2 + shift)) := by
  unfold read
  rw [readChar_shift h hp hn]
  cases readChar data pos width <;> rfl

theorem align_shift {shift : Nat} (hs : shift % 4 = 0) (q : Nat) :
    (align ((q + shift : Nat) : Int)).toNat = (align (q : Int)).toNat + shift := by
  unfold align
  have h1 := Int.tmod_eq_emod (Int.ofNat_nonneg (q + shift)) (by norm_num : (0 : Int) ≤ 4)
  have h2 := Int.tmod_eq_emod (Int.ofNat_nonneg q) (by norm_num : (0 : Int) ≤ 4)
  simp only [h1, h2, bne_iff_ne, ne_eq, ite_not]
  split <;> split <;> omega

theorem readNames_shift {shift k : Nat} {data data1 : List Nat}
    (h : ∀ q, k ≤ q → data1.drop (q + shift) = data.drop q)
    (parseName : List Nat → DNAName) :
    ∀ (n pos : Nat), k ≤ pos →
      readNames parseName data1 n (pos + shift)
        = (readNames parseName data n pos).map (fun r => (r.1, r.2 + shift)) := by
  intro n
  induction n with
  | zero => intro pos _; rfl
  | succ n ih =>
    intro pos hp
    rw [readNames, readNames]
    simp only [Option.bind_eq_bind]
    refine bind_shift (readString_shift h hp 0) (fun s hs => ?_)
    have := readString_pos hs
    exact bind_shift (ih s.2 (by omega)) (fun rest _ => rfl)

theorem readTypes_shift {shift k : Nat} {data data1 : List Nat}
    (h : ∀ q, k ≤ q → data1.drop (q + shift) = data.drop q) :
    ∀ (n pos i : Nat), k ≤ pos →
      readTypes data1 n (pos + shift) i
        = (readTypes data n pos i).map (fun r => (r.1, r.2 + shift)) := by
  intro n
  induction n with
  | zero => intro pos i _; rfl
  | succ n ih =>
    intro pos i hp
    rw [readTypes, readTypes]
    simp only [Option.bind_eq_bind]
    refine bind_shift (readString_shift h hp 0) (fun s hs => ?_)
    have := readString_pos hs
    exact bind_shift (ih s.2 (i + 1) (by omega)) (fun rest _ => rfl)

theorem readTypeLengths_shift {shift k : Nat} {data data1 : List Nat}
    (h : ∀ q, k ≤ q → data1.drop (q + shift) = data.drop q) (pointerSize : Nat) :
    ∀ (types : List DNAType) (pos : Nat), k ≤ pos →
      readTypeLengths pointerSize data1 types (pos + shift)
        = (readTypeLengths pointerSize data types pos).map (fun r => (r.1, r.2 + shift)) := by
  intro types
  induction types with
  | nil => intro pos _; rfl
  | cons t ts ih =>
    intro pos hp
    rw [readTypeLengths, readTypeLengths]
    simp only [Option.bind_eq_bind]
    refine bind_shift (read_shift h hp (by norm_num)) (fun sz hsz => ?_)
    have := read_pos hsz
    exact bind_shift (ih sz.2 (by omega)) (fun rest _ => rfl)

theorem readFields_shift {shift k : Nat} {data data1 : List Nat}
    (h : ∀ q, k ≤ q → data1.drop (q + shift) = data.drop q)
    (pointerSize : Nat) (types : List DNAType) (names : List DNAName) :
    ∀ (n pos cur : Nat), k ≤ pos →
      readFields pointerSize data1 types names n (pos + shift) cur
        = (readFields pointerSize data types names n pos cur).map
            (fun r => (r.1, r.2.1 + shift, r.2.2)) := by
  intro n
  induction n with
  | zero => intro pos cur _; rfl
  | succ n ih =>
    intro pos cur hp
    rw [readFields, readFields]
    simp only [Option.bind_eq_bind]
    refine bind_shift (read_shift h hp (by norm_num)) (fun ti hti => ?_)
    have h1 := read_pos hti
    refine bind_shift (read_shift h (by omega) (by norm_num)) (fun ni hni => ?_)
    have h2 := read_pos hni
    refine bind_same (fun t _ => ?_)
    refine bind_same (fun nm _ => ?_)
    refine bind_same (fun c _ => ?_)
    exact bind_shift (ih ni.2 c (by omega)) (fun rest _ => rfl)

theorem readStructure_shift {shift k : Nat} {data data1 : List Nat}
    (h : ∀ q, k ≤ q → data1.drop (q + shift) = data.drop q)
    (pointerSize : Nat) (types : List DNAType) (names : List DNAName) {pos : Nat}
    (hp : k ≤ pos) :
    readStructure pointerSize data1 types names (pos + shift)
      = (readStructure pointerSize data types names pos).map
          (fun r => (r.1, r.2.1 + shift, r.2.2)) := by
  unfold readStructure
  simp only [Option.bind_eq_bind]
  refine bind_shift (read_shift h hp (by norm_num)) (fun ti hti => ?_)
  have h1 := read_pos hti
  refine bind_same (fun t _ => ?_)
  refine bind_shift (read_shift h (by omega) (by norm_num)) (fun nf hnf => ?_)
  have h2 := read_pos hnf
  exact bind_shift (readFields_shift h pointerSize types names nf.1 nf.2 0 (by omega))
    (fun fields _ => rfl)

theorem readStructures_shift {shift k : Nat} {data data1 : List Nat}
    (h : ∀ q, k ≤ q → data1.drop (q + shift) = data.drop q)
    (pointerSize : Nat) (types : List DNAType) (names : List DNAName) :
    ∀ (n pos : Nat), k ≤ pos →
      readStructures pointerSize data1 types names n (pos + shift)
        = (readStructures pointerSize data types names n pos).map
            (fun r => (r.1, r.2 + shift)) := by
  intro n
  induction n with
  | zero => intro pos _; rfl
  | succ n ih =>
    intro pos hp
    rw [readStructures, readStructures]
    simp only [Option.bind_eq_bind]
    refine bind_shift (readStructure_shift h pointerSize types names hp) (fun s hs => ?_)
    have := readStructure_pos hs
    exact bind_shift (ih s.2.1 (by omega)) (fun rest _ => rfl)

theorem readNameSection_shift {shift k : Nat} {data data1 : List Nat}
    (h : ∀ q, k ≤ q → data1.drop (q + shift) = data.drop q) (hs : shift % 4 = 0)
    (parseName : List Nat → DNAName) {pos : Nat} (hp : k ≤ pos) :
    readNameSection parseName data1 (pos + shift)
      = (readNameSection parseName data pos).map (fun r => (r.1, r.2 + shift)) := by
  unfold readNameSection
  simp only [Option.bind_eq_bind]
  refine bind_shift (readString_shift h hp 4) (fun a1 ha1 => ?_)
  have h1 := readString_pos ha1
  refine bind_shift (readString_shift h (by omega) 4) (fun a2 ha2 => ?_)
  have h2 := readString_pos ha2
  refine bind_shift (read_shift h (by omega) (by norm_num)) (fun nn hnn => ?_)
  have h3 := read_pos hnn
  refine bind_shift (readNames_shift h parseName nn.1 nn.2 (by omega)) (fun names _ => ?_)
  simp only [Option.map_some', align_shift hs]

theorem readTypeSection_shift {shift k : Nat} {data data1 : List Nat}
    (h : ∀ q, k ≤ q → data1.drop (q + shift) = data.drop q) (hs : shift % 4 = 0)
    {pos : Nat} (hp : k ≤ pos) :
    readTypeSection data1 (pos + shift)
      = (readTypeSection data pos).map (fun r => (r.1, r.2 + shift)) := by
  unfold readTypeSection
  simp only [Option.bind_eq_bind]
  refine bind_shift (readString_shift h hp 4) (fun t1 ht1 => ?_)
  have h1 := readString_pos ht1
  refine bind_shift (read_shift h (by omega) (by norm_num)) (fun nt hnt => ?_)
  have h2 := read_pos hnt
  refine bind_shift (readTypes_shift h nt.1 nt.2 0 (by omega)) (fun types _ => ?_)
  simp only [Option.map_some', align_shift hs]

theorem readLengthSection_shift {shift k : Nat} {data data1 : List Nat}
    (h : ∀ q, k ≤ q → data1.drop (q + shift) = data.drop q) (hs : shift % 4 = 0)
    (pointerSize : Nat) (types : List DNAType) {pos : Nat} (hp : k ≤ pos) :
    readLengthSection pointerSize data1 types (pos + shift)
      = (readLengthSection pointerSize data types pos).map (fun r => (r.1, r.2 + shift)) := by
  unfold readLengthSection
  simp only [Option.bind_eq_bind]
  refine bind_shift (readString_shift h hp 4) (fun l1 hl1 => ?_)
  have h1 := readString_pos hl1
  refine bind_shift (readTypeLengths_shift h pointerSize types l1.2 (by omega))
    (fun sized _ => ?_)
  simp only [Option.map_some', align_shift hs]

theorem readStructureSection_shift {shift k : Nat} {data data1 : List Nat}
    (h : ∀ q, k ≤ q → data1.drop (q + shift) = data.drop q) (hs : shift % 4 = 0)
    (pointerSize : Nat) (types : List DNAType) (names : List DNAName) {pos : Nat}
    (hp : k ≤ pos) :
    readStructureSection pointerSize data1 types names (pos + shift)
      = (readStructureSection pointerSize data types names pos).map
          (fun r => (r.1, r.2 + shift)) := by
  unfold readStructureSection
  simp only [Option.bind_eq_bind]
  refine bind_shift (readString_shift h hp 4) (fun s1 hs1 => ?_)
  have h1 := readString_pos hs1
  refine bind_shift (read_shift h (by omega) (by norm_num)) (fun ns hns => ?_)
  have h2 := read_pos hns
  refine bind_shift (readStructures_shift h pointerSize types names ns.1 ns.2 (by omega))
    (fun structures _ => ?_)
  simp only [Option.map_some', align_shift hs]

/-- The catalog read from a payload moved by a multiple of 4 bytes is the same
catalog; only the final position moves. -/
theorem readCatalog_shift {shift k : Nat} {data data1 : List Nat}
    (h : ∀ q, k ≤ q → data1.drop (q + shift) = data.drop q) (hs : shift % 4 = 0)
    (parseName : List Nat → DNAName) (pointerSize : Nat) {pos : Nat} (hp : k ≤ pos) :
    readCatalog parseName pointerSize data1 (pos + shift)
      = (readCatalog parseName pointerSize data pos).map (fun r => (r.1, r.2 + shift)) := by
  unfold readCatalog
  simp only [Option.bind_eq_bind]
  refine bind_shift (readNameSection_shift h hs parseName hp) (fun names hnames => ?_)
  have h1 := readNameSection_pos hnames
  refine bind_shift (readTypeSection_shift h hs (by omega)) (fun types0 htypes0 => ?_)
  have h2 := readTypeSection_pos htypes0
  refine bind_shift (readLengthSection_shift h hs pointerSize types0.1 (by omega))
    (fun types htypes => ?_)
  have h3 := readLengthSection_pos htypes
  exact bind_shift (readStructureSection_shift h hs pointerSize types.1 names.1 (by omega))
    (fun structures _ => rfl)

theorem linkBlocks_codes {structures : List DNAStructure} :
    ∀ (blocks linked : List Block), linkBlocks structures blocks = linked →
      linked.map Block.code = blocks.map Block.code := by
  intro blocks
  induction blocks with
  | nil =>
    intro linked h
    simp only [linkBlocks] at h
    subst h
    rfl
  | cons b bs ih =>
    intro linked h
    rw [linkBlocks] at h
    subst h
    simp [ih _ rfl]

/-- The number of headers with an address field among the first `n` entries
depends on the codes only. -/
theorem filter_code_take : ∀ (l l1 : List Block), l1.map Block.code = l.map Block.code →
    ∀ n, ((l1.take n).filter (fun b => b.code != ENDB)).length
      = ((l.take n).filter (fun b => b.code != ENDB)).length := by
  intro l
  induction l with
  | nil =>
    intro l1 h n
    simp only [List.map_nil, List.map_eq_nil_iff] at h
    subst h
    rfl
  | cons b bs ih =>
    intro l1 h n
    cases l1 with
    | nil => simp at h
    | cons b1 bs1 =>
      simp only [List.map_cons, List.cons.injEq] at h
      cases n with
      | zero => rfl
      | succ n =>
        have := ih bs1 h.2 n
        simp only [List.take_succ_cons, List.filter_cons, h.1]
        split <;> simp [this]

/-- The last entry of the widened directory is the last entry of the original
one, its payload moved by a multiple of 4 bytes. -/
theorem widenedBlocks_getLast : ∀ (blocks : List Block) (shift : Nat) (back : Block),
    blocks.getLast? = some back →
    ∃ n, (widenedBlocks shift blocks).getLast?
      = some { back with offset := back.offset + shift + 4 * n } := by
  intro blocks
  induction blocks with
  | nil => intro shift back h; simp at h
  | cons b bs ih =>
    intro shift back h
    by_cases hbs : bs = []
    · subst hbs
      simp only [List.getLast?_singleton, Option.some.injEq] at h
      subst h
      rw [widenedBlocks]
      split
      · exact ⟨1, by simp [widenedBlocks]⟩
      · exact ⟨0, by simp [widenedBlocks]⟩
    · rw [getLast?_cons_of_ne_nil _ hbs] at h
      rw [widenedBlocks]
      split
      · obtain ⟨n, hn⟩ := ih (shift + 4) back h
        rw [getLast?_cons_of_ne_nil _ (widenedBlocks_ne_nil hbs _), hn]
        exact ⟨n + 1, by simp only [Option.some.injEq, Block.mk.injEq, true_and, and_true]; omega⟩
      · obtain ⟨n, hn⟩ := ih shift back h
        rw [getLast?_cons_of_ne_nil _ (widenedBlocks_ne_nil hbs _), hn]
        exact ⟨n, rfl⟩

/-- The last entry of the linked directory has the payload offset of the last
scanned entry. -/
theorem linkBlocks_getLast {structures : List DNAStructure} {blocks linked : List Block}
    (h : linkBlocks structures blocks = linked) {back back0 : Block}
    (hback : linked.getLast? = some back) (hback0 : blocks.getLast? = some back0) :
    back.offset = back0.offset := by
  obtain ⟨hlen, hall⟩ := linkBlocks_spec _ _ h
  rw [List.getLast?_eq_getElem?] at hback hback0
  obtain ⟨hi, e⟩ := List.getElem?_eq_some_iff.1 hback
  obtain ⟨hi0, e0⟩ := List.getElem?_eq_some_iff.1 hback0
  have e1 : blocks.length - 1 = linked.length - 1 := by rw [hlen]
  have hs := hall (linked.length - 1) hi (by omega)
  rw [e] at hs
  subst hs
  simp only [e1] at e0
  rw [← e0]

/-- The number of structures of a catalog does not depend on the pointer
size it is read with. -/
theorem readCatalog_structures_length {parseName : List Nat → DNAName}
    {pointerSize pointerSize1 : Nat} {data : List Nat} {pos : Nat} {c c1 : Catalog × Nat}
    (h : readCatalog parseName pointerSize data pos = some c)
    (h1 : readCatalog parseName pointerSize1 data pos = some c1) :
    c1.1.structures.length = c.1.structures.length := by
  unfold readCatalog at h h1
  simp only [Option.bind_eq_bind, Option.bind_eq_some, Option.some.injEq] at h h1
  obtain ⟨names, hn, types0, ht0, types, ht, structures, hs, rfl⟩ := h
  obtain ⟨names1, hn1, types01, ht01, types1, ht1, structures1, hs1, rfl⟩ := h1
  rw [hn] at hn1
  obtain rfl := Option.some.inj hn1
  rw [ht0] at ht01
  obtain rfl := Option.some.inj ht01
  have hp : types1.2 = types.2 := by
    unfold readLengthSection at ht ht1
    simp only [Option.bind_eq_bind, Option.bind_eq_some, Option.some.injEq] at ht ht1
    obtain ⟨l1, hl1, ⟨sized, p⟩, hsized, rfl⟩ := ht
    obtain ⟨l2, hl2, ⟨sized1, p1⟩, hsized1, rfl⟩ := ht1
    rw [hl1] at hl2
    obtain rfl := Option.some.inj hl2
    have a := (readTypeLengths_spec _ _ _ _ hsized).2.1
    have b := (readTypeLengths_spec _ _ _ _ hsized1).2.1
    simp only [a, b]
  unfold readStructureSection at hs hs1
  simp only [Option.bind_eq_bind, Option.bind_eq_some, Option.some.injEq] at hs hs1
  obtain ⟨s1, hs1a, ns, hns, ⟨sts, p⟩, hsts, rfl⟩ := hs
  obtain ⟨s2, hs2a, ns1, hns1, ⟨sts1, p1⟩, hsts1, rfl⟩ := hs1
  rw [hp, hs1a] at hs2a
  obtain rfl := Option.some.inj hs2a
  rw [hns] at hns1
  obtain rfl := Option.some.inj hns1
  have a := (readStructures_records _ _ _ _ hsts).1
  have b := (readStructures_records _ _ _ _ hsts1).1
  simp only [a, b]

/-- Entry by entry, the widened directory against the linked original
directory. -/
theorem widenedBlocks_linked {structures : List DNAStructure} {blocks linked : List Block}
    (hlink : linkBlocks structures blocks = linked) (shift : Nat) :
    (widenedBlocks shift blocks).length = linked.length ∧
    ∀ i (hi : i < linked.length) (hi1 : i < (widenedBlocks shift blocks).length),
      ((widenedBlocks shift blocks)[i]).code = (linked[i]).code ∧
      ((widenedBlocks shift blocks)[i]).size = (linked[i]).size ∧
      ((widenedBlocks shift blocks)[i]).address = (linked[i]).address ∧
      ((widenedBlocks shift blocks)[i]).SDNAIndex = (linked[i]).SDNAIndex ∧
      ((widenedBlocks shift blocks)[i]).count = (linked[i]).count ∧
      ((widenedBlocks shift blocks)[i]).offset = (linked[i]).offset + shift
        + 4 * ((linked.take (i + 1)).filter (fun b => b.code != ENDB)).length := by
  obtain ⟨hlen, hall⟩ := linkBlocks_spec _ _ hlink
  refine ⟨by rw [widenedBlocks_length, hlen], ?_⟩
  intro i hi hi1
  have hs := hall i hi (by omega)
  have h := widenedBlocks_getElem blocks shift i (by omega) hi1
  rw [filter_code_take blocks linked (linkBlocks_codes _ _ hlink) (i + 1), hs]
  exact h

/-- Claim C19.  Let F be a container that begins with the magic, has the marker
`_` of 4-byte pointers and loads, and let F' be F with the marker changed to
`-` and the address field of every block header zero-extended from 4 to 8
bytes.  The directory scan of F' with 8-byte pointers reaches the catalog
block, and the scanned directory has the length of the loaded directory of F
and, block for block, the same code, declared size, original address, structure
index and element count; only the payload offsets move, by 4 bytes for every
header with an address field up to the block's own.  If the catalog of F can
also be read with 8-byte pointers (no field offset leaves the range of
`unsigned int`), `load` returns `true` on F', with pointer size 8, that
catalog, and a directory that agrees with the directory of F in the same
way. -/
theorem widenPointers_same_directory (inflate : List Nat → List Nat)
    (parseName : List Nat → DNAName) (pointerSize0 : Nat) (data : List Nat) (ret : Bool)
    (file : File) (hmagic : data.take 7 = BLENDER) (hmarker : data[7]? = some 95)
    (hload : load inflate parseName pointerSize0 data = some (ret, file)) :
    ((widenPointers data).take 7 = BLENDER ∧ (widenPointers data)[7]? = some 45) ∧
    file.pointerSize = 4 ∧
    (∃ blocks1, scanBlocks 8 (widenPointers data) 12 = some blocks1 ∧
      blocks1.length = file.blocks.length ∧
      ∀ i (hi : i < file.blocks.length) (hi1 : i < blocks1.length),
        (blocks1[i]).code = (file.blocks[i]).code ∧
        (blocks1[i]).size = (file.blocks[i]).size ∧
        (blocks1[i]).address = (file.blocks[i]).address ∧
        (blocks1[i]).SDNAIndex = (file.blocks[i]).SDNAIndex ∧
        (blocks1[i]).count = (file.blocks[i]).count ∧
        (blocks1[i]).offset = (file.blocks[i]).offset
          + 4 * ((file.blocks.take (i + 1)).filter (fun b => b.code != ENDB)).length) ∧
    ∀ (back : Block) (c8 : Catalog × Nat), file.blocks.getLast? = some back →
      readCatalog parseName 8 data back.offset = some c8 →
      ∃ file1,
        load inflate parseName pointerSize0 (widenPointers data) = some (true, file1) ∧
        file1.pointerSize = 8 ∧ file1.catalog = c8.1 ∧
        file1.blocks.length = file.blocks.length ∧
        ∀ i (hi : i < file.blocks.length) (hi1 : i < file1.blocks.length),
          (file1.blocks[i]).code = (file.blocks[i]).code ∧
          (file1.blocks[i]).size = (file.blocks[i]).size ∧
          (file1.blocks[i]).address = (file.blocks[i]).address ∧
          (file1.blocks[i]).SDNAIndex = (file.blocks[i]).SDNAIndex ∧
          (file1.blocks[i]).count = (file.blocks[i]).count ∧
          (file1.blocks[i]).offset = (file.blocks[i]).offset
            + 4 * ((file.blocks.take (i + 1)).filter (fun b => b.code != ENDB)).length := by
  have hopen := openStream_of_magic inflate data hmagic
  obtain ⟨-, data, m1, m2, version, blocks, back0, names, types0, types, structures,
    hd, hm1, hps, hm2, hv, -, hscan, hback0, hn, ht0, ht, hst, hcat, hlink⟩ :=
    load_eq_some hload
  rw [hopen] at hd
  obtain rfl := Option.some.inj hd
  obtain ⟨h8, rfl⟩ := (readString_eq_some (by norm_num)).1 hm1
  obtain ⟨h9, rfl⟩ := (readString_eq_some (by norm_num)).1 hm2
  obtain ⟨h12, rfl⟩ := (readString_eq_some (by norm_num)).1 hv
  have hps4 : file.pointerSize = 4 := by
    rw [hps]
    simp only [take_one_drop hmarker]
    rfl
  rw [hps4] at hscan ht hst
  have hscan12 : scanBlocks 4 data 12 = some blocks := hscan
  obtain ⟨hw7, hw45⟩ := widenPointers_header data (by omega)
  obtain ⟨hscan1, hlast⟩ := scanBlocks_widened data blocks hscan12
  obtain ⟨hlen1, hfields⟩ := widenedBlocks_linked hlink 0
  refine ⟨⟨by rw [hw7, hmagic], hw45⟩, hps4, ⟨_, hscan1, hlen1, ?_⟩, ?_⟩
  · intro i hi hi1
    simpa using hfields i hi hi1
  · intro back c8 hback hwide
    rw [linkBlocks_getLast hlink hback hback0] at hwide
    obtain ⟨n, hn1⟩ := widenedBlocks_getLast blocks 0 back0 hback0
    have hdrop := hlast back0 _ hback0 hn1
    have eoff : back0.offset + 0 + 4 * n = back0.offset + 4 * n := by omega
    simp only [eoff] at hdrop hn1
    have hcat8 := readCatalog_shift (shifted_of_drop hdrop) (by omega : (4 * n) % 4 = 0)
      parseName 8 (Nat.le_refl back0.offset)
    rw [hwide] at hcat8
    obtain ⟨hlen2, hall2⟩ := linkBlocks_spec (widenedBlocks 0 blocks)
      (linkBlocks c8.1.structures (widenedBlocks 0 blocks)) rfl
    have hps8 : choosePointerSize pointerSize0
        (trim (((widenPointers data).drop 7).take 1)) = 8 := by
      rw [take_one_drop hw45]
      rfl
    have hl1 : 12 ≤ (widenPointers data).length := by
      unfold scanBlocks at hscan1
      simp only [Option.bind_eq_bind, Option.bind_eq_some] at hscan1
      obtain ⟨first, hfirst, -⟩ := hscan1
      have := (readHeader_spec hfirst).1
      omega
    have hv1 : readString (widenPointers data) 9 3
        = some (trim (((widenPointers data).drop 9).take 3), 9 + 3) :=
      (readString_eq_some (by norm_num)).2 ⟨by omega, rfl⟩
    have hload1 : load inflate parseName pointerSize0 (widenPointers data)
        = some (true, { pointerSize := 8,
                        version := trim (((widenPointers data).drop 9).take 3),
                        blocks := linkBlocks c8.1.structures (widenedBlocks 0 blocks),
                        catalog := c8.1 }) := by
      unfold load
      rw [openStream_of_magic inflate (widenPointers data) (by rw [hw7, hmagic])]
      simp only [Option.bind_eq_bind, Option.some_bind]
      rw [loadStream_eq, if_pos (by omega), hps8, hv1]
      simp only [Option.some_bind, hscan1, hn1, hcat8, Option.map_some']
    refine ⟨_, hload1, rfl, rfl, by simp only; omega, ?_⟩
    intro i hi hi1
    simp only at hi1 ⊢
    have hs := hall2 i hi1 (by omega)
    have h := hfields i hi (by omega)
    rw [hs]
    simpa using h

/-- The first example widened loads, with the payloads of its two blocks at
36 and 64. -/
theorem load_widened_demoFile :
    (load id demoParseName 0 (widenPointers demoFile)).map
        (fun r => (r.1, r.2.pointerSize, r.2.blocks.map Block.offset))
      = some (true, 8, [36, 64]) := by
  decide

/-- The catalog of the first example laid out with 8-byte pointers. -/
theorem readCatalog_wide_demoFile :
    (readCatalog demoParseName 8 demoFile 56).isSome = true := by
  decide

/-- Witness for C19: the first example, whose widened form loads with 8-byte
pointers and the same two blocks. -/
theorem widenPointers_same_directory_witness :
    demoFile.take 7 = BLENDER ∧ demoFile[7]? = some 95 ∧
    load id demoParseName 0 demoFile = some (true, demoLoaded) ∧
    demoLoaded.blocks.getLast? = some demoBlockDNA ∧
    (readCatalog demoParseName 8 demoFile demoBlockDNA.offset).isSome = true ∧
    ∃ file1,
      load id demoParseName 0 (widenPointers demoFile) = some (true, file1) ∧
      file1.pointerSize = 8 ∧
      file1.blocks.length = demoLoaded.blocks.length ∧
      ∀ i (hi : i < demoLoaded.blocks.length) (hi1 : i < file1.blocks.length),
        (file1.blocks[i]).code = (demoLoaded.blocks[i]).code ∧
        (file1.blocks[i]).size = (demoLoaded.blocks[i]).size ∧
        (file1.blocks[i]).address = (demoLoaded.blocks[i]).address ∧
        (file1.blocks[i]).SDNAIndex = (demoLoaded.blocks[i]).SDNAIndex ∧
        (file1.blocks[i]).count = (demoLoaded.blocks[i]).count ∧
        (file1.blocks[i]).offset = (demoLoaded.blocks[i]).offset
          + 4 * ((demoLoaded.blocks.take (i + 1)).filter
              (fun b => b.code != ENDB)).length :=
  ⟨by decide, demoFile_marker, load_demoFile, by decide, readCatalog_wide_demoFile,
    ((widenPointers_same_directory id demoParseName 0 demoFile true demoLoaded
        (by decide) demoFile_marker load_demoFile).2.2.2 demoBlockDNA
        ((readCatalog demoParseName 8 demoFile demoBlockDNA.offset).get
          readCatalog_wide_demoFile)
        (by decide) (Option.some_get _).symm).elim
      (fun file1 h => ⟨file1, h.1, h.2.1, h.2.2.2.1, h.2.2.2.2⟩)⟩

/-! ## The scene -/

/-- The material loop pushes exactly the materials that are not `NULL` and not
yet in the vector, each once. -/
theorem addMaterials_spec : ∀ (ms materials : List Nat), materials.Nodup → 0 ∉ materials →
    (addMaterials materials ms).Nodup ∧ 0 ∉ addMaterials materials ms ∧
    ∀ m, m ∈ addMaterials materials ms ↔ m ∈ materials ∨ (m ≠ 0 ∧ m ∈ ms) := by
  intro ms
  induction ms with
  | nil =>
    intro materials hnd h0
    exact ⟨hnd, h0, fun m => by simp [addMaterials]⟩
  | cons a rest ih =>
    intro materials hnd h0
    rw [addMaterials]
    by_cases hc : (a != 0 && !materials.contains a) = true
    · simp only [hc, if_true]
      simp at hc
      obtain ⟨h1, h2, h3⟩ := ih (materials ++ [a])
        (List.Nodup.append hnd (List.nodup_singleton a)
          (by simpa [List.disjoint_singleton] using hc.2))
        (by simp only [List.mem_append, List.mem_singleton, not_or]; exact ⟨h0, Ne.symm hc.1⟩)
      refine ⟨h1, h2, fun m => ?_⟩
      rw [h3]
      simp only [List.mem_append, List.mem_cons, List.not_mem_nil, or_false]
      constructor
      · rintro ((h | rfl) | ⟨hm, hr⟩)
        · exact Or.inl h
        · exact Or.inr ⟨hc.1, Or.inl rfl⟩
        · exact Or.inr ⟨hm, Or.inr hr⟩
      · rintro (h | ⟨hm, rfl | hr⟩)
        · exact Or.inl (Or.inl h)
        · exact Or.inl (Or.inr rfl)
        · exact Or.inr ⟨hm, hr⟩
    · simp only [hc, Bool.false_eq_true, if_false]
      obtain ⟨h1, h2, h3⟩ := ih materials hnd h0
      refine ⟨h1, h2, fun m => ?_⟩
      rw [h3]
      simp at hc
      simp only [List.mem_cons]
      constructor
      · rintro (h | ⟨hm, hr⟩)
        · exact Or.inl h
        · exact Or.inr ⟨hm, Or.inr hr⟩
      · rintro (h | ⟨hm, rfl | hr⟩)
        · exact Or.inl h
        · exact Or.inl (hc hm)
        · exact Or.inr ⟨hm, hr⟩

/-- The assignment `obj->scene = this` changes the type of no object. -/
theorem typeOf_store {heap : List (Nat × Object)} {obj : Nat} {o : Object}
    (h : deref heap obj = some o) (self p : Nat) :
    typeOf ((obj, { o with scene := self }) :: heap) p = typeOf heap p := by
  unfold typeOf deref at *
  by_cases hp : p = 0
  · simp [hp]
  · simp only [hp, if_false, List.lookup_cons]
    by_cases hpo : p = obj
    · subst hpo
      simp only [hp, if_false] at h
      simp [h]
    · have : (p == obj) = false := by simpa using hpo
      simp [this]

/-- A call of `addObject` with an object of the scene returns at once: nothing
changes. -/
theorem addObject_present {s : Scene} {obj : Nat} (h : obj ∈ s.objects) (self : Nat)
    (heap : List (Nat × Object)) : s.addObject self heap obj = .ok (heap, s) := by
  unfold Scene.addObject
  simp [h]

/-- A call of `addObject` with `NULL`, or with a pointer to no object, that is
not in the scene: the pointer is pushed and then dereferenced. -/
theorem addObject_fault {s : Scene} {obj : Nat} (h : obj ∉ s.objects) (self : Nat)
    {heap : List (Nat × Object)} (hd : deref heap obj = none) :
    s.addObject self heap obj
      = .error { pointer := obj,
                 scene := { s with objects := s.objects ++ [obj],
                                   timeline := s.timeline ++ [obj] } } := by
  unfold Scene.addObject
  simp [h, hd]

/-- A call of `addObject` with an object that is not in the scene. -/
theorem addObject_new {s : Scene} {obj : Nat} (h : obj ∉ s.objects) (self : Nat)
    {heap : List (Nat × Object)} {o : Object} (hd : deref heap obj = some o) :
    ∃ s1, s.addObject self heap obj = .ok ((obj, { o with scene := self }) :: heap, s1) ∧
      s1.objects = s.objects ++ [obj] ∧ s1.activeCamera = s.activeCamera ∧
      s1.meshes = (if o.type = ObjectType.MESH then s.meshes ++ [obj] else s.meshes) ∧
      s1.cameras = (if o.type = ObjectType.CAMERA then s.cameras ++ [obj] else s.cameras) ∧
      s1.lights = (if o.type = ObjectType.LIGHT then s.lights ++ [obj] else s.lights) ∧
      s1.materials = (if o.type = ObjectType.MESH then addMaterials s.materials o.materials
        else s.materials) := by
  have hc : s.objects.contains obj = false := by simpa using h
  unfold Scene.addObject
  simp only [hc, Bool.false_eq_true, if_false, hd]
  cases o.type <;> exact ⟨_, rfl, rfl, rfl, rfl, rfl, rfl, rfl⟩

theorem typeOf_isSome (heap : List (Nat × Object)) (p : Nat) :
    (typeOf heap p).isSome = (deref heap p).isSome := by
  unfold typeOf
  cases deref heap p <;> rfl

/-- One typed vector across a call of `addObject` that pushes `obj`, an object
of type `t`: the vector of the type `T` gets `obj` exactly when `t` is `T`. -/
theorem typed_vector_step {l objects : List Nat} {T t : ObjectType}
    {ty : Nat → Option ObjectType} {obj : Nat} (hnd : l.Nodup)
    (hiff : ∀ p, p ∈ l ↔ p ∈ objects ∧ ty p = some T) (hobj : obj ∉ objects)
    (ht : ty obj = some t) :
    (if t = T then l ++ [obj] else l).Nodup ∧
    ∀ p, p ∈ (if t = T then l ++ [obj] else l) ↔ p ∈ objects ++ [obj] ∧ ty p = some T := by
  have hnl : obj ∉ l := fun h => hobj ((hiff obj).1 h).1
  by_cases htT : t = T
  · subst htT
    simp only [if_true]
    refine ⟨List.Nodup.append hnd (List.nodup_singleton obj)
      (by simpa [List.disjoint_singleton] using hnl), fun p => ?_⟩
    simp only [List.mem_append, List.mem_singleton, hiff]
    constructor
    · rintro (⟨h1, h2⟩ | rfl)
      · exact ⟨Or.inl h1, h2⟩
      · exact ⟨Or.inr rfl, ht⟩
    · rintro ⟨h1 | rfl, h2⟩
      · exact Or.inl ⟨h1, h2⟩
      · exact Or.inr rfl
  · simp only [htT, if_false]
    refine ⟨hnd, fun p => ?_⟩
    simp only [List.mem_append, List.mem_singleton, hiff]
    constructor
    · rintro ⟨h1, h2⟩
      exact ⟨Or.inl h1, h2⟩
    · rintro ⟨h1 | rfl, h2⟩
      · exact ⟨h1, h2⟩
      · rw [ht] at h2
        exact absurd (Option.some.inj h2) htT

/-- The constructor leaves a consistent scene. -/
theorem new_consistent (heap : List (Nat × Object)) : Scene.new.Consistent heap := by
  unfold Scene.Consistent Scene.new
  simp

/-- A call of `addObject` with a pointer to an object returns and keeps the
scene consistent; the objects of the scene are the old ones and `obj`, and no
object changes its type. -/
theorem addObject_consistent {s : Scene} {heap : List (Nat × Object)} {obj : Nat}
    (self : Nat) (hinv : s.Consistent heap) (hd : (deref heap obj).isSome = true) :
    ∃ heap1 s1, s.addObject self heap obj = .ok (heap1, s1) ∧ s1.Consistent heap1 ∧
      (∀ p, typeOf heap1 p = typeOf heap p) ∧
      (∀ p, p ∈ s1.objects ↔ p ∈ s.objects ∨ p = obj) := by
  by_cases hmem : obj ∈ s.objects
  · refine ⟨heap, s, addObject_present hmem self heap, hinv, fun _ => rfl, fun p => ?_⟩
    constructor
    · exact Or.inl
    · rintro (h | rfl)
      · exact h
      · exact hmem
  · obtain ⟨o, ho⟩ := Option.isSome_iff_exists.1 hd
    obtain ⟨s1, hs1, hobjects, -, hmeshes, hcameras, hlights, hmaterials⟩ :=
      addObject_new hmem self ho
    have hty : typeOf heap obj = some o.type := by
      unfold typeOf
      rw [ho]
      rfl
    obtain ⟨h1, h2, h3, h4, h5, h6, h7, h8, h9⟩ := hinv
    have hm := typed_vector_step h2 h5 hmem hty
    have hc := typed_vector_step h3 h6 hmem hty
    have hl := typed_vector_step h4 h7 hmem hty
    refine ⟨_, s1, hs1, ?_, fun p => typeOf_store ho self p, fun p => ?_⟩
    · unfold Scene.Consistent
      simp only [typeOf_store ho self, hobjects, hmeshes, hcameras, hlights, hmaterials]
      refine ⟨List.Nodup.append h1 (List.nodup_singleton obj)
        (by simpa [List.disjoint_singleton] using hmem), hm.1, hc.1, hl.1, hm.2, hc.2, hl.2, ?_⟩
      by_cases hmesh : o.type = ObjectType.MESH
      · simp only [hmesh, if_true]
        have := addMaterials_spec o.materials s.materials h8 h9
        exact ⟨this.1, this.2.1⟩
      · simp only [hmesh, if_false]
        exact ⟨h8, h9⟩
    · rw [hobjects]
      simp

/-- A sequence of `addObject` calls with pointers to objects returns and keeps
the scene consistent. -/
theorem addObjects_consistent (self : Nat) :
    ∀ (calls : List Nat) (heap : List (Nat × Object)) (s : Scene), s.Consistent heap →
      (∀ obj ∈ calls, (deref heap obj).isSome = true) →
      ∃ heap1 s1, s.addObjects self heap calls = .ok (heap1, s1) ∧ s1.Consistent heap1 ∧
        (∀ p, typeOf heap1 p = typeOf heap p) ∧
        (∀ p, p ∈ s1.objects ↔ p ∈ s.objects ∨ p ∈ calls) := by
  intro calls
  induction calls with
  | nil =>
    intro heap s hinv _
    exact ⟨heap, s, rfl, hinv, fun _ => rfl, fun p => by simp⟩
  | cons obj rest ih =>
    intro heap s hinv hvalid
    obtain ⟨heap1, s1, hstep, hinv1, hty1, hobj1⟩ :=
      addObject_consistent self hinv (hvalid obj (List.mem_cons_self _ _))
    have hvalid1 : ∀ q ∈ rest, (deref heap1 q).isSome = true := by
      intro q hq
      rw [← typeOf_isSome, hty1, typeOf_isSome]
      exact hvalid q (List.mem_cons_of_mem _ hq)
    obtain ⟨heap2, s2, hrest, hinv2, hty2, hobj2⟩ := ih heap1 s1 hinv1 hvalid1
    refine ⟨heap2, s2, ?_, hinv2, fun p => by rw [hty2, hty1], fun p => ?_⟩
    · rw [Scene.addObjects, hstep]
      exact hrest
    · rw [hobj2, hobj1]
      simp only [List.mem_cons]
      tauto

/-- No call of `addObject` that returns puts `NULL` into the vector `objects`. -/
theorem addObject_no_null {s : Scene} {self : Nat} {heap heap1 : List (Nat × Object)}
    {obj : Nat} {s1 : Scene} (h0 : 0 ∉ s.objects)
    (h : s.addObject self heap obj = .ok (heap1, s1)) : 0 ∉ s1.objects := by
  by_cases hmem : obj ∈ s.objects
  · rw [addObject_present hmem] at h
    simp only [Except.ok.injEq, Prod.mk.injEq] at h
    rw [← h.2]
    exact h0
  · cases hd : deref heap obj with
    | none =>
      rw [addObject_fault hmem self hd] at h
      exact absurd h (by simp)
    | some o =>
      obtain ⟨s2, hs2, hobjects, -⟩ := addObject_new hmem self hd
      rw [hs2] at h
      simp only [Except.ok.injEq, Prod.mk.injEq] at h
      rw [← h.2, hobjects]
      have hne : obj ≠ 0 := by
        rintro rfl
        simp [deref] at hd
      simp only [List.mem_append, List.mem_singleton, not_or]
      exact ⟨h0, Ne.symm hne⟩

theorem addObjects_no_null (self : Nat) :
    ∀ (calls : List Nat) (heap heap1 : List (Nat × Object)) (s s1 : Scene),
      0 ∉ s.objects → s.addObjects self heap calls = .ok (heap1, s1) → 0 ∉ s1.objects := by
  intro calls
  induction calls with
  | nil =>
    intro heap heap1 s s1 h0 h
    simp only [Scene.addObjects, Except.ok.injEq, Prod.mk.injEq] at h
    rw [← h.2]
    exact h0
  | cons obj rest ih =>
    intro heap heap1 s s1 h0 h
    rw [Scene.addObjects] at h
    cases hstep : s.addObject self heap obj with
    | error f =>
      rw [hstep] at h
      exact absurd h (by simp)
    | ok r =>
      rw [hstep] at h
      exact ih _ _ _ _ (addObject_no_null h0 hstep) h

/-- `disableCamera` on a scene whose vector `objects` holds no `NULL`: the
`NULL` is pushed, then dereferenced. -/
theorem disableCamera_fault {s : Scene} (h0 : 0 ∉ s.objects) (self : Nat)
    (heap : List (Nat × Object)) :
    s.disableCamera self heap
      = .error { pointer := 0,
                 scene := { s with objects := s.objects ++ [0],
                                   timeline := s.timeline ++ [0] } } := by
  unfold Scene.disableCamera Scene.setActiveCamera
  rw [addObject_fault h0 self (by simp [deref])]

/-- Claim C21, evaluated.  `disableCamera()` is `setActiveCamera(NULL)`, which
calls `addObject(NULL)`.  On every scene whose vector `objects` holds no `NULL`,
hence on every scene that the constructor and calls of `addObject` that return
lead to, `addObject(NULL)` pushes the `NULL` to `objects`, hands
`&obj->timeline` to the timeline and then reads `obj->type` through the `NULL`:
the call does not complete, and at that moment `objects` has the new entry
`NULL`.  Only on a scene whose `objects` held a `NULL` already would the call
return, with the vectors unchanged and no active camera. -/
theorem disableCamera_dereferences_null (self : Nat) (heap : List (Nat × Object)) :
    (∀ s : Scene, 0 ∉ s.objects →
      s.disableCamera self heap
        = .error { pointer := 0,
                   scene := { s with objects := s.objects ++ [0],
                                     timeline := s.timeline ++ [0] } }) ∧
    (∀ (calls : List Nat) (heap0 : List (Nat × Object)) (s : Scene),
      Scene.new.addObjects self heap0 calls = .ok (heap, s) →
      s.disableCamera self heap
        = .error { pointer := 0,
                   scene := { s with objects := s.objects ++ [0],
                                     timeline := s.timeline ++ [0] } }) ∧
    (∀ s : Scene, 0 ∈ s.objects →
      s.disableCamera self heap = .ok (heap, { s with activeCamera := 0 }) ∧
      Scene.getActiveCamera { s with activeCamera := 0 } = 0) := by
  refine ⟨fun s h0 => disableCamera_fault h0 self heap, ?_, ?_⟩
  · intro calls heap0 s h
    exact disableCamera_fault
      (addObjects_no_null self calls heap0 heap Scene.new s (by simp [Scene.new]) h) self heap
  · intro s h0
    refine ⟨?_, rfl⟩
    unfold Scene.disableCamera Scene.setActiveCamera
    rw [addObject_present h0]

/-- Witness for C21: `disableCamera()` on a new scene, and on the scene with
the camera at 20 as its active camera. -/
theorem disableCamera_dereferences_null_witness :
    0 ∉ Scene.new.objects ∧
    Scene.new.disableCamera 1 demoHeap
      = .error { pointer := 0,
                 scene := { activeCamera := 0, objects := [0], meshes := [], cameras := [],
                            lights := [], materials := [], timeline := [0] } } ∧
    (∃ heap1, Scene.new.setActiveCamera 1 demoHeap 20
      = .ok (heap1, { activeCamera := 20, objects := [20], meshes := [], cameras := [20],
                      lights := [], materials := [], timeline := [20] }) ∧
      Scene.disableCamera
          { activeCamera := 20, objects := [20], meshes := [], cameras := [20],
            lights := [], materials := [], timeline := [20] } 1 heap1
        = .error { pointer := 0,
                   scene := { activeCamera := 20, objects := [20, 0], meshes := [],
                              cameras := [20], lights := [], materials := [],
                              timeline := [20, 0] } }) :=
  ⟨by decide, (disableCamera_dereferences_null 1 demoHeap).1 Scene.new (by decide),
    ⟨_, rfl, rfl⟩⟩

/-- Claim C22.  For every sequence of `addObject` calls on a new scene with
pointers that are not `NULL` and point to objects: every call returns and no
object changes its type; the vector `objects` holds no pointer twice and holds
exactly the objects of the calls; a call with an object of the scene changes
nothing; every pointer is in the vector `meshes` once if it is an added object
of type `MESH` and not at all otherwise, and likewise for `cameras` with
`CAMERA` and `lights` with `LIGHT`; and the vector `materials` holds no `NULL`
and no pointer twice. -/
theorem addObjects_no_duplicates (self : Nat) (heap : List (Nat × Object))
    (calls : List Nat)
    (hvalid : ∀ obj ∈ calls, obj ≠ 0 ∧ (heap.lookup obj).isSome = true) :
    ∃ heap1 s, Scene.new.addObjects self heap calls = .ok (heap1, s) ∧
      (∀ p, typeOf heap1 p = typeOf heap p) ∧
      s.objects.Nodup ∧ (∀ p, p ∈ s.objects ↔ p ∈ calls) ∧
      (∀ obj ∈ calls, s.addObject self heap1 obj = .ok (heap1, s)) ∧
      (∀ p,
        s.meshes.count p
          = (if p ∈ calls ∧ typeOf heap p = some ObjectType.MESH then 1 else 0) ∧
        s.cameras.count p
          = (if p ∈ calls ∧ typeOf heap p = some ObjectType.CAMERA then 1 else 0) ∧
        s.lights.count p
          = (if p ∈ calls ∧ typeOf heap p = some ObjectType.LIGHT then 1 else 0)) ∧
      s.materials.Nodup ∧ 0 ∉ s.materials := by
  have hd : ∀ obj ∈ calls, (deref heap obj).isSome = true := by
    intro obj hobj
    obtain ⟨h1, h2⟩ := hvalid obj hobj
    unfold deref
    simp only [h1, if_false]
    exact h2
  obtain ⟨heap1, s, hrun, hinv, hty, hobjects⟩ :=
    addObjects_consistent self calls heap Scene.new (new_consistent heap) hd
  have hobjects1 : ∀ p, p ∈ s.objects ↔ p ∈ calls := by
    intro p
    rw [hobjects]
    simp [Scene.new]
  obtain ⟨h1, h2, h3, h4, h5, h6, h7, h8, h9⟩ := hinv
  have hcount : ∀ (l : List Nat) (T : ObjectType), l.Nodup →
      (∀ p, p ∈ l ↔ p ∈ s.objects ∧ typeOf heap1 p = some T) →
      ∀ p, l.count p = (if p ∈ calls ∧ typeOf heap p = some T then 1 else 0) := by
    intro l T hnd hiff p
    by_cases hp : p ∈ l
    · have := (hiff p).1 hp
      rw [hobjects1, hty] at this
      rw [if_pos this]
      exact List.count_eq_one_of_mem hnd hp
    · have : ¬ (p ∈ calls ∧ typeOf heap p = some T) := by
        intro hc
        rw [← hobjects1, ← hty] at hc
        exact hp ((hiff p).2 hc)
      rw [if_neg this]
      exact List.count_eq_zero_of_not_mem hp
  refine ⟨heap1, s, hrun, hty, h1, hobjects1, ?_, ?_, h8, h9⟩
  · intro obj hobj
    exact addObject_present ((hobjects1 obj).2 hobj) self heap1
  · intro p
    exact ⟨hcount _ _ h2 h5 p, hcount _ _ h3 h6 p, hcount _ _ h4 h7 p⟩

/-- The calls of the example on a new scene: two meshes, a camera, a light
and an object of another type, the first mesh and the camera twice. -/
theorem addObjects_demoHeap :
    (Scene.new.addObjects 1 demoHeap [10, 20, 10, 30, 40, 50, 20]).toOption.map
        (fun r => r.2)
      = some { activeCamera := 0, objects := [10, 20, 30, 40, 50], meshes := [10, 40],
               cameras := [20], lights := [30], materials := [100, 101],
               timeline := [10, 20, 30, 40, 50] } := by
  decide

/-- Witness for C22: the calls of the example. -/
theorem addObjects_no_duplicates_witness :
    (∀ obj ∈ [10, 20, 10, 30, 40, 50, 20],
      obj ≠ 0 ∧ (demoHeap.lookup obj).isSome = true) ∧
    ∃ heap1 s, Scene.new.addObjects 1 demoHeap [10, 20, 10, 30, 40, 50, 20]
        = .ok (heap1, s) ∧
      s.objects.Nodup ∧ (∀ p, p ∈ s.objects ↔ p ∈ [10, 20, 10, 30, 40, 50, 20]) ∧
      s.materials.Nodup ∧ 0 ∉ s.materials :=
  ⟨by decide,
    (addObjects_no_duplicates 1 demoHeap [10, 20, 10, 30, 40, 50, 20] (by decide)).elim
      (fun heap1 h => h.elim
        (fun s hs => ⟨heap1, s, hs.1, hs.2.2.1, hs.2.2.2.1, hs.2.2.2.2.2.2⟩))⟩

end ofx.blender
